import Mathlib

/-!
# Path and diagnostic model of `pkg/operationreport/externalerror.go`

A shallow embedding of the `operationreport` package: the `PathItem` / `Path`
location model with its JSON encoding and decoding, the display rendering of a
`Path`, and the catalog of diagnostic constructors.  A second part models the
planner and the GraphQL data source from the specification and holds the data
of `graphql_datasource_test.go`.

Conventions of the embedding

* A Go `string` and the contents of a Go `[]byte` are lists of bytes.
* A Go byte slice is `Option (List UInt8)`: `none` is the `nil` slice, which the
  code distinguishes from an empty one (`data == nil`).  Capacity and aliasing
  of backing arrays are not modelled; only the values returned are.
* Go `int` is taken to be 64 bits wide.  Integers are `Int`; conversions to
  `int64` wrap explicitly.
* A run-time panic (index or slice bound exceeded) is an explicit outcome.
-/

namespace OperationReport

/-! ## Go values -/

/-- The bytes of an ASCII literal of the source text. -/
def ascii (s : String) : List UInt8 :=
  s.toList.map (fun c => UInt8.ofNat c.toNat)

/-- Go `[]byte` (and `ast.ByteSlice`, declared as `[]byte`): `none` is `nil`. -/
abbrev ByteSlice := Option (List UInt8)

/-- The elements of a byte slice; `nil` has none. -/
def ByteSlice.bytes : ByteSlice → List UInt8
  | none => []
  | some l => l

/-- Go `len(b)`. -/
def len (b : ByteSlice) : Nat := b.bytes.length

/-- Go `bytes.Equal`: same length and same bytes; `nil` equals an empty slice. -/
def bytes.Equal (a b : ByteSlice) : Bool := a.bytes == b.bytes

/-- Outcome of running Go code that may panic at run time. -/
inductive Exec (α : Type) where
  | ret (a : α)
  | indexOutOfRange
  | sliceBoundsOutOfRange
  deriving DecidableEq, Repr

deriving instance DecidableEq for Except

/-- Go error values produced by this package and by `strconv`. -/
inductive GoError where
  | dataMustNotBeNil
  | cannotMarshalUnknownPathKind
  | ErrSyntax
  | ErrRange
  deriving DecidableEq, Repr

/-! ## `strconv` for base 10 and 64 bits -/

/-- Wrap an integer into the range of `int64` (two's complement). -/
def toInt64 (x : Int) : Int := (x + 2 ^ 63) % 2 ^ 64 - 2 ^ 63

/-- The ASCII digit for `d` (`byte(d + '0')`). -/
def digitByte (d : Nat) : UInt8 := UInt8.ofNat (48 + d)

/-- The digit loop of `strconv.formatBits` for base 10: digits are produced
from the least significant one and written in front of `acc`.  The first
argument bounds the number of iterations. -/
def strconv.formatBits : Nat → Nat → List UInt8 → List UInt8
  | 0, u, acc => digitByte (u % 10) :: acc
  | fuel + 1, u, acc =>
    if u ≥ 10 then strconv.formatBits fuel (u / 10) (digitByte (u % 10) :: acc)
    else digitByte u :: acc

/-- Go `strconv.AppendInt(nil, i, 10)` for an `int64` value `i`: a minus sign
for a negative value, then the decimal digits of the magnitude.  An `int64`
has at most 19 digits. -/
def strconv.AppendInt (i : Int) : List UInt8 :=
  if i < 0 then 45 :: strconv.formatBits 19 i.natAbs []
  else strconv.formatBits 19 i.natAbs []

/-- Go `strconv.Itoa(i)`, which is `FormatInt(int64(i), 10)`. -/
def strconv.Itoa (i : Int) : List UInt8 := strconv.AppendInt (toInt64 i)

/-- One iteration of the loop of `strconv.ParseUint(s, 10, 64)` on byte `c`
with accumulator `n`: a byte that is not a decimal digit is a syntax error,
and a value beyond `maxUint64` is a range error. -/
def strconv.ParseUint.step (n : Nat) (c : UInt8) : Except GoError Nat :=
  if 48 ≤ c.toNat ∧ c.toNat ≤ 57 then
    let d := c.toNat - 48
    -- cutoff is the smallest number such that cutoff*10 > maxUint64
    if n ≥ (2 ^ 64 - 1) / 10 + 1 then .error .ErrRange
    else
      let n1 := n * 10 + d
      if n1 > 2 ^ 64 - 1 then .error .ErrRange
      else .ok n1
  else .error .ErrSyntax

/-- The loop of `strconv.ParseUint(s, 10, 64)` over the bytes of `s`. -/
def strconv.ParseUint.loop : List UInt8 → Nat → Except GoError Nat
  | [], n => .ok n
  | c :: cs, n =>
    match strconv.ParseUint.step n c with
    | .error e => .error e
    | .ok n1 => strconv.ParseUint.loop cs n1

/-- Go `strconv.ParseUint(s, 10, 64)`. -/
def strconv.ParseUint (s : List UInt8) : Except GoError Nat :=
  if s = [] then .error .ErrSyntax else strconv.ParseUint.loop s 0

/-- Go `strconv.ParseInt(s, 10, 64)`: an optional sign, then `ParseUint`, then
the range check against `1 << 63`. -/
def strconv.ParseInt (s : List UInt8) : Except GoError Int :=
  match s with
  | [] => .error .ErrSyntax
  | c :: rest =>
    let neg := c == 45
    let s1 := if c == 43 then rest else if c == 45 then rest else s
    match strconv.ParseUint s1 with
    | .error e => .error e
    | .ok un =>
      if !neg && un ≥ 2 ^ 63 then .error .ErrRange
      else if neg && un > 2 ^ 63 then .error .ErrRange
      else .ok (if neg then -(un : Int) else (un : Int))

/-! ## The path model -/

/-- Go `type PathKind int`. -/
abbrev PathKind := Int

/-- Go constant `UnknownPathKind` (`iota` = 0). -/
def UnknownPathKind : PathKind := 0
/-- Go constant `ArrayIndex` (1). -/
def ArrayIndex : PathKind := 1
/-- Go constant `FieldName` (2). -/
def FieldName : PathKind := 2

/-- Go `type PathItem struct`. -/
structure PathItem where
  Kind : PathKind
  ArrayIndex : Int
  FieldName : ByteSlice
  deriving DecidableEq, Repr

/-- The zero value of `PathItem`. -/
def PathItem.zero : PathItem := ⟨UnknownPathKind, 0, none⟩

/-- Go `type Path []PathItem`. -/
abbrev Path := List PathItem

/-- The body of the loop of `Path.Equals` from position `i` on, the two paths
having the same length. -/
def Path.Equals.loop : List PathItem → List PathItem → Bool
  | a :: p, b :: another =>
    if a.Kind != b.Kind then false
    else if a.Kind == ArrayIndex && a.ArrayIndex != b.ArrayIndex then false
    else if !bytes.Equal a.FieldName b.FieldName then false
    else Path.Equals.loop p another
  | _, _ => true

/-- Go `func (p Path) Equals(another Path) bool`. -/
def Path.Equals (p another : Path) : Bool :=
  if p.length != another.length then false
  else Path.Equals.loop p another

/-- Go `append(s, elems...)` on byte slices, as a value: appending nothing to
`nil` gives `nil`. -/
def builtin.append (s : ByteSlice) (elems : List UInt8) : ByteSlice :=
  match s, elems with
  | none, [] => none
  | _, _ => some (s.bytes ++ elems)

/-- Modelled from the spec: `unsafebytes.BytesToString` of the repository's
`internal/pkg/unsafebytes` package, which is not among the sources at hand.  It
reinterprets the bytes of a slice as a string without copying, so a field name
is displayed as its own bytes ("without quotes"). -/
def unsafebytes.BytesToString (b : ByteSlice) : List UInt8 := b.bytes

/-- The loop of `Path.String`: `i` is the index of the next item and `out`
the text built so far. -/
def Path.String.loop : Nat → List PathItem → List UInt8 → List UInt8
  | _, [], out => out
  | i, it :: rest, out =>
    let out1 := if i != 0 then out ++ ascii "," else out
    let out2 :=
      if it.Kind == ArrayIndex then out1 ++ strconv.Itoa it.ArrayIndex
      else if it.Kind == FieldName then
        if len it.FieldName == 0 then out1 ++ ascii "query"
        else out1 ++ unsafebytes.BytesToString it.FieldName
      else out1
    Path.String.loop (i + 1) rest out2

/-- Go `func (p Path) String() string`. -/
def Path.String (p : Path) : List UInt8 :=
  Path.String.loop 0 p (ascii "[") ++ ascii "]"

/-- Go `func (p *PathItem) UnmarshalJSON(data []byte) error`: the result is
the receiver after the call together with the error returned, or a panic. -/
def PathItem.UnmarshalJSON (p : PathItem) (data : ByteSlice) :
    Exec (PathItem × Option GoError) :=
  match data with
  | none => .ret (p, some .dataMustNotBeNil)
  | some d =>
    -- data[0]
    match d[0]? with
    | none => .indexOutOfRange
    | some first =>
      -- data[len(data)-1], evaluated only when the first byte is a quote
      let quoted : Exec Bool :=
        if first == 34 then
          match d[d.length - 1]? with
          | none => .indexOutOfRange
          | some last => .ret (last == 34)
        else .ret false
      match quoted with
      | .indexOutOfRange => .indexOutOfRange
      | .sliceBoundsOutOfRange => .sliceBoundsOutOfRange
      | .ret true =>
        -- data[1 : len(data)-1]
        if 1 ≤ d.length - 1 then
          .ret ({ p with Kind := OperationReport.FieldName,
                         FieldName := some ((d.take (d.length - 1)).drop 1) }, none)
        else .sliceBoundsOutOfRange
      | .ret false =>
        match strconv.ParseInt d with
        | .error e => .ret (p, some e)
        | .ok out =>
          .ret ({ p with Kind := OperationReport.ArrayIndex, ArrayIndex := out }, none)

/-- Go `func (p PathItem) MarshalJSON() ([]byte, error)`. -/
def PathItem.MarshalJSON (p : PathItem) : ByteSlice × Option GoError :=
  if p.Kind = OperationReport.ArrayIndex then
    (some (strconv.AppendInt (toInt64 p.ArrayIndex)), none)
  else if p.Kind = OperationReport.FieldName then
    (builtin.append (some (ascii "\""))
      (builtin.append p.FieldName (ascii "\"")).bytes, none)
  else (none, some .cannotMarshalUnknownPathKind)

/-! ## Diagnostics -/

/-- Go `type Location struct`. -/
structure Location where
  Line : Nat
  Column : Nat
  deriving DecidableEq, Repr

/-- Go `type ExternalError struct`. -/
structure ExternalError where
  Message : List UInt8
  Path : Path
  Locations : List Location
  deriving DecidableEq, Repr

/-- The zero value of `ExternalError`, the initial value of the named result
`err` of every constructor. -/
def ExternalError.zero : ExternalError := ⟨[], [], []⟩

/-- Go `fmt.Sprintf` for a format whose only verb is `%s` and whose operands
are byte slices: each `%s` is replaced by the bytes of the next operand, a
`%s` with no operand left by `%!s(MISSING)`, and every other byte is copied.
Other verbs and operands left over at the end of the format do not occur in
this package and are not rendered. -/
def fmt.Sprintf : List UInt8 → List ByteSlice → List UInt8
  | [], _ => []
  | [c], _ => [c]
  | c :: d :: rest, args =>
    if c == 37 && d == 115 then
      match args with
      | a :: args1 => a.bytes ++ fmt.Sprintf rest args1
      | [] => ascii "%!s(MISSING)" ++ fmt.Sprintf rest []
    else c :: fmt.Sprintf (d :: rest) args

/-- Go `func ErrFieldUndefinedOnType`. -/
def ErrFieldUndefinedOnType (fieldName typeName : ByteSlice) : ExternalError :=
  { ExternalError.zero with
    Message := fmt.Sprintf (ascii "field: %s not defined on type: %s") [fieldName, typeName] }

/-- Go `func ErrTypeUndefined`. -/
def ErrTypeUndefined (typeName : ByteSlice) : ExternalError :=
  { ExternalError.zero with
    Message := fmt.Sprintf (ascii "type not defined: %s") [typeName] }

/-- Go `func ErrOperationNameMustBeUnique`. -/
def ErrOperationNameMustBeUnique (operationName : ByteSlice) : ExternalError :=
  { ExternalError.zero with
    Message := fmt.Sprintf (ascii "operation name must be unique: %s") [operationName] }

/-- Go `func ErrAnonymousOperationMustBeTheOnlyOperationInDocument`. -/
def ErrAnonymousOperationMustBeTheOnlyOperationInDocument : ExternalError :=
  { ExternalError.zero with
    Message := fmt.Sprintf (ascii "anonymous operation name the only operation in a graphql document") [] }

/-- Go `func ErrSubscriptionMustOnlyHaveOneRootSelection`. -/
def ErrSubscriptionMustOnlyHaveOneRootSelection (subscriptionName : ByteSlice) : ExternalError :=
  { ExternalError.zero with
    Message := fmt.Sprintf (ascii "subscription: %s must only have one root selection") [subscriptionName] }

/-- Go `func ErrFieldSelectionOnUnion`. -/
def ErrFieldSelectionOnUnion (fieldName unionName : ByteSlice) : ExternalError :=
  { ExternalError.zero with
    Message := fmt.Sprintf (ascii "cannot select field: %s on union: %s") [fieldName, unionName] }

/-- Go `func ErrFieldsConflict`. -/
def ErrFieldsConflict (objectName leftType rightType : ByteSlice) : ExternalError :=
  { ExternalError.zero with
    Message := fmt.Sprintf (ascii "fields '%s' conflict because they return conflicting types '%s' and '%s'") [objectName, leftType, rightType] }

/-- Go `func ErrTypesForFieldMismatch`. -/
def ErrTypesForFieldMismatch (objectName leftType rightType : ByteSlice) : ExternalError :=
  { ExternalError.zero with
    Message := fmt.Sprintf (ascii "differing types '%s' and '%s' for objectName '%s'") [leftType, rightType, objectName] }

/-- Go `func ErrResponseOfDifferingTypesMustBeOfSameShape`. -/
def ErrResponseOfDifferingTypesMustBeOfSameShape (leftObjectName rightObjectName : ByteSlice) : ExternalError :=
  { ExternalError.zero with
    Message := fmt.Sprintf (ascii "objects '%s' and '%s' on differing response types must be of same response shape") [leftObjectName, rightObjectName] }

/-- Go `func ErrDifferingFieldsOnPotentiallySameType`. -/
def ErrDifferingFieldsOnPotentiallySameType (objectName : ByteSlice) : ExternalError :=
  { ExternalError.zero with
    Message := fmt.Sprintf (ascii "differing fields for objectName '%s' on (potentially) same type") [objectName] }

/-- Go `func ErrFieldSelectionOnScalar`. -/
def ErrFieldSelectionOnScalar (fieldName scalarTypeName : ByteSlice) : ExternalError :=
  { ExternalError.zero with
    Message := fmt.Sprintf (ascii "cannot select field: %s on scalar %s") [fieldName, scalarTypeName] }

/-- Go `func ErrMissingFieldSelectionOnNonScalar`. -/
def ErrMissingFieldSelectionOnNonScalar (fieldName enclosingTypeName : ByteSlice) : ExternalError :=
  { ExternalError.zero with
    Message := fmt.Sprintf (ascii "non scalar field: %s on type: %s must have selections") [fieldName, enclosingTypeName] }

/-- Go `func ErrCannotMergeSelectionSet`. -/
def ErrCannotMergeSelectionSet : ExternalError :=
  { ExternalError.zero with
    Message := ascii "cannot merge selection set" }

/-- Go `func ErrArgumentNotDefinedOnNode`. -/
def ErrArgumentNotDefinedOnNode (argName node : ByteSlice) : ExternalError :=
  { ExternalError.zero with
    Message := fmt.Sprintf (ascii "argument: %s not defined on node: %s") [argName, node] }

/-- Go `func ErrValueDoesntSatisfyInputValueDefinition`. -/
def ErrValueDoesntSatisfyInputValueDefinition (value inputType : ByteSlice) : ExternalError :=
  { ExternalError.zero with
    Message := fmt.Sprintf (ascii "value: %s doesn't satisfy inputType: %s") [value, inputType] }

/-- Go `func ErrVariableNotDefinedOnOperation`. -/
def ErrVariableNotDefinedOnOperation (variableName operationName : ByteSlice) : ExternalError :=
  { ExternalError.zero with
    Message := fmt.Sprintf (ascii "variable: %s not defined on operation: %s") [variableName, operationName] }

/-- Go `func ErrVariableDefinedButNeverUsed`. -/
def ErrVariableDefinedButNeverUsed (variableName operationName : ByteSlice) : ExternalError :=
  { ExternalError.zero with
    Message := fmt.Sprintf (ascii "variable: %s defined on operation: %s but never used") [variableName, operationName] }

/-- Go `func ErrVariableMustBeUnique`. -/
def ErrVariableMustBeUnique (variableName operationName : ByteSlice) : ExternalError :=
  { ExternalError.zero with
    Message := fmt.Sprintf (ascii "variable: %s must be unique per operation: %s") [variableName, operationName] }

/-- Go `func ErrVariableNotDefinedOnArgument`. -/
def ErrVariableNotDefinedOnArgument (variableName argumentName : ByteSlice) : ExternalError :=
  { ExternalError.zero with
    Message := fmt.Sprintf (ascii "variable: %s not defined on argument: %s") [variableName, argumentName] }

/-- Go `func ErrVariableOfTypeIsNoValidInputValue`. -/
def ErrVariableOfTypeIsNoValidInputValue (variableName ofTypeName : ByteSlice) : ExternalError :=
  { ExternalError.zero with
    Message := fmt.Sprintf (ascii "variable: %s of type: %s is no valid input value type") [variableName, ofTypeName] }

/-- Go `func ErrArgumentMustBeUnique`. -/
def ErrArgumentMustBeUnique (argName : ByteSlice) : ExternalError :=
  { ExternalError.zero with
    Message := fmt.Sprintf (ascii "argument: %s must be unique") [argName] }

/-- Go `func ErrArgumentRequiredOnField`. -/
def ErrArgumentRequiredOnField (argName fieldName : ByteSlice) : ExternalError :=
  { ExternalError.zero with
    Message := fmt.Sprintf (ascii "argument: %s is required on field: %s but missing") [argName, fieldName] }

/-- Go `func ErrArgumentOnFieldMustNotBeNull`. -/
def ErrArgumentOnFieldMustNotBeNull (argName fieldName : ByteSlice) : ExternalError :=
  { ExternalError.zero with
    Message := fmt.Sprintf (ascii "argument: %s on field: %s must not be null") [argName, fieldName] }

/-- Go `func ErrFragmentSpreadFormsCycle`. -/
def ErrFragmentSpreadFormsCycle (spreadName : ByteSlice) : ExternalError :=
  { ExternalError.zero with
    Message := fmt.Sprintf (ascii "fragment spread: %s forms fragment cycle") [spreadName] }

/-- Go `func ErrFragmentDefinedButNotUsed`. -/
def ErrFragmentDefinedButNotUsed (fragmentName : ByteSlice) : ExternalError :=
  { ExternalError.zero with
    Message := fmt.Sprintf (ascii "fragment: %s defined but not used") [fragmentName] }

/-- Go `func ErrFragmentUndefined`. -/
def ErrFragmentUndefined (fragmentName : ByteSlice) : ExternalError :=
  { ExternalError.zero with
    Message := fmt.Sprintf (ascii "fragment: %s undefined") [fragmentName] }

/-- Go `func ErrInlineFragmentOnTypeDisallowed`. -/
def ErrInlineFragmentOnTypeDisallowed (onTypeName : ByteSlice) : ExternalError :=
  { ExternalError.zero with
    Message := fmt.Sprintf (ascii "inline fragment on type: %s disallowed") [onTypeName] }

/-- Go `func ErrInlineFragmentOnTypeMismatchEnclosingType`. -/
def ErrInlineFragmentOnTypeMismatchEnclosingType (fragmentTypeName enclosingTypeName : ByteSlice) : ExternalError :=
  { ExternalError.zero with
    Message := fmt.Sprintf (ascii "inline fragment on type: %s mismatches enclosing type: %s") [fragmentTypeName, enclosingTypeName] }

/-- Go `func ErrFragmentDefinitionOnTypeDisallowed`. -/
def ErrFragmentDefinitionOnTypeDisallowed (fragmentName onTypeName : ByteSlice) : ExternalError :=
  { ExternalError.zero with
    Message := fmt.Sprintf (ascii "fragment: %s on type: %s disallowed") [fragmentName, onTypeName] }

/-- Go `func ErrFragmentDefinitionMustBeUnique`. -/
def ErrFragmentDefinitionMustBeUnique (fragmentName : ByteSlice) : ExternalError :=
  { ExternalError.zero with
    Message := fmt.Sprintf (ascii "fragment: %s must be unique per document") [fragmentName] }

/-- Go `func ErrDirectiveUndefined`. -/
def ErrDirectiveUndefined (directiveName : ByteSlice) : ExternalError :=
  { ExternalError.zero with
    Message := fmt.Sprintf (ascii "directive: %s undefined") [directiveName] }

/-- Go `func ErrDirectiveNotAllowedOnNode`. -/
def ErrDirectiveNotAllowedOnNode (directiveName nodeKindName : ByteSlice) : ExternalError :=
  { ExternalError.zero with
    Message := fmt.Sprintf (ascii "directive: %s not allowed on node of kind: %s") [directiveName, nodeKindName] }

/-- Go `func ErrDirectiveMustBeUniquePerLocation`. -/
def ErrDirectiveMustBeUniquePerLocation (directiveName : ByteSlice) : ExternalError :=
  { ExternalError.zero with
    Message := fmt.Sprintf (ascii "directive: %s must be unique per location") [directiveName] }

/-! ## Definitions that follow the wording of the specification -/

/-- The range of a signed 64-bit integer. -/
def isInt64 (n : Int) : Prop := -2 ^ 63 ≤ n ∧ n < 2 ^ 63

instance (n : Int) : Decidable (isInt64 n) := by
  unfold isInt64; infer_instance

/-- The decimal digits of a natural number, most significant digit first and
without leading zeros; zero is the single digit `0`. -/
def decimalDigits (n : Nat) : List UInt8 :=
  if n = 0 then [48] else (Nat.digits 10 n).reverse.map digitByte

/-- The base-10 text of an integer: a minus sign if it is negative, then the
decimal digits of its magnitude. -/
def decimalText (n : Int) : List UInt8 :=
  if n < 0 then 45 :: decimalDigits n.natAbs else decimalDigits n.natAbs

/-- An ASCII decimal digit. -/
def isDigit (b : UInt8) : Bool := decide (48 ≤ b.toNat) && decide (b.toNat ≤ 57)

/-- The number a run of decimal digits denotes (leading zeros allowed). -/
def digitsValue (ds : List UInt8) : Nat :=
  Nat.ofDigits 10 (ds.reverse.map (fun b => b.toNat - 48))

/-- The integer denoted by a signed decimal numeral: an optional `+` or `-`
sign followed by one or more decimal digits.  `none` for any other text. -/
def signedDecimal (d : List UInt8) : Option Int :=
  match d with
  | [] => none
  | c :: rest =>
    let ds := if c = 43 ∨ c = 45 then rest else d
    if ds ≠ [] ∧ ds.all isDigit = true then
      some (if c = 45 then -(digitsValue ds : Int) else (digitsValue ds : Int))
    else none

/-- A signed decimal numeral whose value fits a signed 64-bit integer. -/
def signedDecimal64 (d : List UInt8) : Option Int :=
  match signedDecimal d with
  | some n => if isInt64 n then some n else none
  | none => none

/-- The first and the last byte of `d` are double quotes. -/
def quoteDelimited (d : List UInt8) : Prop :=
  d.head? = some 34 ∧ d.getLast? = some 34

instance (d : List UInt8) : Decidable (quoteDelimited d) := by
  unfold quoteDelimited; infer_instance

/-- The sign and range handling of `strconv.ParseInt` once `ParseUint` has
returned, as a function of its own (used to reason about `ParseInt`). -/
def strconv.ParseInt.signAndRange (neg : Bool) (r : Except GoError Nat) : Except GoError Int :=
  match r with
  | .error e => .error e
  | .ok un =>
    if !neg && un ≥ 2 ^ 63 then .error .ErrRange
    else if neg && un > 2 ^ 63 then .error .ErrRange
    else .ok (if neg then -(un : Int) else (un : Int))


/-- Two items agree as the specification words it: the same Kind and the same
discriminant for that Kind, and nothing else. -/
def sameKindAndDiscriminant (a b : PathItem) : Bool :=
  a.Kind == b.Kind &&
    (if a.Kind = ArrayIndex then a.ArrayIndex == b.ArrayIndex
     else if a.Kind = FieldName then a.FieldName.bytes == b.FieldName.bytes
     else true)

/-- Component-wise equality of two paths as the specification words it. -/
def componentwiseEqual (p q : Path) : Bool :=
  p.length == q.length && (List.zipWith sameKindAndDiscriminant p q).all id

/-- What `Path.Equals` compares at one position. -/
def itemsAgree (a b : PathItem) : Prop :=
  a.Kind = b.Kind ∧ (a.Kind = ArrayIndex → a.ArrayIndex = b.ArrayIndex) ∧
    a.FieldName.bytes = b.FieldName.bytes

/-- Encode an item with `MarshalJSON`, then decode the bytes with
`UnmarshalJSON` into a fresh zero-value item; `none` if either step fails. -/
def PathItem.roundTrip (it : PathItem) : Option PathItem :=
  match it.MarshalJSON with
  | (data, none) =>
    match PathItem.UnmarshalJSON PathItem.zero data with
    | .ret (q, none) => some q
    | _ => none
  | (_, some _) => none

/-- Encode and decode every item of a path; `none` if any item fails. -/
def Path.roundTrip : Path → Option Path
  | [] => some []
  | it :: rest =>
    match it.roundTrip, Path.roundTrip rest with
    | some q, some qs => some (q :: qs)
    | _, _ => none

/-- The bytes between the quotes of a JSON string literal are acceptable: no
raw control character, no double quote that is not escaped by a backslash,
and no backslash without a byte after it. -/
def jsonStringBody : List UInt8 → Bool
  | [] => true
  | [c] => c != 92 && c != 34 && decide (32 ≤ c.toNat)
  | c :: e :: rest =>
    if c == 92 then decide (32 ≤ e.toNat) && jsonStringBody rest
    else c != 34 && decide (32 ≤ c.toNat) && jsonStringBody (e :: rest)

/-- A well-formed JSON string literal: delimited by double quotes, with an
acceptable body between them. -/
def wellFormedJSONString (out : List UInt8) : Bool :=
  decide (2 ≤ out.length) && out.head? == some 34 && out.getLast? == some 34 &&
    jsonStringBody out.tail.dropLast

/-- The display rendering of one item as the specification words it: an
ArrayIndex item is its base-10 integer, a FieldName item its name without
quotes, or the text `query` when the name is empty.  An item of any other
Kind contributes no text. -/
def renderItem (it : PathItem) : List UInt8 :=
  if it.Kind = ArrayIndex then decimalText it.ArrayIndex
  else if it.Kind = FieldName then
    if it.FieldName.bytes = [] then ascii "query" else it.FieldName.bytes
  else []

/-- The display rendering of a path as the specification words it: the
renderings of the items, separated by commas, between square brackets. -/
def renderPath (p : Path) : List UInt8 :=
  ascii "[" ++ (List.intercalate (ascii ",") (p.map renderItem) ++ ascii "]")

/-- Every constructor of the diagnostic catalog, in source order, applied to
arbitrary arguments. -/
def catalog (a b c : ByteSlice) : List ExternalError :=
  [ErrFieldUndefinedOnType a b,
   ErrTypeUndefined a,
   ErrOperationNameMustBeUnique a,
   ErrAnonymousOperationMustBeTheOnlyOperationInDocument,
   ErrSubscriptionMustOnlyHaveOneRootSelection a,
   ErrFieldSelectionOnUnion a b,
   ErrFieldsConflict a b c,
   ErrTypesForFieldMismatch a b c,
   ErrResponseOfDifferingTypesMustBeOfSameShape a b,
   ErrDifferingFieldsOnPotentiallySameType a,
   ErrFieldSelectionOnScalar a b,
   ErrMissingFieldSelectionOnNonScalar a b,
   ErrCannotMergeSelectionSet,
   ErrArgumentNotDefinedOnNode a b,
   ErrValueDoesntSatisfyInputValueDefinition a b,
   ErrVariableNotDefinedOnOperation a b,
   ErrVariableDefinedButNeverUsed a b,
   ErrVariableMustBeUnique a b,
   ErrVariableNotDefinedOnArgument a b,
   ErrVariableOfTypeIsNoValidInputValue a b,
   ErrArgumentMustBeUnique a,
   ErrArgumentRequiredOnField a b,
   ErrArgumentOnFieldMustNotBeNull a b,
   ErrFragmentSpreadFormsCycle a,
   ErrFragmentDefinedButNotUsed a,
   ErrFragmentUndefined a,
   ErrInlineFragmentOnTypeDisallowed a,
   ErrInlineFragmentOnTypeMismatchEnclosingType a b,
   ErrFragmentDefinitionOnTypeDisallowed a b,
   ErrFragmentDefinitionMustBeUnique a,
   ErrDirectiveUndefined a,
   ErrDirectiveNotAllowedOnNode a b,
   ErrDirectiveMustBeUniquePerLocation a]


/-! ## Byte slices in memory

`PathItem.MarshalJSON` appends to `p.FieldName`; when that slice has spare
capacity, Go's `append` writes into its backing array.  The definitions above
give the values a call returns; the ones below also give what a call leaves in
memory, with a byte slice as a header over a backing array. -/

/-- A Go slice header: the backing array (by its address in the heap), the
offset of the first element in it, the length and the capacity. -/
structure Slice where
  Array : Nat
  Off : Nat
  Len : Nat
  Cap : Nat
  deriving DecidableEq, Repr

/-- The backing arrays in memory, by address. -/
abbrev Heap := List (List UInt8)

/-- The elements of a slice in a heap. -/
def Heap.read (h : Heap) (s : Slice) : List UInt8 :=
  ((h.getD s.Array []).drop s.Off).take s.Len

/-- The elements of a slice that may be nil. -/
def Heap.bytes (h : Heap) : Option Slice → ByteSlice
  | none => none
  | some s => some (h.read s)

/-- The heap after `bytes` have been stored into the array at `address` from
position `pos` on. -/
def Heap.write (h : Heap) (address pos : Nat) (bytes : List UInt8) : Heap :=
  h.set address
    (((h.getD address []).take pos) ++ bytes ++ ((h.getD address []).drop (pos + bytes.length)))

/-- The header refers to existing memory: the capacity lies within the
backing array and the length within the capacity. -/
def Slice.valid (h : Heap) (s : Slice) : Prop :=
  s.Array < h.length ∧ s.Off + s.Cap ≤ (h.getD s.Array []).length ∧ s.Len ≤ s.Cap

instance (h : Heap) (s : Slice) : Decidable (s.valid h) := by
  unfold Slice.valid; infer_instance

/-- Go `append(s, elems...)` in memory: when the capacity suffices the
elements are stored behind the slice in its backing array, otherwise (and for
a nil slice) a new array is allocated with the old elements and the new ones.
The capacity of a new array is taken to be its length. -/
def Heap.append (h : Heap) (s : Option Slice) (elems : List UInt8) : Heap × Option Slice :=
  match s with
  | none =>
    if elems = [] then (h, none)
    else (h ++ [elems], some ⟨h.length, 0, elems.length, elems.length⟩)
  | some s =>
    if s.Len + elems.length ≤ s.Cap then
      (h.write s.Array (s.Off + s.Len) elems, some { s with Len := s.Len + elems.length })
    else
      (h ++ [h.read s ++ elems],
        some ⟨h.length, 0, s.Len + elems.length, s.Len + elems.length⟩)

/-- Go `[]byte(str)`: a new array holding the bytes. -/
def Heap.alloc (h : Heap) (bytes : List UInt8) : Heap × Option Slice :=
  (h ++ [bytes], some ⟨h.length, 0, bytes.length, bytes.length⟩)

/-- Go `type PathItem struct`, the FieldName being a slice header. -/
structure PathItemInMemory where
  Kind : PathKind
  ArrayIndex : Int
  FieldName : Option Slice
  deriving DecidableEq, Repr

/-- The item as a value: its FieldName read from the heap. -/
def PathItemInMemory.value (h : Heap) (p : PathItemInMemory) : PathItem :=
  ⟨p.Kind, p.ArrayIndex, h.bytes p.FieldName⟩

/-- Go `func (p PathItem) MarshalJSON() ([]byte, error)` in memory: the bytes
and the error returned, and the heap after the call.  In the FieldName case
`append([]byte("\""), append(p.FieldName, []byte("\"")...)...)` evaluates its
operands from left to right: the opening quote, then the inner `append` of the
closing quote to `p.FieldName`, then the outer `append`.  The array that
`strconv.AppendInt(nil, ...)` returns is given by its bytes only. -/
def PathItemInMemory.MarshalJSON (h : Heap) (p : PathItemInMemory) :
    (ByteSlice × Option GoError) × Heap :=
  if p.Kind = OperationReport.ArrayIndex then
    ((some (strconv.AppendInt (toInt64 p.ArrayIndex)), none), h)
  else if p.Kind = OperationReport.FieldName then
    let opening := h.alloc (ascii "\"")
    let closing := opening.1.alloc (ascii "\"")
    let inner := closing.1.append p.FieldName (closing.1.bytes closing.2).bytes
    let outer := inner.1.append opening.2 (inner.1.bytes inner.2).bytes
    ((outer.1.bytes outer.2, none), outer.1)
  else ((none, some .cannotMarshalUnknownPathKind), h)

/-- The memory of the failing input of `MarshalJSON`: one array of two
bytes, both `a`; `buf` is the slice over it, of length and capacity 2. -/
def sharedBuffer : Heap := [ascii "aa"]

/-- The item `PathItem{Kind: FieldName, FieldName: buf[0:1]}`: its name has
length 1 and capacity 2. -/
def firstHalf : PathItemInMemory := ⟨FieldName, 0, some ⟨0, 0, 1, 2⟩⟩

/-- The item `PathItem{Kind: FieldName, FieldName: buf[1:2]}`. -/
def secondHalf : PathItemInMemory := ⟨FieldName, 0, some ⟨0, 1, 1, 1⟩⟩

end OperationReport

/-! # The planner and the GraphQL data source

The planner (`pkg/engine/plan`), the response tree (`pkg/engine/resolve`) and
the GraphQL data source (`pkg/engine/datasource/graphqldatasource`) are not
among the sources at hand; only the test of the data source is.  They are
modelled here from the specification, together with the data of the test. -/

namespace GraphQLDataSource

open OperationReport (ascii ExternalError ErrFieldUndefinedOnType ErrArgumentRequiredOnField)

/-- The contents of a Go `string` or `[]byte`. -/
abbrev Text := List UInt8

/-! ## Schema, operation and registry -/

/-- Modelled from the spec: a type reference of the schema definition
(`ast` package, not at hand): a named type, a list type or a non-null type. -/
inductive TypeRef where
  | named (Name : Text)
  | list (OfType : TypeRef)
  | nonNull (OfType : TypeRef)
  deriving DecidableEq, Repr

/-- Modelled from the spec: the definition of an argument of a field. -/
structure InputValueDefinition where
  Name : Text
  OfType : TypeRef
  deriving DecidableEq, Repr

/-- Modelled from the spec: the definition of a field of a type. -/
structure FieldDefinition where
  Name : Text
  Arguments : List InputValueDefinition
  OfType : TypeRef
  deriving DecidableEq, Repr

/-- Modelled from the spec: a type of the schema whose values are objects (an
object type, an interface or a union) with the fields it declares.  A named
type without such a definition is a scalar or an enum. -/
structure TypeDefinition where
  Name : Text
  Fields : List FieldDefinition
  deriving DecidableEq, Repr

/-- Modelled from the spec: the schema definition, already parsed (parsing is
an external collaborator of the planner). -/
structure Definition where
  QueryTypeName : Text
  Types : List TypeDefinition
  deriving DecidableEq, Repr

/-- Modelled from the spec: the value of an argument in the operation. -/
inductive Value where
  | variable (Name : Text)
  | literal (Raw : Text)
  deriving DecidableEq, Repr

/-- Modelled from the spec: an argument of a field selection. -/
structure OperationArgument where
  Name : Text
  Value : Value
  deriving DecidableEq, Repr

/-- Modelled from the spec: a field selection of the normalized operation
(fragments inlined): optional alias, field name, arguments and the nested
selection set. -/
inductive Selection where
  | field (Alias : Option Text) (Name : Text) (Arguments : List OperationArgument)
      (Selections : List Selection)

/-- Modelled from the spec: a variable definition of the operation. -/
structure VariableDefinition where
  Name : Text
  OfType : TypeRef
  deriving DecidableEq, Repr

/-- Modelled from the spec: the normalized, validated query operation the
planner receives together with its name. -/
structure Operation where
  Name : Text
  VariableDefinitions : List VariableDefinition
  Selections : List Selection

/-- Modelled from the spec: `Argument.Source`, "enum{Field, Variable, ...}". -/
inductive ArgumentSource where
  | Field
  | Variable
  deriving DecidableEq, Repr

/-- Modelled from the spec: `Argument{Name, Source, SourcePath}`, which
declares how a backend request argument is populated at execution time. -/
structure Argument where
  Name : Text
  Source : ArgumentSource
  SourcePath : List Text
  deriving DecidableEq, Repr

/-- Modelled from the spec: `FieldConfig` of the test, the arguments bound
for one field. -/
structure FieldConfig where
  FieldName : Text
  Arguments : List Argument
  deriving DecidableEq, Repr

/-- Modelled from the spec: `ArgumentsConfig` of the test, the content of the
`arguments` attribute. -/
structure ArgumentsConfig where
  Fields : List FieldConfig
  deriving DecidableEq, Repr

/-- Modelled from the spec: `DataSourceConfiguration{TypeName, FieldNames,
Attributes, PlanningCapability}` for the GraphQL data source.  The attribute
bag is given by its two decoded entries, `url` and `arguments`; the planning
capability is the GraphQL one modelled below. -/
structure DataSourceConfiguration where
  TypeName : Text
  FieldNames : List Text
  url : Text
  arguments : ArgumentsConfig
  deriving DecidableEq, Repr

/-! ## Response tree -/

/-- Modelled from the spec: a variable extractor, a reference into the
operation variables (`ContextVariable`) or into a resolved buffer
(`ObjectVariable`), by Path. -/
inductive Variable where
  | ContextVariable (Path : List Text)
  | ObjectVariable (Path : List Text)
  deriving DecidableEq, Repr

/-- Modelled from the spec: `SingleFetch{DataSource, Input, Variables,
BufferId}`; the handle of the data source capability is left out. -/
structure SingleFetch where
  BufferId : Nat
  Input : Text
  Variables : List Variable
  deriving DecidableEq, Repr

/-- Modelled from the spec: `Fetch`, a "variant family, at minimum
SingleFetch".  "An Object node may embed at most one Fetch", so the Fetches
that several fields of one Object start are embedded as one parallel Fetch. -/
inductive Fetch where
  | Single (Fetch : SingleFetch)
  | Parallel (Fetches : List SingleFetch)
  deriving DecidableEq, Repr

/-- Modelled from the spec: the single Fetches of a Fetch. -/
def Fetch.singles : Fetch → List SingleFetch
  | .Single f => [f]
  | .Parallel fs => fs

/-- Modelled from the spec: the Fetch an Object embeds for the Fetches that
its fields start: none, the one Fetch, or the parallel Fetch of several. -/
def Fetch.ofList : List SingleFetch → Option Fetch
  | [] => none
  | [f] => some (.Single f)
  | f :: g :: rest => some (.Parallel (f :: g :: rest))

mutual
/-- Modelled from the spec: `ResponseNode`, "polymorphic over variants
{Object, Array, String/Scalar}"; "every node carries a Path used to project
raw backend JSON".  An Object has its Path, an optional Fetch and its field
sets, an Array has its Path and an Item template, a String has its Path.  A
Path that is not set is the empty one. -/
inductive Node where
  | Object (Path : List Text) (Fetch : Option Fetch) (FieldSets : List FieldSet)
  | Array (Path : List Text) (Item : Node)
  | String (Path : List Text)
/-- Modelled from the spec: `FieldSet`, an ordered sequence of fields. -/
inductive FieldSet where
  | mk (Fields : List Field)
/-- Modelled from the spec: `Field{Name, Value}`, the client-visible name
and the node of the value. -/
inductive Field where
  | mk (Name : Text) (Value : Node)
end

/-- Modelled from the spec: the name of an output field. -/
def Field.Name : Field → Text
  | .mk n _ => n

/-- Modelled from the spec: the value node of an output field. -/
def Field.Value : Field → Node
  | .mk _ v => v

/-- Modelled from the spec: the Path of a node. -/
def Node.Path : Node → List Text
  | .Object p _ _ => p
  | .Array p _ => p
  | .String p => p

/-- Modelled from the spec: the fields of an Object node, all field sets in order. -/
def Node.Fields : Node → List Field
  | .Object _ _ sets => (sets.map (fun s => match s with | .mk fs => fs)).flatten
  | _ => []

/-- Modelled from the spec: the Fetch embedded in an Object node. -/
def Node.Fetch : Node → Option Fetch
  | .Object _ f _ => f
  | _ => none

/-- Modelled from the spec: the single Fetches of the Fetch an Object embeds. -/
def Fetch.singlesOf : Option Fetch → List SingleFetch
  | none => []
  | some f => f.singles

mutual
/-- Modelled from the spec: all single Fetches embedded in a node and below it. -/
def Node.fetches : Node → List SingleFetch
  | .Object _ f sets => Fetch.singlesOf f ++ FieldSet.fetchesOfList sets
  | .Array _ item => item.fetches
  | .String _ => []
/-- Modelled from the spec: all Fetches below the field sets of an Object. -/
def FieldSet.fetchesOfList : List FieldSet → List SingleFetch
  | [] => []
  | .mk fields :: rest => Field.fetchesOfList fields ++ FieldSet.fetchesOfList rest
/-- Modelled from the spec: all Fetches below the fields of a field set. -/
def Field.fetchesOfList : List Field → List SingleFetch
  | [] => []
  | .mk _ v :: rest => v.fetches ++ Field.fetchesOfList rest
end

mutual
/-- The node with the Path of every Object node in it and below it unset,
as the literal of the expected plan of the test writes Object nodes. -/
def Node.withoutObjectPaths : Node → Node
  | .Object _ f sets => .Object [] f (FieldSet.withoutObjectPaths sets)
  | .Array p item => .Array p item.withoutObjectPaths
  | .String p => .String p
/-- The field sets with the Path of every Object node below them unset. -/
def FieldSet.withoutObjectPaths : List FieldSet → List FieldSet
  | [] => []
  | .mk fields :: rest => .mk (Field.withoutObjectPaths fields) :: FieldSet.withoutObjectPaths rest
/-- The fields with the Path of every Object node below them unset. -/
def Field.withoutObjectPaths : List Field → List Field
  | [] => []
  | .mk n v :: rest => .mk n v.withoutObjectPaths :: Field.withoutObjectPaths rest
end

/-! ## Planning capability of the GraphQL data source -/

/-- Modelled from the spec: the definition of the type named `name`, if it is a
type with fields. -/
def Definition.lookupType (d : Definition) (name : Text) : Option TypeDefinition :=
  d.Types.find? (fun t => t.Name == name)

/-- Modelled from the spec: the definition of field `fieldName` on the type named
`typeName`. -/
def Definition.lookupField (d : Definition) (typeName fieldName : Text) :
    Option FieldDefinition :=
  match d.lookupType typeName with
  | none => none
  | some t => t.Fields.find? (fun f => f.Name == fieldName)

/-- Modelled from the spec: the name of the innermost named type of a type
reference. -/
def TypeRef.typeName : TypeRef → Text
  | .named n => n
  | .list t => t.typeName
  | .nonNull t => t.typeName

/-- Modelled from the spec: the text of a type reference in GraphQL syntax. -/
def TypeRef.print : TypeRef → Text
  | .named n => n
  | .list t => ascii "[" ++ t.print ++ ascii "]"
  | .nonNull t => t.print ++ ascii "!"

/-- Modelled from the spec: the upstream field name of a selection. -/
def Selection.name : Selection → Text
  | .field _ name _ _ => name

/-- Modelled from the spec: the texts of an upstream selection set in
selection order, each text once: a text that was already emitted (`name` for
`aliased: name` after `name`) is not emitted again. -/
def emitOnce (seen : List Text) : List Text → List Text
  | [] => []
  | t :: rest =>
    if seen.contains t then emitOnce seen rest else t :: emitOnce (t :: seen) rest

/-- Modelled from the spec: the text of a nested field in the upstream
query, given the texts of its nested fields that the same Fetch satisfies:
the upstream field name (never the alias) and, if there are such nested
fields, a space and their texts in braces (`friends {name}`).  Arguments of
nested fields are not part of what the spec says of the upstream text. -/
def upstreamField (name : Text) (nested : List Text) : Text :=
  if nested.isEmpty then name
  else name ++ ascii " \x7b" ++ List.intercalate (ascii " ") (emitOnce [] nested) ++ ascii "\x7d"

/-- Modelled from the spec: the arguments the configuration binds for the field
`fieldName`. -/
def ArgumentsConfig.forField (c : ArgumentsConfig) (fieldName : Text) : List Argument :=
  match c.Fields.find? (fun f => f.FieldName == fieldName) with
  | none => []
  | some f => f.Arguments

/-- Modelled from the spec: the placeholder `$$N$$` of an Input template. -/
def placeholder (n : Nat) : Text :=
  ascii "$$" ++ OperationReport.strconv.Itoa n ++ ascii "$$"

/-- Modelled from the spec: the entries of the `variables` object of the
upstream request, one per bound argument, the argument at position `i`
holding placeholder `i`. -/
def variablesEntries : Nat → List Argument → List Text
  | _, [] => []
  | i, a :: rest => (ascii "\"" ++ a.Name ++ ascii "\":" ++ placeholder i)
      :: variablesEntries (i + 1) rest

/-- Modelled from the spec: the extractor registered for a bound argument,
by its SourcePath.  In the test an argument with Source Field and
SourcePath `id` gives `ContextVariable{Path: id}`; an argument with Source
Variable refers to the operation variables as well. -/
def Argument.extractor (a : Argument) : Variable :=
  match a.Source with
  | .Field => .ContextVariable a.SourcePath
  | .Variable => .ContextVariable a.SourcePath

/-- Modelled from the spec: the declared type of argument `argName` of a field,
`none` if the field does not declare it. -/
def FieldDefinition.argumentType (fd : FieldDefinition) (argName : Text) : Option TypeRef :=
  (fd.Arguments.find? (fun a => a.Name == argName)).map (fun a => a.OfType)

/-- Modelled from the spec: the variable definition of the upstream query
for a bound argument, `$name: Type`, the type being the one the schema
declares for the argument (the name alone if it declares none). -/
def upstreamVariableDefinition (fd : FieldDefinition) (a : Argument) : Text :=
  ascii "$" ++ a.Name ++
    (match fd.argumentType a.Name with
     | some t => ascii ": " ++ t.print
     | none => [])

/-- Modelled from the spec: the argument of the upstream root field for a
bound argument, `name: $name`. -/
def upstreamArgument (a : Argument) : Text :=
  a.Name ++ ascii ": $" ++ a.Name

/-- Modelled from the spec: the upstream query for the field that starts a
Fetch, with its bound arguments and the texts of the nested fields the Fetch
satisfies,
`query($id: ID!){droid(id: $id){name friends {name} primaryFunction}}`. -/
def upstreamQuery (fd : FieldDefinition) (args : List Argument) (nested : List Text) : Text :=
  ascii "query" ++
    (if args = [] then [] else
      ascii "(" ++ List.intercalate (ascii ", ") (args.map (upstreamVariableDefinition fd))
        ++ ascii ")") ++
    ascii "\x7b" ++ fd.Name ++
    (if args = [] then [] else
      ascii "(" ++ List.intercalate (ascii ", ") (args.map upstreamArgument) ++ ascii ")") ++
    (if nested.isEmpty then [] else
      ascii "\x7b" ++ List.intercalate (ascii " ") (emitOnce [] nested) ++ ascii "\x7d") ++
    ascii "\x7d"

/-- Modelled from the spec: the Input template of the GraphQL data source,
"the literal JSON document" with the members `url` and `body`, the body
holding the upstream query and the `variables` object of placeholders. -/
def fetchInput (url query : Text) (args : List Argument) : Text :=
  ascii "\x7b\"url\":\"" ++ url ++ ascii "\",\"body\":\x7b\"query\":\"" ++ query ++
    ascii "\",\"variables\":\x7b" ++ List.intercalate (ascii ",") (variablesEntries 0 args) ++
    ascii "\x7d\x7d\x7d"

/-- Modelled from the spec: a bound argument missing "from both operation
arguments and variables". -/
def argumentMissing (op : Operation) (opArgs : List OperationArgument) (a : Argument) : Bool :=
  !(opArgs.any (fun x => x.Name == a.Name)) &&
    !(op.VariableDefinitions.any (fun v => v.Name == a.Name))

/-! ## Planner -/

/-- Modelled from the spec: the registry entry "matching (enclosing type
name, field name)", the first one in the order of the registry. -/
def lookupDataSource (registry : List DataSourceConfiguration) (typeName fieldName : Text) :
    Option DataSourceConfiguration :=
  registry.find? (fun c => c.TypeName == typeName && c.FieldNames.contains fieldName)

/-- Modelled from the spec: what the planner does with a field: it fails
("unmatched (type, field) pair"), the field extends the Fetch in flight, or
it starts a new Fetch against its data source. -/
inductive FetchDecision where
  | undefined
  | extend (inflight : DataSourceConfiguration)
  | start (ds : DataSourceConfiguration)
  deriving DecidableEq, Repr

/-- Modelled from the spec: "for each field, look up a DataSourceConfiguration
matching (enclosing type name, field name).  A root field always starts a new
Fetch; a nested field may extend an in-flight Fetch if its configuration's
planning capability reports it is satisfiable by the same backend round
trip."  No Fetch is in flight at a root field, which is unmatched without a
configuration.  The GraphQL planning capability satisfies a nested field in
the round trip in flight when the field has no configuration of its own or
one for the same url; a nested field configured for another url starts a new
Fetch. -/
def fetchDecision (registry : List DataSourceConfiguration) (enclosing name : Text)
    (inflight : Option DataSourceConfiguration) : FetchDecision :=
  match lookupDataSource registry enclosing name, inflight with
  | none, none => .undefined
  | none, some cur => .extend cur
  | some ds, none => .start ds
  | some ds, some cur => if ds.url = cur.url then .extend cur else .start ds

/-- Modelled from the spec: the node planned for a value of type `t`, with
the fields `fields` planned for its selection set and the Fetches `started`
that these fields start.  A list is an Array whose Item template is the node
of the element type; a type with fields is an Object, which embeds the
Fetches its fields start; any other named type is a scalar leaf.  "Every node
carries a Path", `path`, which "uses the upstream field name"; the Item
template of an Array stands for the element itself and has the empty Path. -/
def nodeForType (d : Definition) (fields : List Field) (started : List SingleFetch) :
    TypeRef → List Text → Node
  | .nonNull t, path => nodeForType d fields started t path
  | .list t, path => .Array path (nodeForType d fields started t [])
  | .named n, path =>
    if (d.lookupType n).isSome then .Object path (Fetch.ofList started) [.mk fields]
    else .String path

/-- Modelled from the spec: what planning one field selection gives: the
output Field, the text the field adds to the upstream query of the Fetch in
flight (none if it starts its own Fetch), the Fetches it starts, to be
embedded in the Object that holds the field, and the next free BufferId. -/
structure Planned where
  Output : Field
  Upstream : Option Text
  Started : List SingleFetch
  Next : Nat

/-- Modelled from the spec: what planning a selection set gives: the output
Fields in selection order, the texts for the upstream query of the Fetch in
flight, the Fetches the fields start and the next free BufferId. -/
structure PlannedSet where
  Fields : List Field
  Upstream : List Text
  Started : List SingleFetch
  Next : Nat

mutual
/-- Modelled from the spec: planning of one field selection below the type
`enclosing`, with the data source of the Fetch in flight (none at the root)
and the next free BufferId.  "Each output Field carries the client-visible
name (honoring aliases) while its Value.Path points at the field name the
backend is expected to return."  A field that the enclosing type does not
define, or a root field without a configuration, fails with the "undefined
field" diagnostic; a field that starts a Fetch and has a bound argument
"missing from both operation arguments and variables" fails with the
"argument required" diagnostic.  A Fetch takes the next free BufferId
("BufferId is unique per Fetch") before the Fetches below it do. -/
def planSelection (d : Definition) (registry : List DataSourceConfiguration) (op : Operation)
    (enclosing : Text) (inflight : Option DataSourceConfiguration) (next : Nat) :
    Selection → Except ExternalError Planned
  | .field al name opArgs sub =>
    match d.lookupField enclosing name with
    | none => .error (ErrFieldUndefinedOnType (some name) (some enclosing))
    | some fd =>
      match fetchDecision registry enclosing name inflight with
      | .undefined => .error (ErrFieldUndefinedOnType (some name) (some enclosing))
      | .extend cur =>
        match planSelections d registry op fd.OfType.typeName (some cur) next sub with
        | .error e => .error e
        | .ok set =>
          .ok { Output := .mk (al.getD name)
                  (nodeForType d set.Fields set.Started fd.OfType [name])
                Upstream := some (upstreamField name set.Upstream)
                Started := []
                Next := set.Next }
      | .start ds =>
        match (ds.arguments.forField name).find? (argumentMissing op opArgs) with
        | some a => .error (ErrArgumentRequiredOnField (some a.Name) (some name))
        | none =>
          match planSelections d registry op fd.OfType.typeName (some ds) (next + 1) sub with
          | .error e => .error e
          | .ok set =>
            .ok { Output := .mk (al.getD name)
                    (nodeForType d set.Fields set.Started fd.OfType [name])
                  Upstream := none
                  Started :=
                    [{ BufferId := next
                       Input := fetchInput ds.url
                         (upstreamQuery fd (ds.arguments.forField name) set.Upstream)
                         (ds.arguments.forField name)
                       Variables := (ds.arguments.forField name).map Argument.extractor }]
                  Next := set.Next }
/-- Modelled from the spec: planning of a selection set, field by field in
selection order; the first failure aborts ("no partial plan is returned"). -/
def planSelections (d : Definition) (registry : List DataSourceConfiguration) (op : Operation)
    (enclosing : Text) (inflight : Option DataSourceConfiguration) (next : Nat) :
    List Selection → Except ExternalError PlannedSet
  | [] => .ok ⟨[], [], [], next⟩
  | s :: rest =>
    match planSelection d registry op enclosing inflight next s with
    | .error e => .error e
    | .ok p =>
      match planSelections d registry op enclosing inflight p.Next rest with
      | .error e => .error e
      | .ok set =>
        .ok ⟨p.Output :: set.Fields, p.Upstream.toList ++ set.Upstream,
          p.Started ++ set.Started, set.Next⟩
end

/-- Modelled from the spec: the planner.  "Walk the operation's root selection
set": the root fields are planned below the query type with no Fetch in
flight and BufferIds from 0; the result is "a root Object ResponseNode with
embedded Fetches", or the diagnostic of the first failure. -/
def plan (d : Definition) (registry : List DataSourceConfiguration) (op : Operation) :
    Except ExternalError Node :=
  match planSelections d registry op d.QueryTypeName none 0 op.Selections with
  | .error e => .error e
  | .ok set => .ok (.Object [] (Fetch.ofList set.Started) [.mk set.Fields])

mutual
/-- Modelled from the spec: the field selections that can be planned: the
enclosing type defines the field, the field is not an unmatched root field,
no argument bound for a field that starts a Fetch is missing, and the nested
selections can be planned below the type of the field. -/
def Selection.plannable (d : Definition) (registry : List DataSourceConfiguration)
    (op : Operation) (enclosing : Text) (inflight : Option DataSourceConfiguration) :
    Selection → Bool
  | .field _ name opArgs sub =>
    match d.lookupField enclosing name with
    | none => false
    | some fd =>
      match fetchDecision registry enclosing name inflight with
      | .undefined => false
      | .extend cur => Selection.plannableAll d registry op fd.OfType.typeName (some cur) sub
      | .start ds =>
        (ds.arguments.forField name).all (fun a => !argumentMissing op opArgs a) &&
          Selection.plannableAll d registry op fd.OfType.typeName (some ds) sub
/-- Modelled from the spec: the selection sets all of whose selections can be
planned. -/
def Selection.plannableAll (d : Definition) (registry : List DataSourceConfiguration)
    (op : Operation) (enclosing : Text) (inflight : Option DataSourceConfiguration) :
    List Selection → Bool
  | [] => true
  | s :: rest =>
    Selection.plannable d registry op enclosing inflight s &&
      Selection.plannableAll d registry op enclosing inflight rest
end

/-! ## The data of `TestGraphQLDataSourcePlanning` -/

/-- The type `String!`. -/
def nonNullString : TypeRef := .nonNull (.named (ascii "String"))

/-- The schema `testDefinition` of the test, as parsed: the types with
fields and their field definitions (scalars, the enum and the input type
have none). -/
def testDefinition : Definition :=
  { QueryTypeName := ascii "Query"
    Types :=
      [ ⟨ascii "SearchResult", []⟩,
        ⟨ascii "Query",
          [ ⟨ascii "hero", [], .named (ascii "Character")⟩,
            ⟨ascii "droid", [⟨ascii "id", .nonNull (.named (ascii "ID"))⟩],
              .named (ascii "Droid")⟩,
            ⟨ascii "search", [⟨ascii "name", nonNullString⟩],
              .named (ascii "SearchResult")⟩ ]⟩,
        ⟨ascii "Mutation",
          [ ⟨ascii "createReview",
              [⟨ascii "episode", .nonNull (.named (ascii "Episode"))⟩,
               ⟨ascii "review", .nonNull (.named (ascii "ReviewInput"))⟩],
              .named (ascii "Review")⟩ ]⟩,
        ⟨ascii "Subscription",
          [ ⟨ascii "remainingJedis", [], .nonNull (.named (ascii "Int"))⟩ ]⟩,
        ⟨ascii "Review",
          [ ⟨ascii "id", [], .nonNull (.named (ascii "ID"))⟩,
            ⟨ascii "stars", [], .nonNull (.named (ascii "Int"))⟩,
            ⟨ascii "commentary", [], .named (ascii "String")⟩ ]⟩,
        ⟨ascii "Character",
          [ ⟨ascii "name", [], nonNullString⟩,
            ⟨ascii "friends", [], .list (.named (ascii "Character"))⟩ ]⟩,
        ⟨ascii "Human",
          [ ⟨ascii "name", [], nonNullString⟩,
            ⟨ascii "height", [], nonNullString⟩,
            ⟨ascii "friends", [], .list (.named (ascii "Character"))⟩ ]⟩,
        ⟨ascii "Droid",
          [ ⟨ascii "name", [], nonNullString⟩,
            ⟨ascii "primaryFunction", [], nonNullString⟩,
            ⟨ascii "friends", [], .list (.named (ascii "Character"))⟩ ]⟩,
        ⟨ascii "Startship",
          [ ⟨ascii "name", [], nonNullString⟩,
            ⟨ascii "length", [], .nonNull (.named (ascii "Float"))⟩ ]⟩ ] }

/-- The selection set of `droid` in the operation of the test. -/
def testDroidSelections : List Selection :=
  [ .field none (ascii "name") [] [],
    .field (some (ascii "aliased")) (ascii "name") [] [],
    .field none (ascii "friends") [] [ .field none (ascii "name") [] [] ],
    .field none (ascii "primaryFunction") [] [] ]

/-- The operation `MyQuery` of the test. -/
def testOperation : Operation :=
  { Name := ascii "MyQuery"
    VariableDefinitions := [⟨ascii "id", .nonNull (.named (ascii "ID"))⟩]
    Selections :=
      [ .field none (ascii "droid") [⟨ascii "id", .variable (ascii "id")⟩]
          testDroidSelections ] }

/-- The data source of the test, for `Query.droid`, with its attributes
`url` and `arguments`. -/
def testDataSource : DataSourceConfiguration :=
  { TypeName := ascii "Query"
    FieldNames := [ascii "droid"]
    url := ascii "https://swapi.com/graphql"
    arguments := ⟨[⟨ascii "droid", [⟨ascii "id", .Field, [ascii "id"]⟩]⟩]⟩ }

/-- The `plan.Configuration` of the test: its one data source. -/
def testConfiguration : List DataSourceConfiguration := [testDataSource]

/-- The Input template the test expects. -/
def expectedInput : Text :=
  ascii ("\x7b\"url\":\"https://swapi.com/graphql\",\"body\":\x7b\"query\":\"" ++
    "query($id: ID!)\x7bdroid(id: $id)\x7bname friends \x7bname\x7d primaryFunction\x7d\x7d" ++
    "\",\"variables\":\x7b\"id\":$$0$$\x7d\x7d\x7d")

/-- The fields the test expects in the droid Object. -/
def expectedDroidFields : List Field :=
  [ .mk (ascii "name") (.String [ascii "name"]),
    .mk (ascii "aliased") (.String [ascii "name"]),
    .mk (ascii "friends")
      (.Array [ascii "friends"]
        (.Object [] none [.mk [ .mk (ascii "name") (.String [ascii "name"]) ]])),
    .mk (ascii "primaryFunction") (.String [ascii "primaryFunction"]) ]

/-- The Fetch the test expects on the root Object. -/
def expectedFetch : SingleFetch :=
  { BufferId := 0
    Input := expectedInput
    Variables := [.ContextVariable [ascii "id"]] }

/-- The plan the test expects (`Response.Data`), as its literal is written:
the root Object with the Fetch and the field `droid`, whose Object has no Path
set. -/
def expectedPlan : Node :=
  .Object [] (some (.Single expectedFetch))
    [.mk [ .mk (ascii "droid") (.Object [] none [.mk expectedDroidFields]) ]]

/-- A registry with two backends: the data source of the test for
`Query.droid` and `Query.hero`, and a second one, at another url, for the
field `friends` of a Droid. -/
def twoBackends : List DataSourceConfiguration :=
  [ { TypeName := ascii "Query"
      FieldNames := [ascii "droid", ascii "hero"]
      url := ascii "https://swapi.com/graphql"
      arguments := ⟨[⟨ascii "droid", [⟨ascii "id", .Field, [ascii "id"]⟩]⟩]⟩ },
    { TypeName := ascii "Droid"
      FieldNames := [ascii "friends"]
      url := ascii "https://friends.example/graphql"
      arguments := ⟨[]⟩ } ]

/-- The operation `query Q($id: ID!){hero{name} droid(id: $id){name friends{name}}}`. -/
def heroAndDroid : Operation :=
  { Name := ascii "Q"
    VariableDefinitions := [⟨ascii "id", .nonNull (.named (ascii "ID"))⟩]
    Selections :=
      [ .field none (ascii "hero") [] [ .field none (ascii "name") [] [] ],
        .field none (ascii "droid") [⟨ascii "id", .variable (ascii "id")⟩]
          [ .field none (ascii "name") [] [],
            .field none (ascii "friends") [] [ .field none (ascii "name") [] [] ] ] ] }

/-! ## Execution capability of the GraphQL data source -/

/-- Modelled from the spec: a value found in a JSON document, as the bytes
the data source works on: the content of a string without its quotes, or the
raw text of any other value. -/
inductive JsonValue where
  | string (Content : Text)
  | raw (Raw : Text)
  deriving DecidableEq, Repr

/-- Modelled from the spec: JSON white space, for the lookup of a member. -/
def isSpace (c : UInt8) : Bool := c == 32 || c == 9 || c == 10 || c == 13

/-- Modelled from the spec: the text after leading white space. -/
def skipSpace : Text → Text
  | [] => []
  | c :: r => if isSpace c then skipSpace r else c :: r

/-- Modelled from the spec: the content of a string whose opening quote has been
read, up to the closing quote, and the text after it; a backslash escapes the
next byte. -/
def scanString : Text → Option (Text × Text)
  | [] => none
  | [c] => if c == 34 then some ([], []) else none
  | c :: d :: r =>
    if c == 34 then some ([], d :: r)
    else if c == 92 then
      match scanString r with
      | none => none
      | some (s, rest) => some (c :: d :: s, rest)
    else
      match scanString (d :: r) with
      | none => none
      | some (s, rest) => some (c :: s, rest)

/-- Modelled from the spec: the rest of an object or array whose opening bracket
has been read, up to and including the matching closing bracket, and the text
after it. `depth` counts the brackets opened inside, `inString` and `escaped`
track string literals, in which brackets do not count. -/
def scanBlock : Nat → Bool → Bool → Text → Option (Text × Text)
  | _, _, _, [] => none
  | depth, inString, escaped, c :: r =>
    let next : Option (Nat × Bool × Bool) :=
      if inString then
        if escaped then some (depth, true, false)
        else if c == 92 then some (depth, true, true)
        else if c == 34 then some (depth, false, false)
        else some (depth, true, false)
      else if c == 34 then some (depth, true, false)
      else if c == 123 || c == 91 then some (depth + 1, false, false)
      else if c == 125 || c == 93 then
        if depth = 0 then none else some (depth - 1, false, false)
      else some (depth, false, false)
    match next with
    | none => some ([c], r)
    | some (depth1, inString1, escaped1) =>
      match scanBlock depth1 inString1 escaped1 r with
      | none => none
      | some (b, rest) => some (c :: b, rest)

/-- The result of a scan with `w` put in front of the block found. -/
def prepend (w : Text) (found : Option (Text × Text)) : Option (Text × Text) :=
  found.map (fun p => (w ++ p.1, p.2))

/-- The text `w` is passed over by `scanBlock` outside of a string, at any
depth: the scan goes on behind it in the same state. -/
def Transparent (w : Text) : Prop :=
  ∀ (depth : Nat) (rest : Text),
    scanBlock depth false false (w ++ rest) = prepend w (scanBlock depth false false rest)

/-- Modelled from the spec: a byte that ends a number or a literal name. -/
def isDelimiter (c : UInt8) : Bool := isSpace c || c == 44 || c == 125 || c == 93

/-- Modelled from the spec: the JSON value at the head of the text and the text
after it. -/
def scanValue (t : Text) : Option (JsonValue × Text) :=
  match t with
  | [] => none
  | c :: r =>
    if c == 34 then
      match scanString r with
      | none => none
      | some (s, rest) => some (.string s, rest)
    else if c == 123 || c == 91 then
      match scanBlock 0 false false r with
      | none => none
      | some (b, rest) => some (.raw (c :: b), rest)
    else
      match t.span (fun b => !isDelimiter b) with
      | ([], _) => none
      | (p, rest) => some (.raw p, rest)

/-- Modelled from the spec: the value of member `key` among the members of an
object whose opening brace has been read; `fuel` bounds the number of members
looked at. -/
def findMember (key : Text) : Nat → Text → Option JsonValue
  | 0, _ => none
  | fuel + 1, t =>
    match skipSpace t with
    | [] => none
    | c :: r =>
      if c == 34 then
        match scanString r with
        | none => none
        | some (k, afterKey) =>
          match skipSpace afterKey with
          | [] => none
          | colon :: afterColon =>
            if colon == 58 then
              match scanValue (skipSpace afterColon) with
              | none => none
              | some (v, afterValue) =>
                if k = key then some v
                else
                  match skipSpace afterValue with
                  | [] => none
                  | comma :: more => if comma == 44 then findMember key fuel more else none
            else none
      else none

/-- Modelled from the spec: the value of the top-level member `key` of a
JSON document, `none` if the document is not an object or has no such member.
The document is read from the left and only as far as needed. -/
def jsonGet (key doc : Text) : Option JsonValue :=
  match skipSpace doc with
  | [] => none
  | c :: r => if c == 123 then findMember key doc.length r else none

/-- Modelled from the spec: the request the data source sends. -/
structure Request where
  Method : Text
  URL : Text
  Body : Text
  deriving DecidableEq, Repr

/-- Modelled from the spec: what comes back from the transport: a failure
(connection, timeout) or an answer with a status code and a body. -/
inductive Answer where
  | failure
  | response (StatusCode : Nat) (Body : Text)
  deriving DecidableEq, Repr

/-- Modelled from the spec: `BufPair{Data, Errors}`, two byte buffers. -/
structure BufPair where
  Data : Text
  Errors : Text
  deriving DecidableEq, Repr

/-- Modelled from the spec: Go `bufPair.HasErrors()`: the Errors buffer is not
empty. -/
def BufPair.HasErrors (b : BufPair) : Bool := !b.Errors.isEmpty

/-- Modelled from the spec: the errors `Load` returns: an Input that is not
of the shape of `url` and `body`, or a transport-level failure ("connection,
timeout, non-success status"). -/
inductive LoadError where
  | invalidInput
  | transport
  | status (StatusCode : Nat)
  deriving DecidableEq, Repr

/-- Modelled from the spec: the outcome of `Load`: the requests sent, the buffers
after the call and the error returned. -/
structure LoadResult where
  Sent : List Request
  Buffers : BufPair
  Err : Option LoadError
  deriving DecidableEq, Repr

/-- Modelled from the spec: the bytes of a JSON value as they are written into a
buffer. -/
def JsonValue.bytes : JsonValue → Text
  | .string s => s
  | .raw r => r

/-- Modelled from the spec: `Load` of the GraphQL data source, the execution
capability `execute(context, input, bufPair) -> error`.  The Input is "the
literal JSON document" with the members `url` and `body`; the body is sent
unchanged in one POST request to the url ("exactly one network operation per
invocation"); the `data` member of the answer ("the backend's raw success
payload") is written to `bufPair.Data` and its `errors` member ("any
backend-reported errors") to `bufPair.Errors`; an error is returned "only for
transport-level failure".  The backend is a function from the request to the
answer; context, deadline and cancellation are not modelled. -/
def Source.Load (backend : Request → Answer) (input : Text) (bufPair : BufPair) : LoadResult :=
  match jsonGet (ascii "url") input, jsonGet (ascii "body") input with
  | some (.string url), some (.raw body) =>
    let request : Request := ⟨ascii "POST", url, body⟩
    match backend request with
    | .failure => ⟨[request], bufPair, some .transport⟩
    | .response code answer =>
      if 200 ≤ code ∧ code < 300 then
        let data := match jsonGet (ascii "data") answer with
          | some v => v.bytes
          | none => []
        let errors := match jsonGet (ascii "errors") answer with
          | some v => v.bytes
          | none => []
        ⟨[request], ⟨bufPair.Data ++ data, bufPair.Errors ++ errors⟩, none⟩
      else ⟨[request], bufPair, some (.status code)⟩
  | _, _ => ⟨[], bufPair, some .invalidInput⟩

/-! ## JSON documents as trees -/

mutual
/-- A JSON value as a tree, to state what "an Input of the form
`url`, `body`" and "a document whose data member is d" are: an atom (a
number, `true`, `false` or `null`) by its text, a string by its content, an
array, or an object with its members in order. -/
inductive Json where
  | atom (Raw : Text)
  | string (Content : Text)
  | array (Items : List Json)
  | object (Members : List Member)
/-- A member of a JSON object: key and value. -/
inductive Member where
  | mk (Key : Text) (Value : Json)
end

mutual
/-- The compact text of a JSON value (no white space). -/
def Json.encode : Json → Text
  | .atom t => t
  | .string s => 34 :: (s ++ [34])
  | .array items => 91 :: (Json.encodeItems items ++ [93])
  | .object members => 123 :: (Member.encodeList members ++ [125])
/-- The texts of the items of an array, separated by commas. -/
def Json.encodeItems : List Json → Text
  | [] => []
  | j :: rest => j.encode ++ Json.encodeMore rest
/-- The texts of the further items of an array, a comma before each. -/
def Json.encodeMore : List Json → Text
  | [] => []
  | j :: rest => 44 :: (j.encode ++ Json.encodeMore rest)
/-- The texts of the members of an object, separated by commas. -/
def Member.encodeList : List Member → Text
  | [] => []
  | .mk k v :: rest => 34 :: (k ++ 34 :: 58 :: (v.encode ++ Member.encodeMore rest))
/-- The texts of the further members of an object, a comma before each. -/
def Member.encodeMore : List Member → Text
  | [] => []
  | .mk k v :: rest => 44 :: 34 :: (k ++ 34 :: 58 :: (v.encode ++ Member.encodeMore rest))
end

/-- The content of a string without escapes: no double quote and no
backslash. -/
def plainString (s : Text) : Bool := s.all (fun c => c != 34 && c != 92)

/-- The text of an atom: letters, digits, sign and decimal point only. -/
def plainAtom (t : Text) : Bool :=
  !t.isEmpty && t.all (fun c =>
    (decide (48 ≤ c.toNat) && decide (c.toNat ≤ 57)) ||
    (decide (65 ≤ c.toNat) && decide (c.toNat ≤ 90)) ||
    (decide (97 ≤ c.toNat) && decide (c.toNat ≤ 122)) ||
    c == 43 || c == 45 || c == 46)

mutual
/-- A JSON tree whose strings and keys need no escapes and whose atoms are
plain. -/
def Json.plain : Json → Bool
  | .atom t => plainAtom t
  | .string s => plainString s
  | .array items => Json.plainList items
  | .object members => Member.plainList members
/-- All items are plain. -/
def Json.plainList : List Json → Bool
  | [] => true
  | j :: rest => j.plain && Json.plainList rest
/-- All members have a plain key and a plain value. -/
def Member.plainList : List Member → Bool
  | [] => true
  | .mk k v :: rest => plainString k && v.plain && Member.plainList rest
end

/-! ## The data of `TestGraphQLDataSourceExecution` -/

/-- The URL of the test server (chosen by `httptest` at run time). -/
def testServerURL : Text := ascii "http://127.0.0.1:8080"

/-- The Input of the test, `fmt.Sprintf` of the template with the URL of the
server. -/
def testInput : Text :=
  ascii "\x7b\"url\":\"" ++ testServerURL ++
    ascii ("\",\"body\":\x7b\"query\":\"query($id: ID!)\x7bdroid(id: $id)\x7bname\x7d\x7d\"," ++
      "\"variables\":\x7b\"id\":1\x7d\x7d\x7d")

/-- The request body the handler of the test asserts. -/
def testRequestBody : Text :=
  ascii ("\x7b\"query\":\"query($id: ID!)\x7bdroid(id: $id)\x7bname\x7d\x7d\"," ++
    "\"variables\":\x7b\"id\":1\x7d\x7d")

/-- The bytes the handler of the test writes (they end in a stray quote and
brace after the `data` member). -/
def testResponseBody : Text :=
  ascii "\x7b\"data\":\x7b\"droid\":\x7b\"name\":\"r2d2\"\x7d\x7d\"\x7d"

/-- The backend of the test: the handler answers every request with status
200 and `testResponseBody`. -/
def testBackend : Request → Answer :=
  fun _ => .response 200 testResponseBody

/-- The body of the request of the test as a tree. -/
def testBodyMembers : List Member :=
  [ .mk (ascii "query")
      (.string (ascii "query($id: ID!)\x7bdroid(id: $id)\x7bname\x7d\x7d")),
    .mk (ascii "variables") (.object [.mk (ascii "id") (.atom (ascii "1"))]) ]

/-- The `data` member of the answer of Scenario 2 as a tree. -/
def scenarioDataMembers : List Member :=
  [ .mk (ascii "droid") (.object [.mk (ascii "name") (.string (ascii "r2d2"))]) ]

/-- The backend of Scenario 2 of the specification, which answers with the
document whose only member is `data`. -/
def scenarioBackend : Request → Answer :=
  fun _ => .response 200 (ascii "\x7b\"data\":\x7b\"droid\":\x7b\"name\":\"r2d2\"\x7d\x7d\x7d")

end GraphQLDataSource

namespace OperationReport

/-! ## Lemmas on the `strconv` model -/

theorem digitByte_toNat (d : Nat) (h : d < 10) : (digitByte d).toNat = 48 + d := by
  interval_cases d <;> rfl

theorem digitByte_isDigit (d : Nat) (h : d < 10) : isDigit (digitByte d) = true := by
  interval_cases d <;> rfl

theorem decimalDigits_of_lt (n : Nat) (h : n < 10) : decimalDigits n = [digitByte n] := by
  unfold decimalDigits
  split
  · subst n; rfl
  · rw [Nat.digits_of_lt 10 n (by assumption) h]; rfl

theorem decimalDigits_of_ge (n : Nat) (h : 10 ≤ n) :
    decimalDigits n = decimalDigits (n / 10) ++ [digitByte (n % 10)] := by
  have h1 : n ≠ 0 := by omega
  have h2 : n / 10 ≠ 0 := by omega
  unfold decimalDigits
  rw [if_neg h1, if_neg h2, Nat.digits_def' (by norm_num) (by omega)]
  simp

theorem formatBits_eq (fuel : Nat) : ∀ (n : Nat) (acc : List UInt8), n < 10 ^ (fuel + 1) →
    strconv.formatBits fuel n acc = decimalDigits n ++ acc := by
  induction fuel with
  | zero =>
    intro n acc h
    have h : n < 10 := by simpa using h
    simp [strconv.formatBits, decimalDigits_of_lt n h, Nat.mod_eq_of_lt h]
  | succ k ih =>
    intro n acc h
    unfold strconv.formatBits
    split
    · rename_i h10
      rw [ih _ _ (by rw [pow_succ] at h; omega), decimalDigits_of_ge n h10]
      simp
    · rename_i h10
      simp [decimalDigits_of_lt n (by omega)]

theorem AppendInt_eq (i : Int) (h : isInt64 i) : strconv.AppendInt i = decimalText i := by
  have hn : i.natAbs < 10 ^ (19 + 1) := by
    unfold isInt64 at h; omega
  unfold strconv.AppendInt decimalText
  rw [formatBits_eq 19 _ [] hn]; simp

theorem step_digit (n : Nat) (c : UInt8) (hc : isDigit c = true) :
    strconv.ParseUint.step n c =
      if n * 10 + (c.toNat - 48) < 2 ^ 64 then .ok (n * 10 + (c.toNat - 48))
      else .error .ErrRange := by
  simp only [isDigit, Bool.and_eq_true, decide_eq_true_eq] at hc
  unfold strconv.ParseUint.step
  rw [if_pos hc]
  simp only []
  split_ifs <;> first | rfl | omega

theorem step_nondigit (n : Nat) (c : UInt8) (hc : isDigit c = false) :
    strconv.ParseUint.step n c = .error .ErrSyntax := by
  have : ¬ (48 ≤ c.toNat ∧ c.toNat ≤ 57) := by
    intro h
    simp [isDigit, h.1, h.2] at hc
  unfold strconv.ParseUint.step
  rw [if_neg this]

theorem digitsValue_nil : digitsValue [] = 0 := by
  simp [digitsValue]

theorem digitsValue_cons (c : UInt8) (cs : List UInt8) :
    digitsValue (c :: cs) = (c.toNat - 48) * 10 ^ cs.length + digitsValue cs := by
  simp [digitsValue, Nat.ofDigits_append, Nat.mul_comm, Nat.add_comm]

theorem loop_digits : ∀ (ds : List UInt8) (acc : Nat), acc < 2 ^ 64 →
    ds.all isDigit = true →
    strconv.ParseUint.loop ds acc =
      if acc * 10 ^ ds.length + digitsValue ds < 2 ^ 64
      then .ok (acc * 10 ^ ds.length + digitsValue ds) else .error .ErrRange := by
  intro ds
  induction ds with
  | nil =>
    intro acc ha _
    rw [List.length_nil, pow_zero, Nat.mul_one, digitsValue_nil, Nat.add_zero, if_pos ha]
    rfl
  | cons c cs ih =>
    intro acc _ h
    simp only [List.all_cons, Bool.and_eq_true] at h
    have e : acc * 10 ^ (c :: cs).length + digitsValue (c :: cs)
        = (acc * 10 + (c.toNat - 48)) * 10 ^ cs.length + digitsValue cs := by
      rw [digitsValue_cons, List.length_cons, pow_succ]; ring
    have hp : 1 ≤ 10 ^ cs.length := Nat.one_le_pow _ _ (by norm_num)
    rw [e]
    unfold strconv.ParseUint.loop
    rw [step_digit acc c h.1]
    by_cases hs : acc * 10 + (c.toNat - 48) < 2 ^ 64
    · rw [if_pos hs]
      exact ih _ hs h.2
    · rw [if_neg hs]
      have : ¬ ((acc * 10 + (c.toNat - 48)) * 10 ^ cs.length + digitsValue cs < 2 ^ 64) := by
        have := Nat.le_mul_of_pos_right (acc * 10 + (c.toNat - 48)) hp
        omega
      rw [if_neg this]

theorem loop_nondigit : ∀ (ds : List UInt8) (acc : Nat), ds.all isDigit = false →
    ∃ e, strconv.ParseUint.loop ds acc = .error e := by
  intro ds
  induction ds with
  | nil => intro acc h; simp at h
  | cons c cs ih =>
    intro acc h
    unfold strconv.ParseUint.loop
    cases hc : isDigit c with
    | false => rw [step_nondigit acc c hc]; exact ⟨_, rfl⟩
    | true =>
      rw [step_digit acc c hc]
      have hcs : cs.all isDigit = false := by simpa [hc] using h
      split_ifs
      · exact ih _ hcs
      · exact ⟨_, rfl⟩

theorem ParseUint_digits (ds : List UInt8) (hne : ds ≠ []) (h : ds.all isDigit = true) :
    strconv.ParseUint ds =
      if digitsValue ds < 2 ^ 64 then .ok (digitsValue ds) else .error .ErrRange := by
  unfold strconv.ParseUint
  rw [if_neg hne, loop_digits ds 0 (by norm_num) h]
  simp

theorem ParseUint_nondigits (ds : List UInt8) (h : ¬ (ds ≠ [] ∧ ds.all isDigit = true)) :
    ∃ e, strconv.ParseUint ds = .error e := by
  unfold strconv.ParseUint
  by_cases hne : ds = []
  · rw [if_pos hne]; exact ⟨_, rfl⟩
  · rw [if_neg hne]
    apply loop_nondigit
    cases hd : ds.all isDigit with
    | false => rfl
    | true => exact absurd ⟨hne, hd⟩ h

theorem ParseInt_cons (c : UInt8) (rest : List UInt8) :
    strconv.ParseInt (c :: rest) =
      strconv.ParseInt.signAndRange (c == 45)
        (strconv.ParseUint (if c = 43 ∨ c = 45 then rest else c :: rest)) := by
  unfold strconv.ParseInt strconv.ParseInt.signAndRange
  by_cases h1 : c = 43
  · subst h1; simp
  · by_cases h2 : c = 45
    · subst h2; simp
    · simp [h1, h2]

theorem signAndRange_digits (neg : Bool) (ds : List UInt8) (hne : ds ≠ [])
    (h : ds.all isDigit = true) :
    strconv.ParseInt.signAndRange neg (strconv.ParseUint ds) =
      if isInt64 (if neg then -(digitsValue ds : Int) else (digitsValue ds : Int))
      then .ok (if neg then -(digitsValue ds : Int) else (digitsValue ds : Int))
      else .error .ErrRange := by
  rw [ParseUint_digits ds hne h]
  unfold strconv.ParseInt.signAndRange isInt64
  cases neg <;> split_ifs <;> simp_all <;> omega

/-- What `strconv.ParseInt` computes, in terms of the numeral read. -/
theorem ParseInt_spec (d : List UInt8) :
    (∀ n, signedDecimal64 d = some n → strconv.ParseInt d = .ok n) ∧
    (signedDecimal64 d = none → ∃ e, strconv.ParseInt d = .error e) := by
  cases d with
  | nil => simp [signedDecimal64, signedDecimal, strconv.ParseInt]
  | cons c rest =>
    rw [ParseInt_cons]
    unfold signedDecimal64 signedDecimal
    simp only []
    by_cases h : (if c = 43 ∨ c = 45 then rest else c :: rest) ≠ [] ∧
        (if c = 43 ∨ c = 45 then rest else c :: rest).all isDigit = true
    · rw [if_pos h, signAndRange_digits _ _ h.1 h.2]
      by_cases h45 : c = 45
      · simp only [h45, beq_self_eq_true, if_true]
        split_ifs <;> simp
      · have : (c == 45) = false := by simpa using h45
        simp only [this, h45, if_false]
        split_ifs <;> first | contradiction | simp
    · rw [if_neg h]
      obtain ⟨e, he⟩ := ParseUint_nondigits _ h
      rw [he]
      simp [strconv.ParseInt.signAndRange]

theorem decimalDigits_all_isDigit (n : Nat) : (decimalDigits n).all isDigit = true := by
  unfold decimalDigits
  split
  · rfl
  · rw [List.all_eq_true]
    intro b hb
    simp only [List.mem_map, List.mem_reverse] at hb
    obtain ⟨d, hd, rfl⟩ := hb
    exact digitByte_isDigit d (Nat.digits_lt_base (by norm_num) hd)

theorem decimalDigits_ne_nil (n : Nat) : decimalDigits n ≠ [] := by
  unfold decimalDigits
  split
  · simp
  · rename_i h
    simp [Nat.digits_ne_nil_iff_ne_zero, h]

theorem digitsValue_decimalDigits (n : Nat) : digitsValue (decimalDigits n) = n := by
  unfold decimalDigits digitsValue
  split
  · rename_i h; subst h; rfl
  · rw [← List.map_reverse, List.reverse_reverse, List.map_map]
    have : List.map ((fun b : UInt8 => b.toNat - 48) ∘ digitByte) (Nat.digits 10 n)
        = Nat.digits 10 n := by
      conv_rhs => rw [← List.map_id (Nat.digits 10 n)]
      apply List.map_congr_left
      intro d hd
      simp [digitByte_toNat d (Nat.digits_lt_base (by norm_num) hd)]
    rw [this, Nat.ofDigits_digits]

theorem isDigit_not_sign (c : UInt8) (h : isDigit c = true) : ¬ (c = 43 ∨ c = 45) := by
  rintro (rfl | rfl) <;> simp [isDigit] at h <;> revert h <;> decide

theorem isDigit_not_quote (c : UInt8) (h : isDigit c = true) : c ≠ 34 := by
  rintro rfl; revert h; decide

theorem signedDecimal64_decimalText (n : Int) (h : isInt64 n) :
    signedDecimal64 (decimalText n) = some n := by
  have hall := decimalDigits_all_isDigit n.natAbs
  have hne := decimalDigits_ne_nil n.natAbs
  have hval := digitsValue_decimalDigits n.natAbs
  unfold signedDecimal64 decimalText
  by_cases hn : n < 0
  · rw [if_pos hn]
    have : signedDecimal (45 :: decimalDigits n.natAbs) = some n := by
      simp only [signedDecimal, or_true, if_true, hne, hall, ne_eq, not_false_eq_true,
        and_self, hval]
      rw [Option.some.injEq]; omega
    rw [this]; simp [h]
  · rw [if_neg hn]
    obtain ⟨c, rest, hcr⟩ := List.exists_cons_of_ne_nil hne
    have hc : isDigit c = true := by
      rw [hcr] at hall; simp only [List.all_cons, Bool.and_eq_true] at hall; exact hall.1
    have hs := isDigit_not_sign c hc
    have : signedDecimal (decimalDigits n.natAbs) = some n := by
      rw [hcr] at hall hval ⊢
      have h45 : c ≠ 45 := fun e => hs (Or.inr e)
      have h43 : c ≠ 43 := fun e => hs (Or.inl e)
      simp only [signedDecimal, h43, h45, or_self, if_false, ne_eq, reduceCtorEq,
        not_false_eq_true, hall, and_self, if_true, hval]
      rw [Option.some.injEq]; omega
    rw [this]; simp [h]

theorem decimalText_head (n : Int) :
    ∃ c rest, decimalText n = c :: rest ∧ (c = 45 ∨ isDigit c = true) := by
  unfold decimalText
  split
  · exact ⟨45, _, rfl, Or.inl rfl⟩
  · obtain ⟨c, rest, hcr⟩ := List.exists_cons_of_ne_nil (decimalDigits_ne_nil n.natAbs)
    have hall := decimalDigits_all_isDigit n.natAbs
    rw [hcr] at hall
    simp only [List.all_cons, Bool.and_eq_true] at hall
    exact ⟨c, rest, hcr, Or.inr hall.1⟩

theorem signedDecimal_head (d : List UInt8) (n : Int) (h : signedDecimal d = some n) :
    ∃ c rest, d = c :: rest ∧ (c = 43 ∨ c = 45 ∨ isDigit c = true) := by
  cases d with
  | nil => simp [signedDecimal] at h
  | cons c rest =>
    refine ⟨c, rest, rfl, ?_⟩
    by_cases hs : c = 43 ∨ c = 45
    · rcases hs with hs | hs
      · exact Or.inl hs
      · exact Or.inr (Or.inl hs)
    · right; right
      unfold signedDecimal at h
      simp only [hs, if_false] at h
      split at h
      · rename_i hd
        have := hd.2
        simp only [List.all_cons, Bool.and_eq_true] at this
        exact this.1
      · cases h

theorem signedDecimal64_not_quoted (d : List UInt8) (n : Int)
    (h : signedDecimal64 d = some n) : d ≠ [] ∧ ¬ quoteDelimited d := by
  unfold signedDecimal64 at h
  cases hs : signedDecimal d with
  | none => rw [hs] at h; cases h
  | some m =>
    obtain ⟨c, rest, rfl, hc⟩ := signedDecimal_head d m hs
    refine ⟨by simp, ?_⟩
    rintro ⟨h1, -⟩
    have h34 : c = 34 := by simpa using h1
    subst h34
    rcases hc with hc | hc | hc <;> revert hc <;> decide

theorem UnmarshalJSON_unquoted (p : PathItem) (d : List UInt8) (hne : d ≠ [])
    (hq : ¬ quoteDelimited d) :
    p.UnmarshalJSON (some d) =
      match strconv.ParseInt d with
      | .error e => .ret (p, some e)
      | .ok out => .ret ({ p with Kind := ArrayIndex, ArrayIndex := out }, none) := by
  obtain ⟨c, rest, rfl⟩ := List.exists_cons_of_ne_nil hne
  unfold PathItem.UnmarshalJSON
  simp only [List.getElem?_cons_zero]
  rw [← List.getLast?_eq_getElem?]
  by_cases hc : c = 34
  · have hl : (c :: rest).getLast? ≠ some 34 := fun e => hq ⟨by simp [hc], e⟩
    cases hlast : (c :: rest).getLast? with
    | none => simp at hlast
    | some l =>
      have : (l == 34) = false := by
        rw [hlast] at hl; simpa using hl
      simp [hc, this]
  · have : (c == 34) = false := by simpa using hc
    simp [this]

theorem UnmarshalJSON_quoted (p : PathItem) (d : List UInt8) (h2 : 2 ≤ d.length)
    (hq : quoteDelimited d) :
    p.UnmarshalJSON (some d) =
      .ret ({ p with Kind := FieldName, FieldName := some d.tail.dropLast }, none) := by
  obtain ⟨c, rest, rfl⟩ := List.exists_cons_of_ne_nil (by rintro rfl; simp at h2 : d ≠ [])
  obtain ⟨h1, hl⟩ := hq
  have hc : c = 34 := by simpa using h1
  subst hc
  unfold PathItem.UnmarshalJSON
  simp only [List.getElem?_cons_zero]
  rw [← List.getLast?_eq_getElem?, hl]
  have h3 : 1 ≤ (34 :: rest).length - 1 := by omega
  simp only [beq_self_eq_true, if_true]
  rw [if_pos h3, ← List.dropLast_eq_take, List.drop_one, List.tail_dropLast]


/-! ## Lemmas on the path model -/

theorem toInt64_of_isInt64 (x : Int) (h : isInt64 x) : toInt64 x = x := by
  unfold isInt64 at h
  unfold toInt64
  rw [Int.emod_eq_of_lt (by omega) (by omega)]
  omega

theorem MarshalJSON_fieldName (p : PathItem) (h : p.Kind = FieldName) :
    p.MarshalJSON = (some (34 :: (p.FieldName.bytes ++ [34])), none) := by
  unfold PathItem.MarshalJSON
  have hk : p.Kind ≠ ArrayIndex := by rw [h]; decide
  rw [if_neg hk, if_pos h]
  cases hf : p.FieldName <;> rfl

theorem MarshalJSON_arrayIndex (p : PathItem) (h : p.Kind = ArrayIndex)
    (hr : isInt64 p.ArrayIndex) :
    p.MarshalJSON = (some (decimalText p.ArrayIndex), none) := by
  unfold PathItem.MarshalJSON
  rw [if_pos h, toInt64_of_isInt64 _ hr, AppendInt_eq _ hr]

theorem MarshalJSON_unknown (p : PathItem) (h1 : p.Kind ≠ ArrayIndex) (h2 : p.Kind ≠ FieldName) :
    p.MarshalJSON = (none, some .cannotMarshalUnknownPathKind) := by
  unfold PathItem.MarshalJSON
  rw [if_neg h1, if_neg h2]

theorem UnmarshalJSON_decimalText (p : PathItem) (n : Int) (h : isInt64 n) :
    p.UnmarshalJSON (some (decimalText n)) =
      .ret ({ p with Kind := ArrayIndex, ArrayIndex := n }, none) := by
  have hs := signedDecimal64_decimalText n h
  obtain ⟨hne, hq⟩ := signedDecimal64_not_quoted _ n hs
  rw [UnmarshalJSON_unquoted p _ hne hq, (ParseInt_spec _).1 n hs]

theorem Equals_loop_cons (a b : PathItem) (p q : List PathItem) :
    Path.Equals.loop (a :: p) (b :: q) = true ↔
      itemsAgree a b ∧ Path.Equals.loop p q = true := by
  rw [Path.Equals.loop]
  unfold itemsAgree bytes.Equal
  obtain ⟨ka, ia, fa⟩ := a
  obtain ⟨kb, ib, fb⟩ := b
  simp only []
  by_cases hk : ka = kb
  · subst hk
    by_cases hx : ka = ArrayIndex
    · subst hx
      by_cases hi : ia = ib
      · subst hi
        by_cases hf : fa.bytes = fb.bytes <;> simp [hf]
      · simp [hi]
    · by_cases hf : fa.bytes = fb.bytes <;> simp [hx, hf]
  · simp [hk]

theorem Equals_loop_iff : ∀ p q : Path, p.length = q.length →
    (Path.Equals.loop p q = true ↔ List.Forall₂ itemsAgree p q) := by
  intro p
  induction p with
  | nil =>
    intro q h
    cases q with
    | nil => simp [Path.Equals.loop]
    | cons b q => simp at h
  | cons a p ih =>
    intro q h
    cases q with
    | nil => simp at h
    | cons b q =>
      have hl : p.length = q.length := by simpa using h
      rw [List.forall₂_cons, ← ih q hl, Equals_loop_cons]

/-- What `Path.Equals` decides: the paths have the same length and at every
position the items have the same Kind, the same FieldName bytes (whatever
the Kind) and, when the Kind is ArrayIndex, the same ArrayIndex. -/
theorem Equals_iff (p q : Path) :
    Path.Equals p q = true ↔ List.Forall₂ itemsAgree p q := by
  unfold Path.Equals
  by_cases h : p.length = q.length
  · simp only [h, bne_self_eq_false, Bool.false_eq_true, if_false]
    exact Equals_loop_iff p q h
  · have : (p.length != q.length) = true := by simpa using h
    rw [this, if_pos rfl]
    constructor
    · intro h'; cases h'
    · intro h'; exact absurd h'.length_eq h

theorem quoteDelimited_wrap (l : List UInt8) : quoteDelimited (34 :: (l ++ [34])) := by
  refine ⟨rfl, ?_⟩
  rw [← List.cons_append]
  exact List.getLast?_concat _

theorem roundTrip_item_fieldName (it : PathItem) (h : it.Kind = FieldName) :
    it.roundTrip = some ⟨FieldName, 0, some it.FieldName.bytes⟩ := by
  unfold PathItem.roundTrip
  rw [MarshalJSON_fieldName it h]
  simp only []
  rw [UnmarshalJSON_quoted _ _ (by simp) (quoteDelimited_wrap _)]
  simp [PathItem.zero]

theorem roundTrip_item_arrayIndex (it : PathItem) (h : it.Kind = ArrayIndex)
    (hr : isInt64 it.ArrayIndex) :
    it.roundTrip = some ⟨ArrayIndex, it.ArrayIndex, none⟩ := by
  unfold PathItem.roundTrip
  rw [MarshalJSON_arrayIndex it h hr]
  simp only []
  rw [UnmarshalJSON_decimalText _ _ hr]
  simp [PathItem.zero]

/-- Encoding and decoding a path of FieldName and ArrayIndex items succeeds,
and the result is reported equal to the original as long as no ArrayIndex
item carries FieldName bytes. -/
theorem roundTrip_equals (p : Path)
    (h : ∀ it ∈ p, it.Kind = FieldName ∨
      (it.Kind = ArrayIndex ∧ isInt64 it.ArrayIndex ∧ it.FieldName.bytes = [])) :
    ∃ q, Path.roundTrip p = some q ∧ Path.Equals p q = true ∧ Path.Equals q p = true := by
  induction p with
  | nil => exact ⟨[], rfl, by decide, by decide⟩
  | cons it rest ih =>
    obtain ⟨qs, hqs, e1, e2⟩ := ih (fun x hx => h x (List.mem_cons_of_mem _ hx))
    rw [Equals_iff] at e1 e2
    rcases h it (List.mem_cons_self _ _) with hf | ⟨ha, hr, hn⟩
    · refine ⟨⟨FieldName, 0, some it.FieldName.bytes⟩ :: qs, ?_, ?_, ?_⟩
      · simp [Path.roundTrip, roundTrip_item_fieldName it hf, hqs]
      · rw [Equals_iff]
        refine List.Forall₂.cons ⟨hf, ?_, rfl⟩ e1
        intro hx; rw [hf] at hx; exact absurd hx (by decide)
      · rw [Equals_iff]
        refine List.Forall₂.cons ⟨hf.symm, ?_, rfl⟩ e2
        intro hx; exact absurd hx (by decide : FieldName ≠ ArrayIndex)
    · refine ⟨⟨ArrayIndex, it.ArrayIndex, none⟩ :: qs, ?_, ?_, ?_⟩
      · simp [Path.roundTrip, roundTrip_item_arrayIndex it ha hr, hqs]
      · rw [Equals_iff]
        exact List.Forall₂.cons ⟨ha, fun _ => rfl, hn⟩ e1
      · rw [Equals_iff]
        exact List.Forall₂.cons ⟨ha.symm, fun _ => rfl, hn.symm⟩ e2

/-! ## The claims -/

/-- C1 (evaluation at the failing input): the one-item path holding an
ArrayIndex item with index 1 whose FieldName bytes are `x` is encoded and
decoded successfully, to the item with index 1 and no name, and `Path.Equals`
reports the decoded path different from the original, in both directions. -/
theorem roundTrip_not_equal_for_index_with_name :
    Path.roundTrip [⟨ArrayIndex, 1, some (ascii "x")⟩] = some [⟨ArrayIndex, 1, none⟩] ∧
    Path.Equals [⟨ArrayIndex, 1, some (ascii "x")⟩] [⟨ArrayIndex, 1, none⟩] = false ∧
    Path.Equals [⟨ArrayIndex, 1, none⟩] [⟨ArrayIndex, 1, some (ascii "x")⟩] = false := by
  decide

/-- C2 (evaluation at the failing input): two ArrayIndex items with the same
index and different FieldName bytes have the same Kind and the same
discriminant, yet `Path.Equals` reports the paths different; the same holds
for two items of unknown Kind. -/
theorem Equals_compares_name_of_index_items :
    componentwiseEqual [⟨ArrayIndex, 1, some (ascii "a")⟩] [⟨ArrayIndex, 1, some (ascii "b")⟩]
      = true ∧
    Path.Equals [⟨ArrayIndex, 1, some (ascii "a")⟩] [⟨ArrayIndex, 1, some (ascii "b")⟩]
      = false ∧
    componentwiseEqual [⟨UnknownPathKind, 0, some (ascii "a")⟩] [⟨UnknownPathKind, 0, none⟩]
      = true ∧
    Path.Equals [⟨UnknownPathKind, 0, some (ascii "a")⟩] [⟨UnknownPathKind, 0, none⟩]
      = false := by
  decide

/-- C3: for an item of Kind FieldName, `MarshalJSON` succeeds and returns a
double quote, the FieldName bytes and a double quote; for an item of Kind
ArrayIndex (its index a 64-bit `int`), `MarshalJSON` succeeds and returns
exactly the base-10 text of the index. -/
theorem MarshalJSON_output (p : PathItem) :
    (p.Kind = FieldName →
      p.MarshalJSON = (some ([34] ++ p.FieldName.bytes ++ [34]), none)) ∧
    (p.Kind = ArrayIndex → isInt64 p.ArrayIndex →
      p.MarshalJSON = (some (decimalText p.ArrayIndex), none)) :=
  ⟨fun h => by rw [MarshalJSON_fieldName p h]; simp, MarshalJSON_arrayIndex p⟩

/-- C3 at concrete items: the field name `ab`, the empty (nil) field name
and the index -120. -/
theorem MarshalJSON_output_witness :
    PathItem.MarshalJSON ⟨FieldName, 0, some (ascii "ab")⟩
      = (some ([34] ++ ascii "ab" ++ [34]), none) ∧
    PathItem.MarshalJSON ⟨FieldName, 7, none⟩ = (some ([34] ++ [] ++ [34]), none) ∧
    PathItem.MarshalJSON ⟨ArrayIndex, -120, none⟩ = (some (decimalText (-120)), none) :=
  ⟨(MarshalJSON_output ⟨FieldName, 0, some (ascii "ab")⟩).1 rfl,
   (MarshalJSON_output ⟨FieldName, 7, none⟩).1 rfl,
   (MarshalJSON_output ⟨ArrayIndex, -120, none⟩).2 rfl (by decide)⟩

/-- C4 (counterexample): the field name `a"b` is encoded as `"a"b"`, which has
an unescaped double quote between its delimiters and so is not a well-formed
JSON string literal. -/
theorem MarshalJSON_quote_in_name_not_wellFormed :
    PathItem.MarshalJSON ⟨FieldName, 0, some (ascii "a\"b")⟩
      = (some (ascii "\"a\"b\""), none) ∧
    wellFormedJSONString (ascii "\"a\"b\"") = false := by
  decide

/-- C4 (amended): for an item of Kind FieldName, `MarshalJSON` returns the
FieldName bytes copied unchanged between two double quotes; the output is a
well-formed JSON string literal exactly when the FieldName bytes themselves
hold no unescaped double quote, no dangling backslash and no raw control
character. -/
theorem MarshalJSON_wellFormed_iff (p : PathItem) (h : p.Kind = FieldName) :
    ∃ out, p.MarshalJSON = (some out, none) ∧
      out = [34] ++ p.FieldName.bytes ++ [34] ∧
      wellFormedJSONString out = jsonStringBody p.FieldName.bytes := by
  refine ⟨34 :: (p.FieldName.bytes ++ [34]), MarshalJSON_fieldName p h, by simp, ?_⟩
  unfold wellFormedJSONString
  rw [(quoteDelimited_wrap _).2]
  simp [List.dropLast_concat]

/-- C4 (amended) at the field name `name`. -/
theorem MarshalJSON_wellFormed_iff_witness :
    ∃ out, PathItem.MarshalJSON ⟨FieldName, 0, some (ascii "name")⟩ = (some out, none) ∧
      out = [34] ++ ascii "name" ++ [34] ∧
      wellFormedJSONString out = jsonStringBody (ascii "name") :=
  MarshalJSON_wellFormed_iff ⟨FieldName, 0, some (ascii "name")⟩ rfl

/-- C5: data of length at least 2 whose first and last bytes are double
quotes is decoded to Kind FieldName with the bytes between them as FieldName;
the base-10 text of a signed 64-bit integer `n` is decoded to Kind ArrayIndex
with ArrayIndex `n`, and so is every signed decimal numeral (optional sign,
leading zeros allowed) whose value `n` fits 64 bits.  In each case no error is
returned and the other fields of the receiver are kept. -/
theorem UnmarshalJSON_accepts (p : PathItem) :
    (∀ d : List UInt8, 2 ≤ d.length → d.head? = some 34 → d.getLast? = some 34 →
      p.UnmarshalJSON (some d) =
        .ret ({ p with Kind := FieldName, FieldName := some d.tail.dropLast }, none)) ∧
    (∀ n : Int, isInt64 n →
      p.UnmarshalJSON (some (decimalText n)) =
        .ret ({ p with Kind := ArrayIndex, ArrayIndex := n }, none)) ∧
    (∀ (d : List UInt8) (n : Int), signedDecimal64 d = some n →
      p.UnmarshalJSON (some d) =
        .ret ({ p with Kind := ArrayIndex, ArrayIndex := n }, none)) := by
  refine ⟨fun d h2 h1 hl => UnmarshalJSON_quoted p d h2 ⟨h1, hl⟩,
    UnmarshalJSON_decimalText p, ?_⟩
  intro d n hs
  obtain ⟨hne, hq⟩ := signedDecimal64_not_quoted d n hs
  rw [UnmarshalJSON_unquoted p d hne hq, (ParseInt_spec d).1 n hs]

/-- C5 at concrete inputs: the text `"ab"`, the text of the least 64-bit
integer, and the numeral `+007`. -/
theorem UnmarshalJSON_accepts_witness :
    PathItem.UnmarshalJSON ⟨ArrayIndex, 3, none⟩ (some (ascii "\"ab\"")) =
      .ret (⟨FieldName, 3, some (ascii "\"ab\"").tail.dropLast⟩, none) ∧
    PathItem.UnmarshalJSON PathItem.zero (some (decimalText (-9223372036854775808))) =
      .ret (⟨ArrayIndex, -9223372036854775808, none⟩, none) ∧
    PathItem.UnmarshalJSON PathItem.zero (some (ascii "+007")) =
      .ret (⟨ArrayIndex, 7, none⟩, none) :=
  ⟨(UnmarshalJSON_accepts ⟨ArrayIndex, 3, none⟩).1 (ascii "\"ab\"") (by decide) (by decide)
      (by decide),
   (UnmarshalJSON_accepts PathItem.zero).2.1 (-9223372036854775808) (by decide),
   (UnmarshalJSON_accepts PathItem.zero).2.2 (ascii "+007") 7 (by decide)⟩

/-- C6 (counterexample): an empty, non-nil `data` is neither delimited by
double quotes nor the text of an integer, yet `UnmarshalJSON` does not return
an error for it: it panics with an index out of range.  The text `+5` is not
the base-10 text of any integer and is not delimited by quotes either, yet it
is accepted as the index 5 without an error. -/
theorem UnmarshalJSON_no_error_for_empty_or_plus :
    (PathItem.UnmarshalJSON PathItem.zero (some []) = .indexOutOfRange ∧
      ¬ quoteDelimited [] ∧ (∀ n : Int, decimalText n ≠ [])) ∧
    (PathItem.UnmarshalJSON PathItem.zero (some (ascii "+5")) =
        .ret (⟨ArrayIndex, 5, none⟩, none) ∧
      ¬ quoteDelimited (ascii "+5") ∧ (∀ n : Int, decimalText n ≠ ascii "+5")) := by
  refine ⟨⟨by decide, by decide, ?_⟩, by decide, by decide, ?_⟩
  · intro n h
    obtain ⟨c, rest, hcr, -⟩ := decimalText_head n
    rw [hcr] at h; cases h
  · intro n h
    obtain ⟨c, rest, hcr, hc⟩ := decimalText_head n
    rw [hcr] at h
    have h43 : c = 43 := by
      have := List.head_eq_of_cons_eq h
      simpa [ascii] using this
    subst h43
    rcases hc with hc | hc <;> revert hc <;> decide

/-- C6 (amended): `UnmarshalJSON` returns an error when `data` is nil, and
when `data` is non-empty, its first and last bytes are not both double quotes,
and it is not a signed decimal numeral (optional `+` or `-`, then one or more
digits) whose value fits 64 bits, as is the case for `null`, `true`, `1.5`,
an object and an array; and whenever it returns an error, the receiver is
left unchanged. -/
theorem UnmarshalJSON_rejects (p : PathItem) :
    p.UnmarshalJSON none = .ret (p, some .dataMustNotBeNil) ∧
    (∀ d : List UInt8, d ≠ [] → ¬ quoteDelimited d → signedDecimal64 d = none →
      ∃ e, p.UnmarshalJSON (some d) = .ret (p, some e)) ∧
    (∀ d ∈ [ascii "null", ascii "true", ascii "1.5", ascii "\x7b\x7d", ascii "[]"],
      ∃ e, p.UnmarshalJSON (some d) = .ret (p, some e)) ∧
    (∀ (data : ByteSlice) (p' : PathItem) (e : GoError),
      p.UnmarshalJSON data = .ret (p', some e) → p' = p) := by
  have reject : ∀ d : List UInt8, d ≠ [] → ¬ quoteDelimited d → signedDecimal64 d = none →
      ∃ e, p.UnmarshalJSON (some d) = .ret (p, some e) := by
    intro d hne hq hs
    obtain ⟨e, he⟩ := (ParseInt_spec d).2 hs
    exact ⟨e, by rw [UnmarshalJSON_unquoted p d hne hq, he]⟩
  refine ⟨rfl, reject, ?_, ?_⟩
  · intro d hd
    simp only [List.mem_cons, List.mem_singleton, List.not_mem_nil, or_false] at hd
    rcases hd with rfl | rfl | rfl | rfl | rfl <;>
      exact reject _ (by decide) (by decide) (by decide)
  · intro data p' e h
    cases data with
    | none =>
      simp only [PathItem.UnmarshalJSON, Exec.ret.injEq, Prod.mk.injEq] at h
      exact h.1.symm
    | some d =>
      by_cases hne : d = []
      · subst hne; simp [PathItem.UnmarshalJSON] at h
      · by_cases hq : quoteDelimited d
        · by_cases h2 : 2 ≤ d.length
          · rw [UnmarshalJSON_quoted p d h2 hq] at h
            simp at h
          · obtain ⟨c, rest, rfl⟩ := List.exists_cons_of_ne_nil hne
            have hr : rest = [] := by
              cases rest with
              | nil => rfl
              | cons _ _ => simp at h2
            subst hr
            have hc : c = 34 := by simpa using hq.1
            subst hc
            simp [PathItem.UnmarshalJSON] at h
        · rw [UnmarshalJSON_unquoted p d hne hq] at h
          cases hp : strconv.ParseInt d with
          | error e' =>
            rw [hp] at h
            simp only [Exec.ret.injEq, Prod.mk.injEq] at h
            exact h.1.symm
          | ok out => rw [hp] at h; simp at h

/-- C6 (amended) at concrete inputs, the receiver holding a field name. -/
theorem UnmarshalJSON_rejects_witness :
    (∃ e, PathItem.UnmarshalJSON ⟨FieldName, 0, some (ascii "f")⟩ (some (ascii "1.5")) =
      .ret (⟨FieldName, 0, some (ascii "f")⟩, some e)) ∧
    (∃ e, PathItem.UnmarshalJSON ⟨FieldName, 0, some (ascii "f")⟩ (some (ascii "null")) =
      .ret (⟨FieldName, 0, some (ascii "f")⟩, some e)) :=
  ⟨(UnmarshalJSON_rejects ⟨FieldName, 0, some (ascii "f")⟩).2.1 (ascii "1.5") (by decide)
      (by decide) (by decide),
   (UnmarshalJSON_rejects ⟨FieldName, 0, some (ascii "f")⟩).2.2.1 (ascii "null") (by decide)⟩

/-- C7: `MarshalJSON` returns an error if and only if the Kind is neither
ArrayIndex nor FieldName; no bytes are returned together with an error; and
the zero-value item is rejected. -/
theorem MarshalJSON_error_iff (p : PathItem) :
    (p.MarshalJSON.2 ≠ none ↔ (p.Kind ≠ ArrayIndex ∧ p.Kind ≠ FieldName)) ∧
    (p.MarshalJSON.2 ≠ none → p.MarshalJSON.1 = none) ∧
    PathItem.zero.MarshalJSON = (none, some .cannotMarshalUnknownPathKind) := by
  refine ⟨?_, ?_, rfl⟩
  · by_cases h1 : p.Kind = ArrayIndex
    · simp [PathItem.MarshalJSON, h1]
    · by_cases h2 : p.Kind = FieldName
      · rw [MarshalJSON_fieldName p h2]; simp [h2]
      · rw [MarshalJSON_unknown p h1 h2]; simp [h1, h2]
  · by_cases h1 : p.Kind = ArrayIndex
    · simp [PathItem.MarshalJSON, h1]
    · by_cases h2 : p.Kind = FieldName
      · rw [MarshalJSON_fieldName p h2]; simp
      · rw [MarshalJSON_unknown p h1 h2]; simp

theorem String_loop_item (i : Nat) (it : PathItem) (rest : List PathItem)
    (out : List UInt8) (h : isInt64 it.ArrayIndex) :
    Path.String.loop i (it :: rest) out =
      Path.String.loop (i + 1) rest
        ((if i = 0 then out else out ++ ascii ",") ++ renderItem it) := by
  rw [Path.String.loop]
  congr 1
  have e1 : (if (i != 0) = true then out ++ ascii "," else out)
      = (if i = 0 then out else out ++ ascii ",") := by
    by_cases hi : i = 0 <;> simp [hi]
  rw [e1]
  unfold renderItem strconv.Itoa unsafebytes.BytesToString len
  rw [toInt64_of_isInt64 _ h, AppendInt_eq _ h]
  have hne : FieldName ≠ ArrayIndex := by decide
  by_cases h1 : it.Kind = ArrayIndex
  · simp [h1]
  · by_cases h2 : it.Kind = FieldName
    · by_cases h3 : it.FieldName.bytes = [] <;> simp [h2, h3, hne]
    · simp [h1, h2]

theorem String_loop_succ : ∀ (p : List PathItem) (i : Nat) (out : List UInt8),
    (∀ it ∈ p, isInt64 it.ArrayIndex) →
    Path.String.loop (i + 1) p out =
      out ++ (p.map (fun it => ascii "," ++ renderItem it)).flatten := by
  intro p
  induction p with
  | nil => intro i out _; simp [Path.String.loop]
  | cons it rest ih =>
    intro i out h
    rw [String_loop_item _ _ _ _ (h it (List.mem_cons_self _ _)),
      ih _ _ (fun x hx => h x (List.mem_cons_of_mem _ hx))]
    simp

theorem intercalate_cons (sep x : List UInt8) (xs : List (List UInt8)) :
    List.intercalate sep (x :: xs) = x ++ (xs.map (fun y => sep ++ y)).flatten := by
  induction xs generalizing x with
  | nil => simp [List.intercalate]
  | cons y ys ih =>
    have : List.intercalate sep (x :: y :: ys) = x ++ (sep ++ List.intercalate sep (y :: ys)) := by
      simp [List.intercalate, List.intersperse]
    rw [this, ih]
    simp

/-- C8: `String()` returns an opening bracket, the renderings of the items in
order separated by single commas, and a closing bracket, where an ArrayIndex
item is rendered as its base-10 integer, a FieldName item as its name without
quotes, or as the text `query` when the name is empty (an item of any other
Kind adds no text); the empty path is rendered as `[]`.  The indexes are
64-bit `int` values. -/
theorem String_eq_renderPath (p : Path) (h : ∀ it ∈ p, isInt64 it.ArrayIndex) :
    Path.String p = renderPath p ∧ Path.String [] = ascii "[]" := by
  refine ⟨?_, rfl⟩
  unfold Path.String renderPath
  cases p with
  | nil => rfl
  | cons it rest =>
    rw [String_loop_item _ _ _ _ (h it (List.mem_cons_self _ _)),
      String_loop_succ _ _ _ (fun x hx => h x (List.mem_cons_of_mem _ hx)),
      List.map_cons, intercalate_cons]
    simp [List.map_map, Function.comp_def]

/-- C8 at the path of the root field, the index -3, the field `ab` and the
index 0, which is displayed as `[query,-3,ab,0]`. -/
theorem String_eq_renderPath_witness :
    (Path.String [⟨FieldName, 0, none⟩, ⟨ArrayIndex, -3, none⟩,
        ⟨FieldName, 0, some (ascii "ab")⟩, ⟨ArrayIndex, 0, none⟩]
      = renderPath [⟨FieldName, 0, none⟩, ⟨ArrayIndex, -3, none⟩,
        ⟨FieldName, 0, some (ascii "ab")⟩, ⟨ArrayIndex, 0, none⟩] ∧
      Path.String [] = ascii "[]") ∧
    Path.String [⟨FieldName, 0, none⟩, ⟨ArrayIndex, -3, none⟩,
        ⟨FieldName, 0, some (ascii "ab")⟩, ⟨ArrayIndex, 0, none⟩]
      = ascii "[query,-3,ab,0]" :=
  ⟨String_eq_renderPath _ (by decide), by decide⟩

/-- C9: every constructor of the diagnostic catalog, for all arguments,
returns an `ExternalError` with an empty Path and empty Locations; only the
Message is set.  The catalog has 33 constructors. -/
theorem catalog_sets_only_message (a b c : ByteSlice) (e : ExternalError)
    (he : e ∈ catalog a b c) :
    e.Path = [] ∧ e.Locations = [] ∧ e = { ExternalError.zero with Message := e.Message } ∧
      (catalog a b c).length = 33 := by
  simp only [catalog, List.mem_cons, List.mem_singleton, List.not_mem_nil, or_false] at he
  rcases he with rfl | rfl | rfl | rfl | rfl | rfl | rfl | rfl | rfl | rfl | rfl | rfl | rfl | rfl | rfl | rfl | rfl | rfl | rfl | rfl | rfl | rfl | rfl | rfl | rfl | rfl | rfl | rfl | rfl | rfl | rfl | rfl | rfl <;>
    exact ⟨rfl, rfl, rfl, by simp [catalog]⟩

/-- C9 at the first constructor of the catalog with concrete arguments. -/
theorem catalog_sets_only_message_witness :
    (ErrFieldUndefinedOnType (some (ascii "name")) (some (ascii "Droid"))).Path = [] ∧
    (ErrFieldUndefinedOnType (some (ascii "name")) (some (ascii "Droid"))).Locations = [] ∧
    ErrFieldUndefinedOnType (some (ascii "name")) (some (ascii "Droid")) =
      { ExternalError.zero with
        Message := (ErrFieldUndefinedOnType (some (ascii "name"))
          (some (ascii "Droid"))).Message } ∧
    (catalog (some (ascii "name")) (some (ascii "Droid")) none).length = 33 :=
  catalog_sets_only_message (some (ascii "name")) (some (ascii "Droid")) none _
    (List.mem_cons_self _ _)

/-- C10: the Message of `ErrFieldUndefinedOnType(fieldName, typeName)` is the
text `field: `, the field name, the text ` not defined on type: ` and the
type name, in this order. -/
theorem ErrFieldUndefinedOnType_message (fieldName typeName : ByteSlice) :
    (ErrFieldUndefinedOnType fieldName typeName).Message =
      ascii "field: " ++ fieldName.bytes ++ ascii " not defined on type: " ++ typeName.bytes := by
  simp [ErrFieldUndefinedOnType, fmt.Sprintf, ascii]

/-! ## Further lemmas on decoding and equality -/

theorem signedDecimal_decimalText (n : Int) : signedDecimal (decimalText n) = some n := by
  have hall := decimalDigits_all_isDigit n.natAbs
  have hne := decimalDigits_ne_nil n.natAbs
  have hval := digitsValue_decimalDigits n.natAbs
  unfold decimalText
  by_cases hn : n < 0
  · rw [if_pos hn]
    simp only [signedDecimal, or_true, if_true, hne, hall, ne_eq, not_false_eq_true,
      and_self, hval]
    rw [Option.some.injEq]; omega
  · rw [if_neg hn]
    obtain ⟨c, rest, hcr⟩ := List.exists_cons_of_ne_nil hne
    have hc : isDigit c = true := by
      rw [hcr] at hall; simp only [List.all_cons, Bool.and_eq_true] at hall; exact hall.1
    have hs := isDigit_not_sign c hc
    rw [hcr] at hall hval ⊢
    have h45 : c ≠ 45 := fun e => hs (Or.inr e)
    have h43 : c ≠ 43 := fun e => hs (Or.inl e)
    simp only [signedDecimal, h43, h45, or_self, if_false, ne_eq, reduceCtorEq,
      not_false_eq_true, hall, and_self, if_true, hval]
    rw [Option.some.injEq]; omega

theorem signedDecimal64_some (d : List UInt8) (n : Int) (h : signedDecimal64 d = some n) :
    signedDecimal d = some n ∧ isInt64 n := by
  unfold signedDecimal64 at h
  cases hs : signedDecimal d with
  | none => rw [hs] at h; cases h
  | some m =>
    rw [hs] at h
    simp only [] at h
    split at h
    · rename_i hm
      cases h
      exact ⟨rfl, hm⟩
    · cases h

theorem ParseInt_ok_iff (d : List UInt8) (n : Int) :
    strconv.ParseInt d = .ok n ↔ signedDecimal64 d = some n := by
  constructor
  · intro h
    cases hs : signedDecimal64 d with
    | none =>
      obtain ⟨e, he⟩ := (ParseInt_spec d).2 hs
      rw [he] at h; cases h
    | some m =>
      rw [(ParseInt_spec d).1 m hs] at h
      cases h; rfl
  · exact (ParseInt_spec d).1 n

/-- Every way in which `UnmarshalJSON` returns without an error. -/
theorem UnmarshalJSON_success (p p' : PathItem) (data : ByteSlice)
    (h : p.UnmarshalJSON data = .ret (p', none)) :
    ∃ d, data = some d ∧
      ((2 ≤ d.length ∧ quoteDelimited d ∧
          p' = { p with Kind := FieldName, FieldName := some d.tail.dropLast }) ∨
        (d ≠ [] ∧ ¬ quoteDelimited d ∧ ∃ n, signedDecimal64 d = some n ∧
          p' = { p with Kind := ArrayIndex, ArrayIndex := n })) := by
  cases data with
  | none => simp [PathItem.UnmarshalJSON] at h
  | some d =>
    refine ⟨d, rfl, ?_⟩
    by_cases hne : d = []
    · subst hne; simp [PathItem.UnmarshalJSON] at h
    · by_cases hq : quoteDelimited d
      · by_cases h2 : 2 ≤ d.length
        · rw [UnmarshalJSON_quoted p d h2 hq] at h
          simp only [Exec.ret.injEq, Prod.mk.injEq, and_true] at h
          exact Or.inl ⟨h2, hq, h.symm⟩
        · obtain ⟨c, rest, rfl⟩ := List.exists_cons_of_ne_nil hne
          have hr : rest = [] := by
            cases rest with
            | nil => rfl
            | cons _ _ => simp at h2
          subst hr
          have hc : c = 34 := by simpa using hq.1
          subst hc
          simp [PathItem.UnmarshalJSON] at h
      · rw [UnmarshalJSON_unquoted p d hne hq] at h
        cases hp : strconv.ParseInt d with
        | error e => rw [hp] at h; simp at h
        | ok out =>
          rw [hp] at h
          simp only [Exec.ret.injEq, Prod.mk.injEq, and_true] at h
          exact Or.inr ⟨hne, hq, out, (ParseInt_ok_iff d out).1 hp, h.symm⟩

theorem quoted_rewrap (d : List UInt8) (h2 : 2 ≤ d.length) (hq : quoteDelimited d) :
    34 :: (d.tail.dropLast ++ [34]) = d := by
  obtain ⟨c, t, rfl⟩ := List.exists_cons_of_ne_nil (by rintro rfl; simp at h2 : d ≠ [])
  obtain ⟨h1, hl⟩ := hq
  have hc : c = 34 := by simpa using h1
  subst hc
  have ht : t ≠ [] := by rintro rfl; simp at h2
  have hl2 : t.getLast? = some 34 := by
    obtain ⟨c', t', rfl⟩ := List.exists_cons_of_ne_nil ht
    rw [List.getLast?_cons_cons] at hl
    exact hl
  rw [List.tail_cons]
  congr 1
  rw [List.getLast?_eq_getLast t ht, Option.some.injEq] at hl2
  rw [← hl2]
  exact List.dropLast_append_getLast ht

theorem append_quote (f : ByteSlice) (l : List UInt8) (hl : l ≠ []) :
    builtin.append f l = some (f.bytes ++ l) := by
  cases f <;> cases l <;> first | rfl | exact absurd rfl hl

theorem MarshalJSON_congr (a b : PathItem) (h : itemsAgree a b) :
    a.MarshalJSON = b.MarshalJSON := by
  obtain ⟨hk, hi, hf⟩ := h
  unfold PathItem.MarshalJSON
  rw [append_quote a.FieldName _ (by decide), append_quote b.FieldName _ (by decide), ← hk, hf]
  by_cases hx : a.Kind = ArrayIndex
  · rw [if_pos hx, if_pos hx, hi hx]
  · rw [if_neg hx, if_neg hx]

theorem String_loop_congr : ∀ (p q : List PathItem), List.Forall₂ itemsAgree p q →
    ∀ (i : Nat) (out : List UInt8), Path.String.loop i p out = Path.String.loop i q out := by
  intro p q h
  induction h with
  | nil => intro i out; rfl
  | @cons a b p q hab _ ih =>
    intro i out
    obtain ⟨hk, hi, hf⟩ := hab
    rw [Path.String.loop, Path.String.loop]
    unfold len unsafebytes.BytesToString
    rw [← hk, hf]
    by_cases hx : a.Kind = ArrayIndex
    · rw [hi hx]; exact ih _ _
    · have hx' : ¬ ((a.Kind == ArrayIndex) = true) := by simpa using hx
      rw [if_neg hx', if_neg hx']
      exact ih _ _

theorem itemsAgree_refl (a : PathItem) : itemsAgree a a := ⟨rfl, fun _ => rfl, rfl⟩

theorem itemsAgree_symm (a b : PathItem) (h : itemsAgree a b) : itemsAgree b a :=
  ⟨h.1.symm, fun hx => (h.2.1 (h.1.trans hx)).symm, h.2.2.symm⟩

theorem itemsAgree_trans (a b c : PathItem) (h1 : itemsAgree a b) (h2 : itemsAgree b c) :
    itemsAgree a c :=
  ⟨h1.1.trans h2.1, fun hx => (h1.2.1 hx).trans (h2.2.1 (h1.1.symm.trans hx)),
    h1.2.2.trans h2.2.2⟩

theorem Forall₂_itemsAgree_refl (p : List PathItem) : List.Forall₂ itemsAgree p p := by
  induction p with
  | nil => exact List.Forall₂.nil
  | cons a p ih => exact List.Forall₂.cons (itemsAgree_refl a) ih

theorem Forall₂_itemsAgree_symm (p q : List PathItem) (h : List.Forall₂ itemsAgree p q) :
    List.Forall₂ itemsAgree q p := by
  induction h with
  | nil => exact List.Forall₂.nil
  | cons hab _ ih => exact List.Forall₂.cons (itemsAgree_symm _ _ hab) ih

theorem Forall₂_itemsAgree_trans : ∀ (p q r : List PathItem),
    List.Forall₂ itemsAgree p q → List.Forall₂ itemsAgree q r → List.Forall₂ itemsAgree p r := by
  intro p q r h
  induction h generalizing r with
  | nil => intro h2; cases h2; exact List.Forall₂.nil
  | cons hab _ ih =>
    intro h2
    cases h2 with
    | cons hbc h2' => exact List.Forall₂.cons (itemsAgree_trans _ _ _ hab hbc) (ih _ h2')

/-! ## The claims, continued -/

/-- C11: the Message of `ErrArgumentRequiredOnField(argName, fieldName)` is
the text `argument: `, the argument name, the text ` is required on field: `,
the field name and the text ` but missing`. -/
theorem ErrArgumentRequiredOnField_message (argName fieldName : ByteSlice) :
    (ErrArgumentRequiredOnField argName fieldName).Message =
      ascii "argument: " ++ argName.bytes ++ ascii " is required on field: " ++
        fieldName.bytes ++ ascii " but missing" := by
  simp [ErrArgumentRequiredOnField, fmt.Sprintf, ascii]

/-- C15 (evaluation at the failing inputs): on an empty, non-nil `data` the
read of `data[0]` exceeds the index bound, and on the single byte `"` the
sub-slice `data[1:0]` exceeds the slice bound; in both cases `UnmarshalJSON`
panics instead of returning.  On every other `data` it returns. -/
theorem UnmarshalJSON_panics_on_empty_and_lone_quote (p : PathItem) :
    p.UnmarshalJSON (some []) = .indexOutOfRange ∧
    p.UnmarshalJSON (some [34]) = .sliceBoundsOutOfRange ∧
    (∀ data : ByteSlice,
      (∃ r, p.UnmarshalJSON data = .ret r) ↔ (data ≠ some [] ∧ data ≠ some [34])) := by
  refine ⟨rfl, rfl, ?_⟩
  intro data
  cases data with
  | none => simp [PathItem.UnmarshalJSON]
  | some d =>
    by_cases hne : d = []
    · subst hne; simp [PathItem.UnmarshalJSON]
    · by_cases hq : quoteDelimited d
      · by_cases h2 : 2 ≤ d.length
        · rw [UnmarshalJSON_quoted p d h2 hq]
          have h34 : d ≠ [34] := by rintro rfl; simp at h2
          simp [hne, h34]
        · obtain ⟨c, rest, rfl⟩ := List.exists_cons_of_ne_nil hne
          have hr : rest = [] := by
            cases rest with
            | nil => rfl
            | cons _ _ => simp at h2
          subst hr
          have hc : c = 34 := by simpa using hq.1
          subst hc
          simp [PathItem.UnmarshalJSON]
      · rw [UnmarshalJSON_unquoted p d hne hq]
        have h34 : d ≠ [34] := by rintro rfl; exact hq ⟨rfl, rfl⟩
        cases strconv.ParseInt d <;> simp [hne, h34]

/-- C16: `Path.Equals` is reflexive, symmetric and transitive, and an item
whose FieldName is nil equals the item whose FieldName is empty. -/
theorem Equals_equivalence (p q r : Path) :
    Path.Equals p p = true ∧
    (Path.Equals p q = true → Path.Equals q p = true) ∧
    (Path.Equals p q = true → Path.Equals q r = true → Path.Equals p r = true) ∧
    (∀ (k : PathKind) (i : Int),
      Path.Equals [⟨k, i, none⟩] [⟨k, i, some []⟩] = true ∧
      Path.Equals [⟨k, i, some []⟩] [⟨k, i, none⟩] = true) := by
  simp only [Equals_iff]
  refine ⟨Forall₂_itemsAgree_refl p, Forall₂_itemsAgree_symm p q,
    Forall₂_itemsAgree_trans p q r, ?_⟩
  intro k i
  exact ⟨List.Forall₂.cons ⟨rfl, fun _ => rfl, rfl⟩ List.Forall₂.nil,
    List.Forall₂.cons ⟨rfl, fun _ => rfl, rfl⟩ List.Forall₂.nil⟩

/-- C16 at three concrete paths that differ in the ArrayIndex of a FieldName
item and in nil against empty names. -/
theorem Equals_equivalence_witness :
    Path.Equals [⟨FieldName, 5, some []⟩, ⟨ArrayIndex, 2, none⟩]
      [⟨FieldName, 0, none⟩, ⟨ArrayIndex, 2, some []⟩] = true ∧
    Path.Equals [⟨FieldName, 0, none⟩, ⟨ArrayIndex, 2, some []⟩]
      [⟨FieldName, -1, none⟩, ⟨ArrayIndex, 2, none⟩] = true :=
  ⟨(Equals_equivalence [⟨FieldName, 0, none⟩, ⟨ArrayIndex, 2, some []⟩]
      [⟨FieldName, 5, some []⟩, ⟨ArrayIndex, 2, none⟩]
      [⟨FieldName, -1, none⟩, ⟨ArrayIndex, 2, none⟩]).2.1 (by decide),
   (Equals_equivalence [⟨FieldName, 0, none⟩, ⟨ArrayIndex, 2, some []⟩]
      [⟨FieldName, 5, some []⟩, ⟨ArrayIndex, 2, none⟩]
      [⟨FieldName, -1, none⟩, ⟨ArrayIndex, 2, none⟩]).2.2.1 (by decide) (by decide)⟩

/-! ## Lemmas on slices in memory -/

theorem Heap.read_alloc (h : Heap) (b : List UInt8) :
    Heap.read (h ++ [b]) ⟨h.length, 0, b.length, b.length⟩ = b := by
  simp [Heap.read, List.getD_eq_getElem?_getD]

theorem Heap.read_grow (h x : Heap) (s : Slice) (hs : s.Array < h.length) :
    Heap.read (h ++ x) s = Heap.read h s := by
  simp [Heap.read, List.getD_eq_getElem?_getD, List.getElem?_append_left hs]

theorem Heap.read_write (h : Heap) (s : Slice) (elems : List UInt8) (hv : s.valid h)
    (hc : s.Len + elems.length ≤ s.Cap) :
    Heap.read (h.write s.Array (s.Off + s.Len) elems) { s with Len := s.Len + elems.length }
      = Heap.read h s ++ elems := by
  obtain ⟨ha, hb, hl⟩ := hv
  have hget : (h.set s.Array
      (((h.getD s.Array []).take (s.Off + s.Len)) ++ elems ++
        ((h.getD s.Array []).drop (s.Off + s.Len + elems.length)))).getD s.Array []
      = ((h.getD s.Array []).take (s.Off + s.Len)) ++ elems ++
        ((h.getD s.Array []).drop (s.Off + s.Len + elems.length)) := by
    simp [List.getD_eq_getElem?_getD, List.getElem?_set, ha]
  unfold Heap.read Heap.write
  rw [hget]
  generalize h.getD s.Array [] = arr at hb ⊢
  have h1 : (arr.take (s.Off + s.Len)).length = s.Off + s.Len := by
    rw [List.length_take]; omega
  have e1 : List.drop s.Off (arr.take (s.Off + s.Len) ++ elems ++ arr.drop (s.Off + s.Len + elems.length))
      = (arr.drop s.Off).take s.Len ++ elems ++ arr.drop (s.Off + s.Len + elems.length) := by
    rw [List.append_assoc, List.drop_append_of_le_length (by omega), List.drop_take]
    simp
  rw [e1]
  have h2 : ((arr.drop s.Off).take s.Len).length = s.Len := by
    rw [List.length_take, List.length_drop]; omega
  rw [List.append_assoc, List.take_append_eq_append_take]
  simp only [h2]
  rw [List.take_of_length_le (by omega)]
  have : s.Len + elems.length - s.Len = elems.length := by omega
  rw [this, List.take_append_eq_append_take, List.take_of_length_le (le_refl _)]
  simp

/-- The slice `append` returns holds the old elements and the new ones. -/
theorem Heap.append_bytes (h : Heap) (s : Option Slice) (elems : List UInt8)
    (hv : ∀ t, s = some t → t.valid h) :
    ((h.append s elems).1.bytes (h.append s elems).2).bytes = (h.bytes s).bytes ++ elems := by
  cases s with
  | none =>
    unfold Heap.append
    by_cases he : elems = []
    · simp [he, Heap.bytes, ByteSlice.bytes]
    · simp only [he, if_false, Heap.bytes, ByteSlice.bytes]
      rw [Heap.read_alloc]; simp
  | some t =>
    have hvt := hv t rfl
    unfold Heap.append
    by_cases hc : t.Len + elems.length ≤ t.Cap
    · simp only [hc, if_true, Heap.bytes, ByteSlice.bytes]
      exact Heap.read_write h t elems hvt hc
    · simp only [hc, if_false, Heap.bytes, ByteSlice.bytes]
      have := Heap.read_alloc h (h.read t ++ elems)
      simp only [List.length_append] at this
      have hlen : (h.read t).length = t.Len := by
        obtain ⟨ha, hb, hl⟩ := hvt
        simp only [Heap.read, List.length_take, List.length_drop]
        omega
      rw [hlen] at this
      exact this

theorem Slice.valid_grow (h x : Heap) (s : Slice) (hv : s.valid h) : s.valid (h ++ x) := by
  obtain ⟨ha, hb, hl⟩ := hv
  refine ⟨by rw [List.length_append]; omega, ?_, hl⟩
  simpa [List.getD_eq_getElem?_getD, List.getElem?_append_left ha] using hb

theorem Slice.valid_alloc (h : Heap) (b : List UInt8) :
    Slice.valid (h ++ [b]) ⟨h.length, 0, b.length, b.length⟩ := by
  refine ⟨by simp, ?_, le_refl _⟩
  simp [List.getD_eq_getElem?_getD]

theorem Heap.bytes_grow (h x : Heap) (s : Option Slice) (hv : ∀ t, s = some t → t.valid h) :
    Heap.bytes (h ++ x) s = Heap.bytes h s := by
  cases s with
  | none => rfl
  | some t => simp only [Heap.bytes]; rw [Heap.read_grow h x t (hv t rfl).1]

theorem Heap.length_read (h : Heap) (t : Slice) (hv : t.valid h) : (h.read t).length = t.Len := by
  obtain ⟨ha, hb, hl⟩ := hv
  simp only [Heap.read, List.length_take, List.length_drop]
  omega

/-- The slice `append` returns lies within the memory `append` leaves. -/
theorem Heap.append_valid (h : Heap) (s : Option Slice) (elems : List UInt8)
    (hv : ∀ t, s = some t → t.valid h) :
    ∀ t, (h.append s elems).2 = some t → t.valid (h.append s elems).1 := by
  intro r hr
  cases s with
  | none =>
    unfold Heap.append at hr ⊢
    by_cases he : elems = []
    · simp [he] at hr
    · simp only [he, if_false, Option.some.injEq] at hr ⊢
      subst hr
      exact Slice.valid_alloc h elems
  | some t =>
    have hvt := hv t rfl
    unfold Heap.append at hr ⊢
    by_cases hc : t.Len + elems.length ≤ t.Cap
    · simp only [hc, if_true, Option.some.injEq] at hr ⊢
      subst hr
      obtain ⟨ha, hb, hl⟩ := hvt
      refine ⟨by simpa [Heap.write] using ha, ?_, hc⟩
      simp only [Heap.write, List.getD_eq_getElem?_getD, List.getElem?_set, ha, if_true,
        Option.getD_some, List.length_append, List.length_take, List.length_drop]
      simp only [List.getD_eq_getElem?_getD] at hb
      omega
    · simp only [hc, if_false, Option.some.injEq] at hr ⊢
      subst hr
      have := Slice.valid_alloc h (h.read t ++ elems)
      simp only [List.length_append, Heap.length_read h t hvt] at this
      exact this

theorem Heap.length_write_array (h : Heap) (t : Slice) (elems : List UInt8)
    (hv : t.valid h) (hc : t.Len + elems.length ≤ t.Cap) (a : Nat) :
    ((h.write t.Array (t.Off + t.Len) elems).getD a []).length = (h.getD a []).length := by
  obtain ⟨ha, hb, hl⟩ := hv
  simp only [Heap.write, List.getD_eq_getElem?_getD, List.getElem?_set]
  simp only [List.getD_eq_getElem?_getD] at hb
  by_cases hat : t.Array = a
  · subst hat
    simp only [ha, if_true, Option.getD_some, List.length_append, List.length_take,
      List.length_drop]
    omega
  · simp only [hat, if_false]

/-- A slice that lies within the memory still does after an `append`. -/
theorem Heap.append_keeps_valid (h : Heap) (s : Option Slice) (elems : List UInt8)
    (hv : ∀ t, s = some t → t.valid h) (r : Slice) (hr : r.valid h) :
    r.valid (h.append s elems).1 := by
  cases s with
  | none =>
    unfold Heap.append
    by_cases he : elems = []
    · simpa [he] using hr
    · simp only [he, if_false]
      exact Slice.valid_grow h _ r hr
  | some t =>
    have hvt := hv t rfl
    unfold Heap.append
    by_cases hc : t.Len + elems.length ≤ t.Cap
    · simp only [hc, if_true]
      obtain ⟨ha, hb, hl⟩ := hr
      refine ⟨by simpa [Heap.write] using ha, ?_, hl⟩
      rw [Heap.length_write_array h t elems hvt hc]
      exact hb
    · simp only [hc, if_false]
      exact Slice.valid_grow h _ r hr

/-- An `append` to a slice leaves the elements of every slice over another
array as they were. -/
theorem Heap.append_read_other (h : Heap) (s : Option Slice) (elems : List UInt8)
    (r : Slice) (hr : r.Array < h.length) (hne : ∀ t, s = some t → t.Array ≠ r.Array) :
    (h.append s elems).1.read r = h.read r := by
  cases s with
  | none =>
    unfold Heap.append
    by_cases he : elems = []
    · simp [he]
    · simp only [he, if_false]
      exact Heap.read_grow h _ r hr
  | some t =>
    have hn := hne t rfl
    unfold Heap.append
    by_cases hc : t.Len + elems.length ≤ t.Cap
    · simp only [hc, if_true]
      simp only [Heap.read, Heap.write, List.getD_eq_getElem?_getD, List.getElem?_set, hn,
        if_false]
    · simp only [hc, if_false]
      exact Heap.read_grow h _ r hr

/-- The bytes and the error `MarshalJSON` returns in memory are those of the
value-level `MarshalJSON` on the item as it is read before the call. -/
theorem MarshalJSON_in_memory_returns (h : Heap) (p : PathItemInMemory)
    (hv : ∀ t, p.FieldName = some t → t.valid h) :
    (p.MarshalJSON h).1 = (p.value h).MarshalJSON := by
  unfold PathItemInMemory.MarshalJSON
  by_cases h1 : p.Kind = ArrayIndex
  · simp [h1, PathItem.MarshalJSON, PathItemInMemory.value]
  · by_cases h2 : p.Kind = FieldName
    · have hm := MarshalJSON_fieldName (p.value h) h2
      rw [if_neg h1, if_pos h2, hm]
      have hq : ascii "\"" = [34] := rfl
      have hsb : ∀ l : List UInt8, ByteSlice.bytes (some l) = l := fun _ => rfl
      have ho : Slice.valid (h ++ [[34]]) ⟨h.length, 0, 1, 1⟩ := Slice.valid_alloc h [34]
      have hro : Heap.read (h ++ [[34]]) ⟨h.length, 0, 1, 1⟩ = [34] := Heap.read_alloc h [34]
      have hrc : Heap.read (h ++ [[34]] ++ [[34]]) ⟨(h ++ [[34]]).length, 0, 1, 1⟩ = [34] :=
        Heap.read_alloc (h ++ [[34]]) [34]
      have hv2 : ∀ t, p.FieldName = some t → t.valid (h ++ [[34]] ++ [[34]]) :=
        fun t ht => Slice.valid_grow _ _ t (Slice.valid_grow h _ t (hv t ht))
      have hb2 : Heap.bytes (h ++ [[34]] ++ [[34]]) p.FieldName = Heap.bytes h p.FieldName := by
        rw [Heap.bytes_grow (h ++ [[34]]) _ p.FieldName
          (fun t ht => Slice.valid_grow h _ t (hv t ht)), Heap.bytes_grow h _ p.FieldName hv]
      have hinner := Heap.append_bytes (h ++ [[34]] ++ [[34]]) p.FieldName [34] hv2
      rw [hb2] at hinner
      have ho2 : Slice.valid (Heap.append (h ++ [[34]] ++ [[34]]) p.FieldName [34]).1
          ⟨h.length, 0, 1, 1⟩ :=
        Heap.append_keeps_valid _ p.FieldName [34] hv2 _ (Slice.valid_grow _ _ _ ho)
      have hro2 : Heap.read (Heap.append (h ++ [[34]] ++ [[34]]) p.FieldName [34]).1
          ⟨h.length, 0, 1, 1⟩ = [34] := by
        rw [Heap.append_read_other _ p.FieldName [34] ⟨h.length, 0, 1, 1⟩
          (by simp) (fun t ht => Nat.ne_of_lt (hv t ht).1),
          Heap.read_grow (h ++ [[34]]) _ _ (by simp), hro]
      have hbs : ∀ (g : Heap) (s : Slice), Heap.bytes g (some s) = some (g.read s) :=
        fun _ _ => rfl
      simp only [hq, Heap.alloc, hbs, hsb, List.length_singleton, hrc]
      generalize Heap.append (h ++ [[34]] ++ [[34]]) p.FieldName [34] = inner
        at hinner ho2 hro2 ⊢
      obtain ⟨ih, is⟩ := inner
      simp only at hinner ho2 hro2 ⊢
      rw [hinner]
      have houter := Heap.append_bytes ih (some ⟨h.length, 0, 1, 1⟩)
        ((Heap.bytes h p.FieldName).bytes ++ [34])
        (fun t ht => by rw [Option.some.injEq] at ht; subst ht; exact ho2)
      have hsome : ∃ t, (Heap.append ih (some ⟨h.length, 0, 1, 1⟩)
          ((Heap.bytes h p.FieldName).bytes ++ [34])).2 = some t := by
        simp only [Heap.append]
        split <;> exact ⟨_, rfl⟩
      obtain ⟨t, ht⟩ := hsome
      rw [ht] at houter ⊢
      simp only [hbs, hsb, hro2] at houter ⊢
      rw [houter]
      rfl
    · rw [if_neg h1, if_neg h2, MarshalJSON_unknown (p.value h) h1 h2]

/-- Whenever the FieldName of an item has spare capacity, `MarshalJSON`
stores a double quote into the backing array right behind the FieldName. -/
theorem MarshalJSON_writes_behind_FieldName (h : Heap) (p : PathItemInMemory) (s : Slice)
    (hk : p.Kind = FieldName) (hf : p.FieldName = some s) (hv : s.valid h)
    (hc : s.Len < s.Cap) :
    (p.MarshalJSON h).2.read ⟨s.Array, s.Off + s.Len, 1, 1⟩ = [34] := by
  have h1 : p.Kind ≠ ArrayIndex := by rw [hk]; decide
  have hq : ascii "\"" = [34] := rfl
  have hsb : ∀ l : List UInt8, ByteSlice.bytes (some l) = l := fun _ => rfl
  have hbs : ∀ (g : Heap) (t : Slice), Heap.bytes g (some t) = some (g.read t) :=
    fun _ _ => rfl
  have hrc : Heap.read (h ++ [[34]] ++ [[34]]) ⟨(h ++ [[34]]).length, 0, 1, 1⟩ = [34] :=
    Heap.read_alloc (h ++ [[34]]) [34]
  have hv2 : s.valid (h ++ [[34]] ++ [[34]]) :=
    Slice.valid_grow _ _ s (Slice.valid_grow h _ s hv)
  obtain ⟨ha, hb, hl⟩ := hv2
  have hfit : s.Len + [(34 : UInt8)].length ≤ s.Cap := by simp; omega
  have ht : Slice.valid (h ++ [[34]] ++ [[34]]) ⟨s.Array, s.Off + s.Len, 0, s.Cap - s.Len⟩ :=
    ⟨ha, by simp only; omega, by simp only; omega⟩
  have hw := Heap.read_write (h ++ [[34]] ++ [[34]]) ⟨s.Array, s.Off + s.Len, 0, s.Cap - s.Len⟩
    [34] ht (by simp; omega)
  simp only [Nat.add_zero, Nat.zero_add, List.length_singleton] at hw
  have hw0 : Heap.read (h ++ [[34]] ++ [[34]]) ⟨s.Array, s.Off + s.Len, 0, s.Cap - s.Len⟩ = [] := by
    simp [Heap.read]
  rw [hw0, List.nil_append] at hw
  have hw1 : Heap.read (Heap.write (h ++ [[34]] ++ [[34]]) s.Array (s.Off + s.Len) [34])
      ⟨s.Array, s.Off + s.Len, 1, 1⟩ = [34] := by
    simpa [Heap.read] using hw
  unfold PathItemInMemory.MarshalJSON
  rw [if_neg h1, if_pos hk, hf]
  simp only [hq, Heap.alloc, hbs, hsb, List.length_singleton, hrc]
  have hfit1 : s.Len + 1 ≤ s.Cap := by omega
  have hinner : Heap.append (h ++ [[34]] ++ [[34]]) (some s) [34] =
      (Heap.write (h ++ [[34]] ++ [[34]]) s.Array (s.Off + s.Len) [34],
        some { s with Len := s.Len + 1 }) := by
    simp only [Heap.append, List.length_singleton, if_pos hfit1]
  rw [hinner]
  simp only [hbs, hsb]
  have hlenw : s.Array < (Heap.write (h ++ [[34]] ++ [[34]]) s.Array (s.Off + s.Len) [34]).length := by
    simpa [Heap.write] using ha
  have houter : ∀ (g : Heap) (o : Slice) (x : List UInt8), x ≠ [] → o.Len = 1 → o.Cap = 1 →
      (Heap.append g (some o) x).1 = g ++ [g.read o ++ x] := by
    intro g o x hx h1 h2
    have hpos := List.length_pos.mpr hx
    have hno : ¬ (o.Len + x.length ≤ o.Cap) := by omega
    simp only [Heap.append, if_neg hno]
  have hread := Heap.read_write (h ++ [[34]] ++ [[34]]) s [34] ⟨ha, hb, hl⟩ hfit
  simp only [List.length_singleton] at hread
  rw [houter _ _ _ (by rw [hread]; simp) rfl rfl]
  exact (Heap.read_grow _ _ ⟨s.Array, s.Off + s.Len, 1, 1⟩ hlenw).trans hw1

/-- On the values read at one moment, two paths that `Path.Equals` reports
equal have the same `String()` and, position by position, the same value-level
outcome of `MarshalJSON`. -/
theorem Equals_congruence (p q : Path) (h : Path.Equals p q = true) :
    Path.String p = Path.String q ∧
    p.map PathItem.MarshalJSON = q.map PathItem.MarshalJSON := by
  rw [Equals_iff] at h
  refine ⟨?_, ?_⟩
  · unfold Path.String
    rw [String_loop_congr p q h]
  · induction h with
    | nil => rfl
    | cons hab _ ih => rw [List.map_cons, List.map_cons, MarshalJSON_congr _ _ hab, ih]

/-- The value-level congruence at two equal paths that differ in what
`Path.Equals` ignores. -/
theorem Equals_congruence_witness :
    Path.String [⟨FieldName, 5, some []⟩, ⟨ArrayIndex, 2, none⟩, ⟨7, 1, none⟩]
      = Path.String [⟨FieldName, 0, none⟩, ⟨ArrayIndex, 2, some []⟩, ⟨7, 3, some []⟩] ∧
    List.map PathItem.MarshalJSON [⟨FieldName, 5, some []⟩, ⟨ArrayIndex, 2, none⟩, ⟨7, 1, none⟩]
      = List.map PathItem.MarshalJSON
          [⟨FieldName, 0, none⟩, ⟨ArrayIndex, 2, some []⟩, ⟨7, 3, some []⟩] :=
  Equals_congruence _ _ (by decide)

/-- C17 (failing input): with `buf` a slice of length and capacity 2 holding
`aa`, the items `p` with FieldName `buf[0:1]` and `q` with FieldName
`buf[1:2]` are reported equal by
`Path.Equals` and have the same `String()`, and `q.MarshalJSON()` alone
returns `"a"`; but `p.MarshalJSON()` returns `"a"` and writes its closing
quote into `buf[1]`, so that `q.MarshalJSON()` called after it returns three
double quotes, and the two items no longer compare equal. -/
theorem MarshalJSON_overwrites_shared_FieldName :
    Path.Equals [firstHalf.value sharedBuffer] [secondHalf.value sharedBuffer] = true ∧
    Path.String [firstHalf.value sharedBuffer] = Path.String [secondHalf.value sharedBuffer] ∧
    (secondHalf.MarshalJSON sharedBuffer).1 = (some (ascii "\"a\""), none) ∧
    (firstHalf.MarshalJSON sharedBuffer).1 = (some (ascii "\"a\""), none) ∧
    (secondHalf.MarshalJSON (firstHalf.MarshalJSON sharedBuffer).2).1
      = (some (ascii "\"\"\""), none) ∧
    secondHalf.value (firstHalf.MarshalJSON sharedBuffer).2
      = ⟨FieldName, 0, some (ascii "\"")⟩ ∧
    Path.Equals [firstHalf.value (firstHalf.MarshalJSON sharedBuffer).2]
      [secondHalf.value (firstHalf.MarshalJSON sharedBuffer).2] = false := by
  decide

/-- C18 (counterexample): the text `+5` is decoded into a zero-value item
without an error, and encoding the result gives `5`, not `+5`. -/
theorem decode_then_encode_not_identity :
    PathItem.UnmarshalJSON PathItem.zero (some (ascii "+5")) =
      .ret (⟨ArrayIndex, 5, none⟩, none) ∧
    PathItem.MarshalJSON ⟨ArrayIndex, 5, none⟩ = (some (ascii "5"), none) ∧
    ascii "5" ≠ ascii "+5" := by
  decide

/-- C18 (amended): when `UnmarshalJSON` accepts `data` into a zero-value item,
`MarshalJSON` of the result succeeds; it returns exactly `data` when `data`
is delimited by double quotes or is the base-10 text of an integer, and
otherwise (a numeral with a plus sign, leading zeros or a negative zero) the
base-10 text of the integer that `data` denotes. -/
theorem decode_then_encode (data : ByteSlice) (p' : PathItem)
    (h : PathItem.UnmarshalJSON PathItem.zero data = .ret (p', none)) :
    ∃ out, p'.MarshalJSON = (some out, none) ∧
      (quoteDelimited data.bytes → out = data.bytes) ∧
      (∀ n : Int, data.bytes = decimalText n → out = data.bytes) ∧
      (¬ quoteDelimited data.bytes →
        ∃ n, signedDecimal64 data.bytes = some n ∧ out = decimalText n) := by
  obtain ⟨d, rfl, hd⟩ := UnmarshalJSON_success _ _ _ h
  rcases hd with ⟨h2, hq, rfl⟩ | ⟨hne, hq, n, hs, rfl⟩
  · refine ⟨34 :: (d.tail.dropLast ++ [34]), MarshalJSON_fieldName _ rfl, ?_, ?_, ?_⟩
    · intro _; exact quoted_rewrap d h2 hq
    · intro _ _; exact quoted_rewrap d h2 hq
    · intro hnq; exact absurd hq hnq
  · obtain ⟨hsd, hr⟩ := signedDecimal64_some d n hs
    refine ⟨decimalText n, MarshalJSON_arrayIndex _ rfl hr, ?_, ?_, ?_⟩
    · intro hq'; exact absurd hq' hq
    · intro m hm
      have : signedDecimal d = some m := by
        show signedDecimal (ByteSlice.bytes (some d)) = some m
        rw [hm]; exact signedDecimal_decimalText m
      rw [hsd] at this
      cases this
      exact hm.symm
    · intro _; exact ⟨n, hs, rfl⟩

/-- C18 (amended) at the text `-120`, which is returned unchanged. -/
theorem decode_then_encode_witness :
    ∃ out, PathItem.MarshalJSON ⟨ArrayIndex, -120, none⟩ = (some out, none) ∧
      (quoteDelimited (ByteSlice.bytes (some (ascii "-120"))) →
        out = ByteSlice.bytes (some (ascii "-120"))) ∧
      (∀ n : Int, ByteSlice.bytes (some (ascii "-120")) = decimalText n →
        out = ByteSlice.bytes (some (ascii "-120"))) ∧
      (¬ quoteDelimited (ByteSlice.bytes (some (ascii "-120"))) →
        ∃ n, signedDecimal64 (ByteSlice.bytes (some (ascii "-120"))) = some n ∧
          out = decimalText n) :=
  decode_then_encode (some (ascii "-120")) ⟨ArrayIndex, -120, none⟩ (by decide)

/-- C19 (evaluation at the failing input): decoding the text `1` into an item
that holds the field name `x` and into a zero-value item succeeds for both;
the first result keeps the FieldName bytes `x`, and `Path.Equals` reports the
two one-element paths different. -/
theorem decode_result_depends_on_receiver :
    PathItem.UnmarshalJSON ⟨FieldName, 0, some (ascii "x")⟩ (some (ascii "1")) =
      .ret (⟨ArrayIndex, 1, some (ascii "x")⟩, none) ∧
    PathItem.UnmarshalJSON PathItem.zero (some (ascii "1")) =
      .ret (⟨ArrayIndex, 1, none⟩, none) ∧
    Path.Equals [⟨ArrayIndex, 1, some (ascii "x")⟩] [⟨ArrayIndex, 1, none⟩] = false ∧
    Path.Equals [⟨ArrayIndex, 1, none⟩] [⟨ArrayIndex, 1, some (ascii "x")⟩] = false := by
  decide

end OperationReport

namespace GraphQLDataSource

open OperationReport (ascii ExternalError ErrFieldUndefinedOnType ErrArgumentRequiredOnField)

/-! ## Lemmas on the planner model -/

theorem nodeForType_Path (d : Definition) (fields : List Field) (started : List SingleFetch) :
    ∀ (t : TypeRef) (path : List Text), (nodeForType d fields started t path).Path = path := by
  intro t
  induction t with
  | named n =>
    intro path
    unfold nodeForType
    split <;> rfl
  | list t _ => intro path; rfl
  | nonNull t ih => intro path; unfold nodeForType; exact ih path

theorem Fetch.singlesOf_ofList (l : List SingleFetch) : Fetch.singlesOf (Fetch.ofList l) = l := by
  match l with
  | [] => rfl
  | [_] => rfl
  | _ :: _ :: _ => rfl

/-- The Fetches in the node of a field are those its nested fields start and
those below them; a scalar leaf has none. -/
theorem nodeForType_fetches (d : Definition) (fields : List Field) (started : List SingleFetch) :
    ∀ (t : TypeRef) (path : List Text),
      (nodeForType d fields started t path).fetches = started ++ Field.fetchesOfList fields ∨
        (nodeForType d fields started t path).fetches = [] := by
  intro t
  induction t with
  | named n =>
    intro path
    unfold nodeForType
    split
    · left
      simp [Node.fetches, FieldSet.fetchesOfList, Fetch.singlesOf_ofList]
    · right
      simp [Node.fetches]
  | list t ih => intro path; unfold nodeForType; simpa [Node.fetches] using ih []
  | nonNull t ih => intro path; unfold nodeForType; exact ih path

theorem nodeForType_fetches_nil (d : Definition) (fields : List Field)
    (h : Field.fetchesOfList fields = []) (t : TypeRef) (path : List Text) :
    (nodeForType d fields [] t path).fetches = [] := by
  rcases nodeForType_fetches d fields [] t path with h1 | h1
  · rw [h1, h]; rfl
  · exact h1

theorem find?_argumentMissing (op : Operation) (opArgs : List OperationArgument) :
    ∀ (args : List Argument), args.all (fun a => !argumentMissing op opArgs a) = true →
      args.find? (argumentMissing op opArgs) = none := by
  intro args h
  rw [List.find?_eq_none]
  intro a ha
  rw [List.all_eq_true] at h
  have := h a ha
  simpa using this

/-- Every way in which the planning of a field selection returns. -/
theorem planSelection_ok (d : Definition) (registry : List DataSourceConfiguration)
    (op : Operation) (enclosing : Text) (inflight : Option DataSourceConfiguration) (next : Nat)
    (al : Option Text) (name : Text) (opArgs : List OperationArgument) (sub : List Selection)
    (p : Planned)
    (h : planSelection d registry op enclosing inflight next (.field al name opArgs sub) = .ok p) :
    ∃ fd set, d.lookupField enclosing name = some fd ∧
      p.Output = .mk (al.getD name) (nodeForType d set.Fields set.Started fd.OfType [name]) ∧
      p.Next = set.Next ∧
      ((∃ cur, fetchDecision registry enclosing name inflight = .extend cur ∧
          planSelections d registry op fd.OfType.typeName (some cur) next sub = .ok set ∧
          p.Upstream = some (upstreamField name set.Upstream) ∧ p.Started = []) ∨
        (∃ ds, fetchDecision registry enclosing name inflight = .start ds ∧
          planSelections d registry op fd.OfType.typeName (some ds) (next + 1) sub = .ok set ∧
          p.Upstream = none ∧
          p.Started =
            [{ BufferId := next
               Input := fetchInput ds.url
                 (upstreamQuery fd (ds.arguments.forField name) set.Upstream)
                 (ds.arguments.forField name)
               Variables := (ds.arguments.forField name).map Argument.extractor }])) := by
  rw [planSelection] at h
  cases hf : d.lookupField enclosing name with
  | none => rw [hf] at h; cases h
  | some fd =>
    rw [hf] at h
    simp only [] at h
    cases hd : fetchDecision registry enclosing name inflight with
    | undefined => rw [hd] at h; cases h
    | extend cur =>
      rw [hd] at h
      simp only [] at h
      cases hs : planSelections d registry op fd.OfType.typeName (some cur) next sub with
      | error e => rw [hs] at h; cases h
      | ok set =>
        rw [hs] at h
        simp only [Except.ok.injEq] at h
        subst h
        exact ⟨fd, set, rfl, rfl, rfl, Or.inl ⟨cur, rfl, hs, rfl, rfl⟩⟩
    | start ds =>
      rw [hd] at h
      simp only [] at h
      cases hm : (ds.arguments.forField name).find? (argumentMissing op opArgs) with
      | some a => rw [hm] at h; cases h
      | none =>
        rw [hm] at h
        simp only [] at h
        cases hs : planSelections d registry op fd.OfType.typeName (some ds) (next + 1) sub with
        | error e => rw [hs] at h; cases h
        | ok set =>
          rw [hs] at h
          simp only [Except.ok.injEq] at h
          subst h
          exact ⟨fd, set, rfl, rfl, rfl, Or.inr ⟨ds, rfl, hs, rfl, rfl⟩⟩

/-- Every way in which the planning of a selection set returns. -/
theorem planSelections_cons_ok (d : Definition) (registry : List DataSourceConfiguration)
    (op : Operation) (enclosing : Text) (inflight : Option DataSourceConfiguration) (next : Nat)
    (s : Selection) (rest : List Selection) (set : PlannedSet)
    (h : planSelections d registry op enclosing inflight next (s :: rest) = .ok set) :
    ∃ p tail, planSelection d registry op enclosing inflight next s = .ok p ∧
      planSelections d registry op enclosing inflight p.Next rest = .ok tail ∧
      set = ⟨p.Output :: tail.Fields, p.Upstream.toList ++ tail.Upstream,
        p.Started ++ tail.Started, tail.Next⟩ := by
  rw [planSelections] at h
  cases h1 : planSelection d registry op enclosing inflight next s with
  | error e => rw [h1] at h; cases h
  | ok p =>
    rw [h1] at h
    simp only [] at h
    cases h2 : planSelections d registry op enclosing inflight p.Next rest with
    | error e => rw [h2] at h; cases h
    | ok tail =>
      rw [h2] at h
      simp only [Except.ok.injEq] at h
      exact ⟨p, tail, rfl, h2, h.symm⟩

mutual
/-- A field selection that can be planned is planned: the planner returns. -/
theorem planSelection_total (d : Definition) (registry : List DataSourceConfiguration)
    (op : Operation) :
    ∀ (s : Selection) (enclosing : Text) (inflight : Option DataSourceConfiguration) (next : Nat),
      Selection.plannable d registry op enclosing inflight s = true →
      ∃ p, planSelection d registry op enclosing inflight next s = .ok p
  | .field al name opArgs sub, enclosing, inflight, next, h => by
    rw [Selection.plannable] at h
    rw [planSelection]
    cases hf : d.lookupField enclosing name with
    | none => rw [hf] at h; cases h
    | some fd =>
      rw [hf] at h
      simp only [] at h ⊢
      cases hd : fetchDecision registry enclosing name inflight with
      | undefined => rw [hd] at h; cases h
      | extend cur =>
        rw [hd] at h
        simp only [] at h ⊢
        obtain ⟨set, hset⟩ := planSelections_total d registry op sub _ _ next h
        rw [hset]
        exact ⟨_, rfl⟩
      | start ds =>
        rw [hd] at h
        simp only [Bool.and_eq_true] at h ⊢
        obtain ⟨hargs, hsub⟩ := h
        rw [find?_argumentMissing op opArgs _ hargs]
        obtain ⟨set, hset⟩ := planSelections_total d registry op sub _ _ (next + 1) hsub
        simp only [hset]
        exact ⟨_, rfl⟩
/-- A selection set that can be planned is planned. -/
theorem planSelections_total (d : Definition) (registry : List DataSourceConfiguration)
    (op : Operation) :
    ∀ (l : List Selection) (enclosing : Text) (inflight : Option DataSourceConfiguration)
      (next : Nat),
      Selection.plannableAll d registry op enclosing inflight l = true →
      ∃ set, planSelections d registry op enclosing inflight next l = .ok set
  | [], _, _, next, _ => ⟨⟨[], [], [], next⟩, by rw [planSelections]⟩
  | s :: rest, enclosing, inflight, next, h => by
    rw [Selection.plannableAll, Bool.and_eq_true] at h
    obtain ⟨p, hp⟩ := planSelection_total d registry op s enclosing inflight next h.1
    obtain ⟨tail, ht⟩ := planSelections_total d registry op rest enclosing inflight p.Next h.2
    rw [planSelections, hp]
    simp only [ht]
    exact ⟨_, rfl⟩
end

mutual
/-- A field selection that cannot be planned fails: the planner returns a
diagnostic and no plan. -/
theorem planSelection_fails (d : Definition) (registry : List DataSourceConfiguration)
    (op : Operation) :
    ∀ (s : Selection) (enclosing : Text) (inflight : Option DataSourceConfiguration) (next : Nat),
      Selection.plannable d registry op enclosing inflight s = false →
      ∃ e, planSelection d registry op enclosing inflight next s = .error e
  | .field al name opArgs sub, enclosing, inflight, next, h => by
    rw [Selection.plannable] at h
    rw [planSelection]
    cases hf : d.lookupField enclosing name with
    | none => exact ⟨_, rfl⟩
    | some fd =>
      rw [hf] at h
      simp only [] at h ⊢
      cases hd : fetchDecision registry enclosing name inflight with
      | undefined => exact ⟨_, rfl⟩
      | extend cur =>
        rw [hd] at h
        simp only [] at h ⊢
        obtain ⟨e, he⟩ := planSelections_fails d registry op sub _ _ next h
        rw [he]
        exact ⟨_, rfl⟩
      | start ds =>
        rw [hd] at h
        simp only [] at h ⊢
        cases hm : (ds.arguments.forField name).find? (argumentMissing op opArgs) with
        | some a => exact ⟨_, rfl⟩
        | none =>
          have hall : (ds.arguments.forField name).all (fun a => !argumentMissing op opArgs a)
              = true := by
            rw [List.all_eq_true]
            intro a ha
            rw [List.find?_eq_none] at hm
            simpa using hm a ha
          rw [hall, Bool.true_and] at h
          obtain ⟨e, he⟩ := planSelections_fails d registry op sub _ _ (next + 1) h
          simp only [he]
          exact ⟨_, rfl⟩
/-- A selection set that cannot be planned fails. -/
theorem planSelections_fails (d : Definition) (registry : List DataSourceConfiguration)
    (op : Operation) :
    ∀ (l : List Selection) (enclosing : Text) (inflight : Option DataSourceConfiguration)
      (next : Nat),
      Selection.plannableAll d registry op enclosing inflight l = false →
      ∃ e, planSelections d registry op enclosing inflight next l = .error e
  | [], _, _, _, h => by rw [Selection.plannableAll] at h; cases h
  | s :: rest, enclosing, inflight, next, h => by
    rw [Selection.plannableAll] at h
    rw [planSelections]
    cases hs : Selection.plannable d registry op enclosing inflight s with
    | false =>
      obtain ⟨e, he⟩ := planSelection_fails d registry op s enclosing inflight next hs
      rw [he]
      exact ⟨_, rfl⟩
    | true =>
      rw [hs, Bool.true_and] at h
      obtain ⟨p, hp⟩ := planSelection_total d registry op s enclosing inflight next hs
      rw [hp]
      simp only []
      obtain ⟨e, he⟩ := planSelections_fails d registry op rest enclosing inflight p.Next h
      rw [he]
      exact ⟨_, rfl⟩
end

theorem fetchDecision_root (registry : List DataSourceConfiguration) (enclosing name : Text)
    (ds : DataSourceConfiguration) (h : lookupDataSource registry enclosing name = some ds) :
    fetchDecision registry enclosing name none = .start ds := by
  unfold fetchDecision
  rw [h]

/-- With one backend in the registry, a nested field extends the Fetch in
flight. -/
theorem fetchDecision_same_backend (registry : List DataSourceConfiguration)
    (enclosing name : Text) (cur : DataSourceConfiguration)
    (h : ∀ c ∈ registry, c.url = cur.url) :
    fetchDecision registry enclosing name (some cur) = .extend cur := by
  unfold fetchDecision
  cases hl : lookupDataSource registry enclosing name with
  | none => rfl
  | some ds =>
    have hmem : ds ∈ registry := List.mem_of_find?_eq_some hl
    simp only [h ds hmem, if_true]

mutual
/-- With one backend in the registry, nothing below a Fetch in flight starts
a Fetch or takes a BufferId. -/
theorem planSelection_no_fetch (d : Definition) (registry : List DataSourceConfiguration)
    (op : Operation) (cur : DataSourceConfiguration) (hreg : ∀ c ∈ registry, c.url = cur.url) :
    ∀ (s : Selection) (enclosing : Text) (next : Nat) (p : Planned),
      planSelection d registry op enclosing (some cur) next s = .ok p →
      p.Started = [] ∧ p.Output.Value.fetches = [] ∧ p.Next = next
  | .field al name opArgs sub, enclosing, next, p, h => by
    obtain ⟨fd, set, -, hout, hnext, hcase⟩ :=
      planSelection_ok d registry op enclosing (some cur) next al name opArgs sub p h
    rw [fetchDecision_same_backend registry enclosing name cur hreg] at hcase
    rcases hcase with ⟨cur', hd, hs, -, hst⟩ | ⟨ds, hd, -⟩
    · cases hd
      obtain ⟨h1, h2, h3⟩ := planSelections_no_fetch d registry op cur hreg sub _ next set hs
      refine ⟨hst, ?_, by rw [hnext, h3]⟩
      rw [hout, Field.Value, h1]
      exact nodeForType_fetches_nil d set.Fields h2 _ _
    · cases hd
theorem planSelections_no_fetch (d : Definition) (registry : List DataSourceConfiguration)
    (op : Operation) (cur : DataSourceConfiguration) (hreg : ∀ c ∈ registry, c.url = cur.url) :
    ∀ (l : List Selection) (enclosing : Text) (next : Nat) (set : PlannedSet),
      planSelections d registry op enclosing (some cur) next l = .ok set →
      set.Started = [] ∧ Field.fetchesOfList set.Fields = [] ∧ set.Next = next
  | [], _, next, set, h => by
    rw [planSelections] at h
    cases h
    exact ⟨rfl, rfl, rfl⟩
  | s :: rest, enclosing, next, set, h => by
    obtain ⟨p, tail, hp, ht, rfl⟩ :=
      planSelections_cons_ok d registry op enclosing (some cur) next s rest set h
    obtain ⟨h1, h2, h3⟩ := planSelection_no_fetch d registry op cur hreg s enclosing next p hp
    obtain ⟨t1, t2, t3⟩ :=
      planSelections_no_fetch d registry op cur hreg rest enclosing p.Next tail ht
    refine ⟨by simp [h1, t1], ?_, by simp [t3, h3]⟩
    cases hpo : p.Output with
    | mk n v =>
      rw [hpo, Field.Value] at h2
      simp [Field.fetchesOfList, h2, t2]
end

theorem variablesEntries_length : ∀ (args : List Argument) (k : Nat),
    (variablesEntries k args).length = args.length := by
  intro args
  induction args with
  | nil => intro k; rfl
  | cons a rest ih => intro k; simp [variablesEntries, ih]

theorem variablesEntries_head (a : Argument) (rest : List Argument) :
    ∃ post, List.intercalate (ascii ",") (variablesEntries 0 (a :: rest)) =
      ascii "\"" ++ a.Name ++ ascii "\":$$0$$" ++ post := by
  cases rest with
  | nil => exact ⟨[], by simp [variablesEntries, List.intercalate, placeholder, ascii]; rfl⟩
  | cons b more =>
    refine ⟨ascii "," ++ List.intercalate (ascii ",") (variablesEntries 1 (b :: more)), ?_⟩
    simp [variablesEntries, List.intercalate, List.intersperse, placeholder, ascii]
    rfl

theorem variablesEntries_getElem? : ∀ (args : List Argument) (k i : Nat) (a : Argument),
    args[i]? = some a →
    (variablesEntries k args)[i]? =
      some (ascii "\"" ++ a.Name ++ ascii "\":" ++ placeholder (k + i)) := by
  intro args
  induction args with
  | nil => intro k i a h; simp at h
  | cons b rest ih =>
    intro k i a h
    cases i with
    | zero =>
      simp only [List.getElem?_cons_zero, Option.some.injEq] at h
      subst h
      simp [variablesEntries]
    | succ j =>
      simp only [List.getElem?_cons_succ] at h
      rw [variablesEntries, List.getElem?_cons_succ, ih (k + 1) j a h]
      congr 3
      omega

/-- The plan of an operation with one root field. -/
theorem plan_single_root (d : Definition) (registry : List DataSourceConfiguration)
    (op : Operation) (s : Selection) (p : Planned) (hsel : op.Selections = [s])
    (h : planSelection d registry op d.QueryTypeName none 0 s = .ok p) :
    plan d registry op =
      .ok (.Object [] (Fetch.ofList p.Started) [.mk [p.Output]]) := by
  unfold plan
  rw [hsel, planSelections, h]
  simp only [planSelections, List.append_nil]

theorem nodup_interleave (a b c e : List Nat) (h1 : (a ++ b).Nodup) (h2 : (c ++ e).Nodup)
    (hdis : ∀ x ∈ a ++ b, ∀ y ∈ c ++ e, x ≠ y) : ((a ++ c) ++ (b ++ e)).Nodup := by
  have hp : ((a ++ c) ++ (b ++ e)).Perm ((a ++ b) ++ (c ++ e)) := by
    simp only [List.append_assoc]
    apply List.Perm.append_left
    rw [← List.append_assoc, ← List.append_assoc]
    exact List.Perm.append_right _ List.perm_append_comm
  rw [hp.nodup_iff, List.nodup_append]
  exact ⟨h1, h2, fun x hx hy => hdis x hx x hy rfl⟩

mutual
/-- The Fetches that the planning of a field selection starts, at the field
and below it, take distinct BufferIds, from the next free one on and below the
one left free. -/
theorem planSelection_bufferIds (d : Definition) (registry : List DataSourceConfiguration)
    (op : Operation) :
    ∀ (s : Selection) (enclosing : Text) (inflight : Option DataSourceConfiguration)
      (next : Nat) (p : Planned),
      planSelection d registry op enclosing inflight next s = .ok p →
      next ≤ p.Next ∧
        (∀ f ∈ p.Started ++ p.Output.Value.fetches, next ≤ f.BufferId ∧ f.BufferId < p.Next) ∧
        ((p.Started ++ p.Output.Value.fetches).map SingleFetch.BufferId).Nodup
  | .field al name opArgs sub, enclosing, inflight, next, p, h => by
    obtain ⟨fd, set, -, hout, hnext, hcase⟩ :=
      planSelection_ok d registry op enclosing inflight next al name opArgs sub p h
    rcases hcase with ⟨cur, -, hs, -, hst⟩ | ⟨ds, -, hs, -, hst⟩
    · obtain ⟨h1, h2, h3⟩ := planSelections_bufferIds d registry op sub _ _ next set hs
      rw [hst, hout, Field.Value, hnext, List.nil_append]
      rcases nodeForType_fetches d set.Fields set.Started fd.OfType [name] with hf | hf
      · rw [hf]; exact ⟨h1, h2, h3⟩
      · rw [hf]; exact ⟨h1, by simp, by simp⟩
    · obtain ⟨h1, h2, h3⟩ := planSelections_bufferIds d registry op sub _ _ (next + 1) set hs
      rw [hst, hout, Field.Value, hnext]
      rcases nodeForType_fetches d set.Fields set.Started fd.OfType [name] with hf | hf
      · rw [hf]
        refine ⟨by omega, ?_, ?_⟩
        · intro f hfm
          simp only [List.singleton_append, List.mem_cons] at hfm
          rcases hfm with rfl | hfm
          · simp only; omega
          · have := h2 f hfm; omega
        · simp only [List.singleton_append, List.map_cons, List.nodup_cons]
          refine ⟨?_, h3⟩
          intro hmem
          rw [List.mem_map] at hmem
          obtain ⟨f, hfm, hfe⟩ := hmem
          have := h2 f hfm
          omega
      · rw [hf]
        refine ⟨by omega, ?_, by simp⟩
        intro f hfm
        simp only [List.append_nil, List.mem_singleton] at hfm
        subst hfm
        simp only
        omega
/-- The Fetches that the planning of a selection set starts take distinct
BufferIds. -/
theorem planSelections_bufferIds (d : Definition) (registry : List DataSourceConfiguration)
    (op : Operation) :
    ∀ (l : List Selection) (enclosing : Text) (inflight : Option DataSourceConfiguration)
      (next : Nat) (set : PlannedSet),
      planSelections d registry op enclosing inflight next l = .ok set →
      next ≤ set.Next ∧
        (∀ f ∈ set.Started ++ Field.fetchesOfList set.Fields,
          next ≤ f.BufferId ∧ f.BufferId < set.Next) ∧
        ((set.Started ++ Field.fetchesOfList set.Fields).map SingleFetch.BufferId).Nodup
  | [], _, _, next, set, h => by
    rw [planSelections] at h
    cases h
    exact ⟨le_refl _, by simp [Field.fetchesOfList], by simp [Field.fetchesOfList]⟩
  | s :: rest, enclosing, inflight, next, set, h => by
    obtain ⟨p, tail, hp, ht, rfl⟩ :=
      planSelections_cons_ok d registry op enclosing inflight next s rest set h
    obtain ⟨h1, h2, h3⟩ := planSelection_bufferIds d registry op s enclosing inflight next p hp
    obtain ⟨t1, t2, t3⟩ :=
      planSelections_bufferIds d registry op rest enclosing inflight p.Next tail ht
    cases hpo : p.Output with
    | mk n v =>
      rw [hpo, Field.Value] at h2 h3
      simp only [Field.fetchesOfList]
      refine ⟨by omega, ?_, ?_⟩
      · intro f hfm
        simp only [List.mem_append] at hfm h2 t2
        rcases hfm with (hfm | hfm) | (hfm | hfm)
        · have := h2 f (Or.inl hfm); omega
        · have := t2 f (Or.inl hfm); omega
        · have := h2 f (Or.inr hfm); omega
        · have := t2 f (Or.inr hfm); omega
      · simp only [List.map_append] at h3 t3 ⊢
        apply nodup_interleave _ _ _ _ h3 t3
        intro x hx y hy
        rw [← List.map_append, List.mem_map] at hx hy
        obtain ⟨f, hfm, rfl⟩ := hx
        obtain ⟨g, hgm, rfl⟩ := hy
        have := h2 f hfm
        have := t2 g hgm
        omega
end

/-- The Fetches of a plan have distinct BufferIds ("BufferId is unique per
Fetch"). -/
theorem plan_bufferIds_nodup (d : Definition) (registry : List DataSourceConfiguration)
    (op : Operation) (root : Node) (h : plan d registry op = .ok root) :
    (root.fetches.map SingleFetch.BufferId).Nodup := by
  unfold plan at h
  cases hs : planSelections d registry op d.QueryTypeName none 0 op.Selections with
  | error e => rw [hs] at h; cases h
  | ok set =>
    rw [hs] at h
    simp only [Except.ok.injEq] at h
    subst h
    have := (planSelections_bufferIds d registry op _ _ _ 0 set hs).2.2
    simpa [Node.fetches, FieldSet.fetchesOfList, Fetch.singlesOf_ofList] using this

/-! ## The planner model at work -/

/-- The plan of the operation of the test: the expected plan, with the Path
`droid` on the Object of the field `droid`. -/
theorem plan_testOperation :
    plan testDefinition testConfiguration testOperation =
      .ok (.Object [] (some (.Single expectedFetch))
        [.mk [ .mk (ascii "droid") (.Object [ascii "droid"] none [.mk expectedDroidFields]) ]]) := by
  set_option maxRecDepth 100000 in rfl

/-- Two root fields start two Fetches, embedded in the root Object as one
parallel Fetch with the BufferIds 0 and 1; the field `friends` of a Droid,
configured for another backend, starts a third Fetch, with BufferId 2 and its
own upstream query, embedded in the Object of `droid`, whose upstream query
asks for `name` only. -/
theorem plan_heroAndDroid :
    plan testDefinition twoBackends heroAndDroid =
      .ok (.Object []
        (some (.Parallel
          [ { BufferId := 0
              Input := ascii ("\x7b\"url\":\"https://swapi.com/graphql\",\"body\":\x7b\"query\":\"" ++
                "query\x7bhero\x7bname\x7d\x7d\",\"variables\":\x7b\x7d\x7d\x7d")
              Variables := [] },
            { BufferId := 1
              Input := ascii ("\x7b\"url\":\"https://swapi.com/graphql\",\"body\":\x7b\"query\":\"" ++
                "query($id: ID!)\x7bdroid(id: $id)\x7bname\x7d\x7d" ++
                "\",\"variables\":\x7b\"id\":$$0$$\x7d\x7d\x7d")
              Variables := [.ContextVariable [ascii "id"]] } ]))
        [.mk
          [ .mk (ascii "hero")
              (.Object [ascii "hero"] none [.mk [.mk (ascii "name") (.String [ascii "name"])]]),
            .mk (ascii "droid")
              (.Object [ascii "droid"]
                (some (.Single
                  { BufferId := 2
                    Input := ascii ("\x7b\"url\":\"https://friends.example/graphql\"," ++
                      "\"body\":\x7b\"query\":\"query\x7bfriends\x7bname\x7d\x7d\"," ++
                      "\"variables\":\x7b\x7d\x7d\x7d")
                    Variables := [] }))
                [.mk
                  [ .mk (ascii "name") (.String [ascii "name"]),
                    .mk (ascii "friends")
                      (.Array [ascii "friends"]
                        (.Object [] none
                          [.mk [.mk (ascii "name") (.String [ascii "name"])]])) ]]) ]]) := by
  set_option maxRecDepth 100000 in rfl

/-- A root field without a configuration fails planning with the "undefined
field" diagnostic: `hero` with the registry of the test. -/
theorem plan_unmatched_root_field :
    plan testDefinition testConfiguration heroAndDroid =
      .error (ErrFieldUndefinedOnType (some (ascii "hero")) (some (ascii "Query"))) := by
  set_option maxRecDepth 100000 in rfl

/-- A field that the enclosing type does not define fails planning with the
"undefined field" diagnostic: `height` below `droid`. -/
theorem plan_undefined_nested_field :
    plan testDefinition testConfiguration
        { testOperation with
          Selections :=
            [ .field none (ascii "droid") [⟨ascii "id", .variable (ascii "id")⟩]
                [ .field none (ascii "height") [] [] ] ] } =
      .error (ErrFieldUndefinedOnType (some (ascii "height")) (some (ascii "Droid"))) := by
  set_option maxRecDepth 100000 in rfl

/-- A bound argument that is neither an argument of the field nor a variable
of the operation fails planning with the "argument required" diagnostic. -/
theorem plan_missing_argument :
    plan testDefinition testConfiguration
        { Name := ascii "Q"
          VariableDefinitions := []
          Selections := [ .field none (ascii "droid") [] [ .field none (ascii "name") [] [] ] ] } =
      .error (ErrArgumentRequiredOnField (some (ascii "id")) (some (ascii "droid"))) := by
  set_option maxRecDepth 100000 in rfl

/-! ## The claims on the planner and the data source -/

/-- C12: every field selection `alias: field` that can be planned is planned,
wherever it stands in the operation, to an output Field whose Name is the
alias and whose Value has the one-element Path holding the upstream field
name; without an alias the Name is the field name.  For the operation of the
test the planned droid Object has the fields name, aliased, friends and
primaryFunction in this order, and the field aliased has the Path `name`; the
plan is the expected plan of the test once the Paths of Object nodes, which
the literal of the test does not set, are left out. -/
theorem alias_is_name_and_path_is_upstream_field :
    (∀ (d : Definition) (registry : List DataSourceConfiguration) (op : Operation)
        (enclosing : Text) (inflight : Option DataSourceConfiguration) (next : Nat)
        (al name : Text) (opArgs : List OperationArgument) (sub : List Selection),
        Selection.plannable d registry op enclosing inflight
          (.field (some al) name opArgs sub) = true →
        ∃ p, planSelection d registry op enclosing inflight next
            (.field (some al) name opArgs sub) = .ok p ∧
          p.Output.Name = al ∧ p.Output.Value.Path = [name]) ∧
    (∀ (d : Definition) (registry : List DataSourceConfiguration) (op : Operation)
        (enclosing : Text) (inflight : Option DataSourceConfiguration) (next : Nat)
        (name : Text) (opArgs : List OperationArgument) (sub : List Selection),
        Selection.plannable d registry op enclosing inflight
          (.field none name opArgs sub) = true →
        ∃ p, planSelection d registry op enclosing inflight next
            (.field none name opArgs sub) = .ok p ∧
          p.Output.Name = name ∧ p.Output.Value.Path = [name]) ∧
    (∃ root droid,
        plan testDefinition testConfiguration testOperation = .ok root ∧
        root.Fields = [droid] ∧ droid.Name = ascii "droid" ∧
        droid.Value.Path = [ascii "droid"] ∧
        droid.Value.Fields.map Field.Name =
          [ascii "name", ascii "aliased", ascii "friends", ascii "primaryFunction"] ∧
        (droid.Value.Fields.filter (fun f => f.Name == ascii "aliased")).map
            (fun f => f.Value.Path) = [[ascii "name"]] ∧
        root.withoutObjectPaths = expectedPlan) := by
  have key : ∀ (d : Definition) (registry : List DataSourceConfiguration) (op : Operation)
      (enclosing : Text) (inflight : Option DataSourceConfiguration) (next : Nat)
      (al : Option Text) (name : Text) (opArgs : List OperationArgument) (sub : List Selection),
      Selection.plannable d registry op enclosing inflight (.field al name opArgs sub) = true →
      ∃ p, planSelection d registry op enclosing inflight next (.field al name opArgs sub)
          = .ok p ∧
        p.Output.Name = al.getD name ∧ p.Output.Value.Path = [name] := by
    intro d registry op enclosing inflight next al name opArgs sub h
    obtain ⟨p, hp⟩ := planSelection_total d registry op _ enclosing inflight next h
    obtain ⟨fd, set, -, hout, -, -⟩ :=
      planSelection_ok d registry op enclosing inflight next al name opArgs sub p hp
    refine ⟨p, hp, by rw [hout]; rfl, ?_⟩
    rw [hout, Field.Value]
    exact nodeForType_Path d _ _ _ _
  refine ⟨?_, ?_, ?_⟩
  · intro d registry op enclosing inflight next al name opArgs sub h
    exact key d registry op enclosing inflight next (some al) name opArgs sub h
  · intro d registry op enclosing inflight next name opArgs sub h
    exact key d registry op enclosing inflight next none name opArgs sub h
  · refine ⟨.Object [] (some (.Single expectedFetch))
        [.mk [ .mk (ascii "droid") (.Object [ascii "droid"] none [.mk expectedDroidFields]) ]],
      .mk (ascii "droid") (.Object [ascii "droid"] none [.mk expectedDroidFields]),
      ?_, rfl, rfl, rfl, ?_, ?_, rfl⟩
    · set_option maxRecDepth 100000 in rfl
    · set_option maxRecDepth 100000 in decide
    · set_option maxRecDepth 100000 in decide

/-- C12 at the selection `aliased: name` of the test, below the type Droid
with the Fetch of `droid` in flight. -/
theorem alias_is_name_and_path_is_upstream_field_witness :
    ∃ p, planSelection testDefinition testConfiguration testOperation (ascii "Droid")
        (some testDataSource) 1 (.field (some (ascii "aliased")) (ascii "name") [] []) = .ok p ∧
      p.Output.Name = ascii "aliased" ∧ p.Output.Value.Path = [ascii "name"] :=
  alias_is_name_and_path_is_upstream_field.1 testDefinition testConfiguration testOperation
    (ascii "Droid") (some testDataSource) 1 (ascii "aliased") (ascii "name") [] []
    (by set_option maxRecDepth 100000 in decide)

/-- C13: a field that starts a Fetch and can be planned is planned to exactly
one Fetch of its own, with the next free BufferId; the argument its
configuration binds at position `i` has placeholder `i` as its value at
position `i` of the `variables` object that ends the Input, and the extractor
of its SourcePath at position `i` of the Variables.  When the operation has
this one root field, its first bound argument has Source Field and SourcePath
`id`, and the registry knows one backend, the plan holds a single Fetch, on
the root Object, with BufferId 0, whose Input has `$$0$$` as the value of that
argument at the start of the `variables` object and whose first variable
extracts the path `id`.  For the operation of the test the Fetch has BufferId
0 and exactly the Input the test expects; the texts for the upstream
selection set of `droid` are `name`, `name`, `friends` with `name` and
`primaryFunction`, of which the second `name`, for the aliased selection, is
not emitted. -/
theorem bound_argument_gives_placeholder_and_variable :
    (∀ (d : Definition) (registry : List DataSourceConfiguration) (op : Operation)
        (enclosing : Text) (inflight : Option DataSourceConfiguration) (next : Nat)
        (al : Option Text) (name : Text) (opArgs : List OperationArgument)
        (sub : List Selection) (ds : DataSourceConfiguration) (i : Nat) (a : Argument),
        Selection.plannable d registry op enclosing inflight
          (.field al name opArgs sub) = true →
        fetchDecision registry enclosing name inflight = .start ds →
        (ds.arguments.forField name)[i]? = some a →
        ∃ p fetch, planSelection d registry op enclosing inflight next
            (.field al name opArgs sub) = .ok p ∧
          p.Started = [fetch] ∧ fetch.BufferId = next ∧
          fetch.Variables.length = (ds.arguments.forField name).length ∧
          fetch.Variables[i]? = some (.ContextVariable a.SourcePath) ∧
          ∃ pre entries, fetch.Input =
              pre ++ ascii "\"variables\":\x7b" ++ List.intercalate (ascii ",") entries
                ++ ascii "\x7d\x7d\x7d" ∧
            entries.length = (ds.arguments.forField name).length ∧
            entries[i]? = some (ascii "\"" ++ a.Name ++ ascii "\":" ++ placeholder i)) ∧
    (∀ (d : Definition) (registry : List DataSourceConfiguration) (op : Operation)
        (al : Option Text) (name : Text) (opArgs : List OperationArgument)
        (sub : List Selection) (ds : DataSourceConfiguration) (argName : Text)
        (more : List Argument),
        op.Selections = [.field al name opArgs sub] →
        Selection.plannable d registry op d.QueryTypeName none
          (.field al name opArgs sub) = true →
        lookupDataSource registry d.QueryTypeName name = some ds →
        ds.arguments.forField name = ⟨argName, .Field, [ascii "id"]⟩ :: more →
        (∀ c ∈ registry, c.url = ds.url) →
        ∃ root fetch, plan d registry op = .ok root ∧
          root.Fetch = some (.Single fetch) ∧ root.fetches = [fetch] ∧ fetch.BufferId = 0 ∧
          fetch.Variables[0]? = some (.ContextVariable [ascii "id"]) ∧
          ∃ pre post, fetch.Input =
            pre ++ ascii "\"variables\":\x7b\"" ++ argName ++ ascii "\":$$0$$" ++ post) ∧
    (∃ root set,
        plan testDefinition testConfiguration testOperation = .ok root ∧
        root.Fetch = some (.Single ⟨0, expectedInput, [.ContextVariable [ascii "id"]]⟩) ∧
        root.fetches = [⟨0, expectedInput, [.ContextVariable [ascii "id"]]⟩] ∧
        planSelections testDefinition testConfiguration testOperation (ascii "Droid")
          (some testDataSource) 1 testDroidSelections = .ok set ∧
        set.Upstream =
          [ascii "name", ascii "name", ascii "friends \x7bname\x7d", ascii "primaryFunction"] ∧
        emitOnce [] set.Upstream =
          [ascii "name", ascii "friends \x7bname\x7d", ascii "primaryFunction"]) := by
  refine ⟨?_, ?_, ?_⟩
  · intro d registry op enclosing inflight next al name opArgs sub ds i a h hdec hi
    obtain ⟨p, hp⟩ := planSelection_total d registry op _ enclosing inflight next h
    obtain ⟨fd, set, -, -, -, hcase⟩ :=
      planSelection_ok d registry op enclosing inflight next al name opArgs sub p hp
    rw [hdec] at hcase
    rcases hcase with ⟨cur, hd, -⟩ | ⟨ds', hd, -, -, hst⟩
    · cases hd
    · cases hd
      refine ⟨p, _, hp, hst, rfl, by simp, ?_, ?_⟩
      · simp only [List.getElem?_map, hi, Option.map_some']
        cases a with
        | mk n src path => cases src <;> rfl
      · refine ⟨ascii "\x7b\"url\":\"" ++ ds.url ++ ascii "\",\"body\":\x7b\"query\":\"" ++
            upstreamQuery fd (ds.arguments.forField name) set.Upstream ++ ascii "\",",
          variablesEntries 0 (ds.arguments.forField name), ?_,
          variablesEntries_length _ 0, ?_⟩
        · simp only [fetchInput]
          simp [ascii]
        · have := variablesEntries_getElem? _ 0 i a hi
          rwa [Nat.zero_add] at this
  · intro d registry op al name opArgs sub ds argName more hsel h hds hargs hreg
    obtain ⟨p, hp⟩ := planSelection_total d registry op _ d.QueryTypeName none 0 h
    obtain ⟨fd, set, -, hout, -, hcase⟩ :=
      planSelection_ok d registry op d.QueryTypeName none 0 al name opArgs sub p hp
    rw [fetchDecision_root registry _ name ds hds] at hcase
    rcases hcase with ⟨cur, hd, -⟩ | ⟨ds', hd, hs, -, hst⟩
    · cases hd
    · cases hd
      obtain ⟨s1, s2, -⟩ := planSelections_no_fetch d registry op ds hreg sub _ _ set hs
      have hval : p.Output.Value.fetches = [] := by
        rw [hout, Field.Value, s1]
        exact nodeForType_fetches_nil d set.Fields s2 _ _
      rw [hargs] at hst
      refine ⟨_,
        { BufferId := 0
          Input := fetchInput ds.url
            (upstreamQuery fd (⟨argName, .Field, [ascii "id"]⟩ :: more) set.Upstream)
            (⟨argName, .Field, [ascii "id"]⟩ :: more)
          Variables := List.map Argument.extractor (⟨argName, .Field, [ascii "id"]⟩ :: more) },
        plan_single_root d registry op _ p hsel hp, ?_, ?_, rfl, ?_, ?_⟩
      · rw [hst]; rfl
      · rw [hst]
        cases hpo : p.Output with
        | mk n v =>
          rw [hpo, Field.Value] at hval
          simp [Node.fetches, FieldSet.fetchesOfList, Field.fetchesOfList, Fetch.ofList,
            Fetch.singlesOf, Fetch.singles, hval]
      · simp [Argument.extractor]
      · obtain ⟨post, hpost⟩ := variablesEntries_head ⟨argName, .Field, [ascii "id"]⟩ more
        refine ⟨ascii "\x7b\"url\":\"" ++ ds.url ++ ascii "\",\"body\":\x7b\"query\":\"" ++
            upstreamQuery fd (⟨argName, .Field, [ascii "id"]⟩ :: more) set.Upstream
              ++ ascii "\",",
          post ++ ascii "\x7d\x7d\x7d", ?_⟩
        simp only [fetchInput, hpost]
        simp [ascii]
  · refine ⟨.Object [] (some (.Single expectedFetch))
        [.mk [ .mk (ascii "droid") (.Object [ascii "droid"] none [.mk expectedDroidFields]) ]],
      ⟨expectedDroidFields,
        [ascii "name", ascii "name", ascii "friends \x7bname\x7d", ascii "primaryFunction"],
        [], 1⟩, ?_, rfl, rfl, ?_, rfl, ?_⟩
    · set_option maxRecDepth 100000 in rfl
    · set_option maxRecDepth 100000 in rfl
    · set_option maxRecDepth 100000 in decide

/-- C13 at the operation, the schema and the configuration of the test. -/
theorem bound_argument_gives_placeholder_and_variable_witness :
    ∃ root fetch, plan testDefinition testConfiguration testOperation = .ok root ∧
      root.Fetch = some (.Single fetch) ∧ root.fetches = [fetch] ∧ fetch.BufferId = 0 ∧
      fetch.Variables[0]? = some (.ContextVariable [ascii "id"]) ∧
      ∃ pre post, fetch.Input =
        pre ++ ascii "\"variables\":\x7b\"" ++ ascii "id" ++ ascii "\":$$0$$" ++ post :=
  bound_argument_gives_placeholder_and_variable.2.1 testDefinition testConfiguration
    testOperation none (ascii "droid") [⟨ascii "id", .variable (ascii "id")⟩]
    testDroidSelections testDataSource (ascii "id") [] rfl
    (by set_option maxRecDepth 100000 in decide)
    (by set_option maxRecDepth 100000 in decide)
    (by set_option maxRecDepth 100000 in decide)
    (by set_option maxRecDepth 100000 in decide)

/-- What `Load` does when the members of the Input and of the answer are
known. -/
theorem Load_of_members (backend : Request → Answer) (input u b answer d : Text)
    (hu : jsonGet (ascii "url") input = some (.string u))
    (hb : jsonGet (ascii "body") input = some (.raw b))
    (ha : backend ⟨ascii "POST", u, b⟩ = .response 200 answer)
    (hd : jsonGet (ascii "data") answer = some (.raw d))
    (he : jsonGet (ascii "errors") answer = none) :
    Source.Load backend input ⟨[], []⟩ =
      ⟨[⟨ascii "POST", u, b⟩], ⟨d, []⟩, none⟩ := by
  unfold Source.Load
  rw [hu, hb]
  simp only [ha, hd, he]
  simp [JsonValue.bytes]

end GraphQLDataSource

namespace GraphQLDataSource

open OperationReport (ascii)

/-! ## Lemmas on the JSON scanner -/

/-- Put `w` in front of the block a scan returns. -/
theorem scanString_plain : ∀ (s rest : Text), plainString s = true →
    scanString (s ++ 34 :: rest) = some (s, rest) := by
  intro s
  induction s with
  | nil =>
    intro rest _
    cases rest <;> simp [scanString]
  | cons c s ih =>
    intro rest h
    simp only [plainString, List.all_cons, Bool.and_eq_true, bne_iff_ne, ne_eq] at h
    obtain ⟨⟨h34, h92⟩, hs⟩ := h
    have hs' : plainString s = true := by simpa [plainString] using hs
    have e : (c :: s) ++ 34 :: rest = c :: (s ++ 34 :: rest) := rfl
    rw [e]
    cases hsr : s ++ 34 :: rest with
    | nil => simp at hsr
    | cons d r =>
      have h1 : (c == 34) = false := by simpa using h34
      have h2 : (c == 92) = false := by simpa using h92
      rw [scanString]
      simp only [h1, h2, Bool.false_eq_true, if_false]
      rw [← hsr, ih rest hs']

theorem skipSpace_of_not_space (c : UInt8) (r : Text) (h : isSpace c = false) :
    skipSpace (c :: r) = c :: r := by
  simp [skipSpace, h]

theorem prepend_prepend (w1 w2 : Text) (o : Option (Text × Text)) :
    prepend w1 (prepend w2 o) = prepend (w1 ++ w2) o := by
  cases o <;> simp [prepend]

theorem prepend_nil (o : Option (Text × Text)) : prepend [] o = o := by
  cases o <;> simp [prepend]

theorem scanBlock_step (depth : Nat) (inString escaped : Bool) (c : UInt8) (r : Text)
    (depth1 : Nat) (inString1 escaped1 : Bool)
    (h : (if inString then
        if escaped then some (depth, true, false)
        else if c == 92 then some (depth, true, true)
        else if c == 34 then some (depth, false, false)
        else some (depth, true, false)
      else if c == 34 then some (depth, true, false)
      else if c == 123 || c == 91 then some (depth + 1, false, false)
      else if c == 125 || c == 93 then
        if depth = 0 then none else some (depth - 1, false, false)
      else some (depth, false, false)) = some (depth1, inString1, escaped1)) :
    scanBlock depth inString escaped (c :: r) =
      prepend [c] (scanBlock depth1 inString1 escaped1 r) := by
  rw [scanBlock]
  simp only [h]
  cases scanBlock depth1 inString1 escaped1 r <;> simp [prepend]

theorem scanBlock_close_outer (c : UInt8) (r : Text) (h : c = 125 ∨ c = 93) :
    scanBlock 0 false false (c :: r) = some ([c], r) := by
  rw [scanBlock]
  rcases h with rfl | rfl <;> simp

theorem transparent_nil : Transparent [] := by
  intro depth rest
  simp [prepend_nil]

theorem transparent_append (w1 w2 : Text) (h1 : Transparent w1) (h2 : Transparent w2) :
    Transparent (w1 ++ w2) := by
  intro depth rest
  rw [List.append_assoc, h1, h2, prepend_prepend]

theorem transparent_other (c : UInt8)
    (h : c ≠ 34 ∧ c ≠ 123 ∧ c ≠ 91 ∧ c ≠ 125 ∧ c ≠ 93) : Transparent [c] := by
  intro depth rest
  obtain ⟨h1, h2, h3, h4, h5⟩ := h
  exact scanBlock_step depth false false c rest depth false false (by simp [h1, h2, h3, h4, h5])

theorem transparent_bracketed (o c : UInt8) (w : Text) (ho : o = 123 ∨ o = 91)
    (hc : c = 125 ∨ c = 93) (hw : Transparent w) : Transparent (o :: (w ++ [c])) := by
  intro depth rest
  have e : (o :: (w ++ [c])) ++ rest = o :: (w ++ (c :: rest)) := by simp
  rw [e, scanBlock_step depth false false o _ (depth + 1) false false
      (by rcases ho with rfl | rfl <;> simp),
    hw,
    scanBlock_step (depth + 1) false false c rest depth false false
      (by rcases hc with rfl | rfl <;> simp),
    prepend_prepend, prepend_prepend]
  simp

theorem scanBlock_inString : ∀ (s : Text) (depth : Nat) (rest : Text), plainString s = true →
    scanBlock depth true false (s ++ 34 :: rest) =
      prepend (s ++ [34]) (scanBlock depth false false rest) := by
  intro s
  induction s with
  | nil =>
    intro depth rest _
    exact scanBlock_step depth true false 34 rest depth false false (by simp)
  | cons c s ih =>
    intro depth rest h
    simp only [plainString, List.all_cons, Bool.and_eq_true, bne_iff_ne, ne_eq] at h
    obtain ⟨⟨h34, h92⟩, hs⟩ := h
    have hs' : plainString s = true := by simpa [plainString] using hs
    have e : (c :: s) ++ 34 :: rest = c :: (s ++ 34 :: rest) := rfl
    rw [e, scanBlock_step depth true false c _ depth true false (by simp [h34, h92]),
      ih depth rest hs', prepend_prepend]
    simp

theorem transparent_string (s : Text) (h : plainString s = true) :
    Transparent (34 :: (s ++ [34])) := by
  intro depth rest
  have e : (34 :: (s ++ [34])) ++ rest = 34 :: (s ++ 34 :: rest) := by simp
  rw [e, scanBlock_step depth false false 34 _ depth true false (by simp),
    scanBlock_inString s depth rest h, prepend_prepend]
  simp

theorem transparent_atom : ∀ (t : Text),
    t.all (fun c =>
      (decide (48 ≤ c.toNat) && decide (c.toNat ≤ 57)) ||
      (decide (65 ≤ c.toNat) && decide (c.toNat ≤ 90)) ||
      (decide (97 ≤ c.toNat) && decide (c.toNat ≤ 122)) ||
      c == 43 || c == 45 || c == 46) = true → Transparent t := by
  intro t
  induction t with
  | nil => intro _; exact transparent_nil
  | cons c t ih =>
    intro h
    simp only [List.all_cons, Bool.and_eq_true] at h
    have hc : c ≠ 34 ∧ c ≠ 123 ∧ c ≠ 91 ∧ c ≠ 125 ∧ c ≠ 93 := by
      have := h.1
      refine ⟨?_, ?_, ?_, ?_, ?_⟩ <;> rintro rfl <;> revert this <;> decide
    exact transparent_append [c] t (transparent_other c hc) (ih h.2)

theorem transparent_cons (c : UInt8) (w : Text) (hc : Transparent [c]) (hw : Transparent w) :
    Transparent (c :: w) :=
  transparent_append [c] w hc hw

theorem transparent_member (k v more : Text) (hk : plainString k = true)
    (hv : Transparent v) (hm : Transparent more) :
    Transparent (34 :: (k ++ 34 :: 58 :: (v ++ more))) := by
  have e : 34 :: (k ++ 34 :: 58 :: (v ++ more)) = (34 :: (k ++ [34])) ++ ([58] ++ (v ++ more)) := by
    simp
  rw [e]
  exact transparent_append _ _ (transparent_string k hk)
    (transparent_append _ _ (transparent_other 58 (by decide)) (transparent_append _ _ hv hm))

mutual
theorem encode_transparent : ∀ (j : Json), j.plain = true → Transparent j.encode
  | .atom t, h => by
    rw [Json.plain, plainAtom, Bool.and_eq_true] at h
    rw [Json.encode]
    exact transparent_atom t h.2
  | .string s, h => by
    rw [Json.plain] at h
    rw [Json.encode]
    exact transparent_string s h
  | .array items, h => by
    rw [Json.plain] at h
    rw [Json.encode]
    exact transparent_bracketed 91 93 _ (Or.inr rfl) (Or.inr rfl)
      (encodeItems_transparent items h)
  | .object members, h => by
    rw [Json.plain] at h
    rw [Json.encode]
    exact transparent_bracketed 123 125 _ (Or.inl rfl) (Or.inl rfl)
      (encodeMembers_transparent members h)
theorem encodeItems_transparent : ∀ (l : List Json), Json.plainList l = true →
    Transparent (Json.encodeItems l)
  | [], _ => by rw [Json.encodeItems]; exact transparent_nil
  | j :: rest, h => by
    rw [Json.plainList, Bool.and_eq_true] at h
    rw [Json.encodeItems]
    exact transparent_append _ _ (encode_transparent j h.1) (encodeMore_transparent rest h.2)
theorem encodeMore_transparent : ∀ (l : List Json), Json.plainList l = true →
    Transparent (Json.encodeMore l)
  | [], _ => by rw [Json.encodeMore]; exact transparent_nil
  | j :: rest, h => by
    rw [Json.plainList, Bool.and_eq_true] at h
    rw [Json.encodeMore]
    exact transparent_cons 44 _ (transparent_other 44 (by decide))
      (transparent_append _ _ (encode_transparent j h.1) (encodeMore_transparent rest h.2))
theorem encodeMembers_transparent : ∀ (l : List Member), Member.plainList l = true →
    Transparent (Member.encodeList l)
  | [], _ => by rw [Member.encodeList]; exact transparent_nil
  | .mk k v :: rest, h => by
    rw [Member.plainList, Bool.and_eq_true, Bool.and_eq_true] at h
    rw [Member.encodeList]
    exact transparent_member k _ _ h.1.1 (encode_transparent v h.1.2)
      (encodeMoreMembers_transparent rest h.2)
theorem encodeMoreMembers_transparent : ∀ (l : List Member), Member.plainList l = true →
    Transparent (Member.encodeMore l)
  | [], _ => by rw [Member.encodeMore]; exact transparent_nil
  | .mk k v :: rest, h => by
    rw [Member.plainList, Bool.and_eq_true, Bool.and_eq_true] at h
    rw [Member.encodeMore]
    exact transparent_cons 44 _ (transparent_other 44 (by decide))
      (transparent_member k _ _ h.1.1 (encode_transparent v h.1.2)
        (encodeMoreMembers_transparent rest h.2))
end

/-- The scanner reads the text of a plain object as one raw value. -/
theorem scanValue_object (members : List Member) (rest : Text)
    (h : (Json.object members).plain = true) :
    scanValue ((Json.object members).encode ++ rest) =
      some (.raw (Json.object members).encode, rest) := by
  rw [Json.plain] at h
  have ht := encodeMembers_transparent members h
  rw [Json.encode]
  have e : (123 :: (Member.encodeList members ++ [125])) ++ rest =
      123 :: (Member.encodeList members ++ (125 :: rest)) := by simp
  rw [e, scanValue]
  simp only [show ((123 : UInt8) == 34) = false by decide, Bool.false_eq_true, if_false,
    show ((123 : UInt8) == 123 || (123 : UInt8) == 91) = true by decide, if_true]
  rw [ht 0 (125 :: rest), scanBlock_close_outer 125 rest (Or.inl rfl)]
  simp [prepend]

theorem scanValue_string (s rest : Text) (h : plainString s = true) :
    scanValue (34 :: (s ++ 34 :: rest)) = some (.string s, rest) := by
  rw [scanValue]
  simp only [beq_self_eq_true, if_true]
  rw [scanString_plain s rest h]

/-- The member looked up is the first one of the text. -/
theorem findMember_hit (key : Text) (fuel : Nat) (v : JsonValue) (value rest after : Text)
    (hk : plainString key = true)
    (hs : skipSpace (value ++ rest) = value ++ rest)
    (hv : scanValue (value ++ rest) = some (v, after)) :
    findMember key (fuel + 1) (34 :: (key ++ 34 :: 58 :: (value ++ rest))) = some v := by
  rw [findMember, skipSpace_of_not_space 34 _ (by decide)]
  simp only [beq_self_eq_true, if_true]
  rw [scanString_plain key _ hk]
  simp only []
  rw [skipSpace_of_not_space 58 _ (by decide)]
  simp only [beq_self_eq_true, if_true]
  rw [hs, hv]

/-- The first member of the text has another key and is followed by a comma:
the lookup goes on behind the comma. -/
theorem findMember_miss (key k : Text) (fuel : Nat) (v : JsonValue) (value more : Text)
    (hk : plainString k = true) (hne : k ≠ key)
    (hs : skipSpace (value ++ 44 :: more) = value ++ 44 :: more)
    (hv : scanValue (value ++ 44 :: more) = some (v, 44 :: more)) :
    findMember key (fuel + 1) (34 :: (k ++ 34 :: 58 :: (value ++ 44 :: more))) =
      findMember key fuel more := by
  rw [findMember, skipSpace_of_not_space 34 _ (by decide)]
  simp only [beq_self_eq_true, if_true]
  rw [scanString_plain k _ hk]
  simp only []
  rw [skipSpace_of_not_space 58 _ (by decide)]
  simp only [beq_self_eq_true, if_true]
  rw [hs, hv]
  simp only [hne, if_false]
  rw [skipSpace_of_not_space 44 _ (by decide)]
  simp

/-- The last member of the object has another key: the member is absent. -/
theorem findMember_end (key k : Text) (fuel : Nat) (v : JsonValue) (value rest : Text)
    (hk : plainString k = true) (hne : k ≠ key)
    (hs : skipSpace (value ++ 125 :: rest) = value ++ 125 :: rest)
    (hv : scanValue (value ++ 125 :: rest) = some (v, 125 :: rest)) :
    findMember key (fuel + 1) (34 :: (k ++ 34 :: 58 :: (value ++ 125 :: rest))) = none := by
  rw [findMember, skipSpace_of_not_space 34 _ (by decide)]
  simp only [beq_self_eq_true, if_true]
  rw [scanString_plain k _ hk]
  simp only []
  rw [skipSpace_of_not_space 58 _ (by decide)]
  simp only [beq_self_eq_true, if_true]
  rw [hs, hv]
  simp only [hne, if_false]
  rw [skipSpace_of_not_space 125 _ (by decide)]
  simp

theorem encode_object_cons (members : List Member) (rest : Text) :
    (Json.object members).encode ++ rest =
      123 :: (Member.encodeList members ++ 125 :: rest) := by
  rw [Json.encode]; simp

theorem skipSpace_object (members : List Member) (rest : Text) :
    skipSpace ((Json.object members).encode ++ rest) = (Json.object members).encode ++ rest := by
  rw [encode_object_cons]
  exact skipSpace_of_not_space 123 _ (by decide)

/-- The members `url` and `body` of the Input with these two members. -/
theorem jsonGet_input (u : Text) (body : List Member) (hu : plainString u = true)
    (hb : (Json.object body).plain = true) :
    jsonGet (ascii "url")
        (Json.object [.mk (ascii "url") (.string u),
          .mk (ascii "body") (.object body)]).encode = some (.string u) ∧
    jsonGet (ascii "body")
        (Json.object [.mk (ascii "url") (.string u),
          .mk (ascii "body") (.object body)]).encode
      = some (.raw (Json.object body).encode) := by
  have e : (Json.object [.mk (ascii "url") (.string u),
        .mk (ascii "body") (.object body)]).encode =
      123 :: 34 :: (ascii "url" ++ 34 :: 58 :: ((34 :: (u ++ [34])) ++ 44 :: 34 ::
        (ascii "body" ++ 34 :: 58 :: ((Json.object body).encode ++ 125 :: [])))) := by
    simp [Json.encode, Member.encodeList, Member.encodeMore]
  rw [e]
  have hv : scanValue ((34 :: (u ++ [34])) ++ 44 :: 34 ::
        (ascii "body" ++ 34 :: 58 :: ((Json.object body).encode ++ 125 :: []))) =
      some (.string u, 44 :: 34 ::
        (ascii "body" ++ 34 :: 58 :: ((Json.object body).encode ++ 125 :: []))) := by
    have := scanValue_string u (44 :: 34 ::
        (ascii "body" ++ 34 :: 58 :: ((Json.object body).encode ++ 125 :: []))) hu
    simpa using this
  have hs : ∀ rest : Text, skipSpace ((34 :: (u ++ [34])) ++ rest) = (34 :: (u ++ [34])) ++ rest :=
    fun rest => skipSpace_of_not_space 34 _ (by decide)
  constructor
  · unfold jsonGet
    rw [skipSpace_of_not_space 123 _ (by decide)]
    simp only [beq_self_eq_true, if_true, List.length_cons]
    exact findMember_hit (ascii "url") _ _ _ _ _ (by decide) (hs _) hv
  · unfold jsonGet
    rw [skipSpace_of_not_space 123 _ (by decide)]
    simp only [beq_self_eq_true, if_true, List.length_cons]
    rw [findMember_miss (ascii "body") (ascii "url") _ _ _ _ (by decide) (by decide) (hs _) hv]
    have hlen : ∀ (w : Text), (ascii "url" ++ 34 :: 58 :: (34 :: (u ++ [34]) ++ 44 :: 34 :: w)).length
        = (ascii "url" ++ 34 :: 58 :: (34 :: (u ++ [34]) ++ 44 :: w)).length + 1 := by
      intro w; simp only [List.length_append, List.length_cons]; omega
    rw [hlen]
    exact findMember_hit (ascii "body") _ _ _ _ _ (by decide) (skipSpace_object body _)
      (scanValue_object body _ hb)

/-- The members `data` and `errors` of the answer whose only member is
`data`. -/
theorem jsonGet_answer (data : List Member) (hd : (Json.object data).plain = true) :
    jsonGet (ascii "data") (Json.object [.mk (ascii "data") (.object data)]).encode
      = some (.raw (Json.object data).encode) ∧
    jsonGet (ascii "errors") (Json.object [.mk (ascii "data") (.object data)]).encode
      = none := by
  have e : (Json.object [.mk (ascii "data") (.object data)]).encode =
      123 :: 34 :: (ascii "data" ++ 34 :: 58 :: ((Json.object data).encode ++ 125 :: [])) := by
    simp [Json.encode, Member.encodeList, Member.encodeMore]
  rw [e]
  constructor
  · unfold jsonGet
    rw [skipSpace_of_not_space 123 _ (by decide)]
    simp only [beq_self_eq_true, if_true, List.length_cons]
    exact findMember_hit (ascii "data") _ _ _ _ _ (by decide) (skipSpace_object data _)
      (scanValue_object data _ hd)
  · unfold jsonGet
    rw [skipSpace_of_not_space 123 _ (by decide)]
    simp only [beq_self_eq_true, if_true, List.length_cons]
    exact findMember_end (ascii "errors") (ascii "data") _ _ _ _ (by decide) (by decide)
      (skipSpace_object data _) (scanValue_object data _ hd)

/-- C14: on an Input whose `url` member is the string `u` and whose `body`
member is `b`, `Load` sends one request, a POST to `u` with body `b`; when
the backend answers it successfully with a document whose `data` member is
`d` and which has no `errors` member, `Load` returns no error, `bufPair.Data`
holds exactly `d` and `bufPair.Errors` stays empty.  This holds whenever the
member lookup finds these members, and in particular for every Input that is
the compact text of the object with the members `url` and `body`, the body
being an object, and every answer that is the compact text of the object
whose only member is `data`, an object (strings without escapes). -/
theorem Load_posts_body_and_writes_data :
    (∀ (backend : Request → Answer) (input u b answer d : Text),
        jsonGet (ascii "url") input = some (.string u) →
        jsonGet (ascii "body") input = some (.raw b) →
        backend ⟨ascii "POST", u, b⟩ = .response 200 answer →
        jsonGet (ascii "data") answer = some (.raw d) →
        jsonGet (ascii "errors") answer = none →
        Source.Load backend input ⟨[], []⟩ = ⟨[⟨ascii "POST", u, b⟩], ⟨d, []⟩, none⟩ ∧
          (Source.Load backend input ⟨[], []⟩).Buffers.HasErrors = false) ∧
    (∀ (backend : Request → Answer) (u : Text) (body data : List Member),
        plainString u = true → (Json.object body).plain = true →
        (Json.object data).plain = true →
        backend ⟨ascii "POST", u, (Json.object body).encode⟩ =
          .response 200 (Json.object [.mk (ascii "data") (.object data)]).encode →
        Source.Load backend
            (Json.object [.mk (ascii "url") (.string u),
              .mk (ascii "body") (.object body)]).encode ⟨[], []⟩ =
          ⟨[⟨ascii "POST", u, (Json.object body).encode⟩],
            ⟨(Json.object data).encode, []⟩, none⟩) := by
  refine ⟨?_, ?_⟩
  · intro backend input u b answer d hu hb ha hd he
    rw [Load_of_members backend input u b answer d hu hb ha hd he]
    exact ⟨rfl, rfl⟩
  · intro backend u body data hu hb hd ha
    obtain ⟨h1, h2⟩ := jsonGet_input u body hu hb
    obtain ⟨h3, h4⟩ := jsonGet_answer data hd
    exact Load_of_members backend _ u _ _ _ h1 h2 ha h3 h4

/-- C14 at the execution test: the Input of the test with the handler of the
test as backend (its answer ends in a stray quote after the `data` member)
gives the buffers the test asserts; and the same Input, as the text of a
tree, with the answer of Scenario 2. -/
theorem Load_posts_body_and_writes_data_witness :
    (Source.Load testBackend testInput ⟨[], []⟩ =
        ⟨[⟨ascii "POST", testServerURL, testRequestBody⟩],
          ⟨ascii "\x7b\"droid\":\x7b\"name\":\"r2d2\"\x7d\x7d", []⟩, none⟩ ∧
      (Source.Load testBackend testInput ⟨[], []⟩).Buffers.HasErrors = false) ∧
    Source.Load scenarioBackend
        (Json.object [.mk (ascii "url") (.string testServerURL),
          .mk (ascii "body") (.object testBodyMembers)]).encode ⟨[], []⟩ =
      ⟨[⟨ascii "POST", testServerURL, (Json.object testBodyMembers).encode⟩],
        ⟨(Json.object scenarioDataMembers).encode, []⟩, none⟩ ∧
    (Json.object [.mk (ascii "url") (.string testServerURL),
        .mk (ascii "body") (.object testBodyMembers)]).encode = testInput ∧
    (Json.object testBodyMembers).encode = testRequestBody ∧
    (Json.object scenarioDataMembers).encode =
      ascii "\x7b\"droid\":\x7b\"name\":\"r2d2\"\x7d\x7d" :=
  ⟨Load_posts_body_and_writes_data.1 testBackend testInput testServerURL testRequestBody
      testResponseBody (ascii "\x7b\"droid\":\x7b\"name\":\"r2d2\"\x7d\x7d")
      (by set_option maxRecDepth 100000 in decide)
      (by set_option maxRecDepth 100000 in decide)
      rfl (by set_option maxRecDepth 100000 in decide)
      (by set_option maxRecDepth 100000 in decide),
    Load_posts_body_and_writes_data.2 scenarioBackend testServerURL testBodyMembers
      scenarioDataMembers (by set_option maxRecDepth 100000 in decide)
      (by set_option maxRecDepth 100000 in decide)
      (by set_option maxRecDepth 100000 in decide)
      (by set_option maxRecDepth 100000 in decide),
    by set_option maxRecDepth 100000 in decide,
    by set_option maxRecDepth 100000 in decide,
    by set_option maxRecDepth 100000 in decide⟩

end GraphQLDataSource
